import Mathlib

/-!
Verification development for the `pparser` repository: a shallow embedding of
the lexer (`lexer.hpp`) and the command/argument matching engine
(`pparser.hpp`), together with theorems settling the specification claims.

Modelling conventions:
* C++ `std::vector<char>` source buffers become `List Char`; out-of-range
  reads yield `'\x00'` exactly as `SourceIterator::current/peek/peek2` do.
* Fallible C++ code (thrown `LexError` / `std::runtime_error`) becomes
  `Except`.  Recursive loops take an explicit fuel argument; fuel exhaustion
  is a distinguished failure value (`.fuel`) that is proved unreachable for
  the fuel amounts the entry points pass.
* `long long` becomes `Int` with the explicit `LLONG_MAX` bound where the
  code checks ranges; `double` values are carried as exact rationals (`Rat`).
  IEEE-754 rounding is not modelled; no claim in this development depends on
  a float payload's numeric value.
-/

/-- Decidable equality for `Except` results (kernel-reducible). -/
def exceptDecEq {ε α : Type} [DecidableEq ε] [DecidableEq α] :
    (a b : Except ε α) → Decidable (a = b)
  | .error e, .error f =>
    if h : e = f then isTrue (by rw [h]) else isFalse (fun hh => by cases hh; exact h rfl)
  | .ok a, .ok b =>
    if h : a = b then isTrue (by rw [h]) else isFalse (fun hh => by cases hh; exact h rfl)
  | .error _, .ok _ => isFalse (fun hh => by cases hh)
  | .ok _, .error _ => isFalse (fun hh => by cases hh)

instance {ε α : Type} [DecidableEq ε] [DecidableEq α] : DecidableEq (Except ε α) :=
  exceptDecEq

namespace lexer

/-- Location within a piece of source code (class `Location`). -/
structure Location where
  filename : String
  line : Nat
  col : Nat
deriving DecidableEq, Repr

/-- `Location::print`: `filename (line:col)`, with `<string>` for an empty name. -/
def Location.printStr (loc : Location) : String :=
  (if loc.filename = "" then "<string>" else loc.filename) ++ " (" ++
    toString loc.line ++ ":" ++ toString loc.col ++ ")"

/-- The kinds of lexer errors (enum `LexErrorKind`). -/
inductive LexErrorKind
  | INVALID_CHAR
  | UNCLOSED_STRING
  | UNKNOWN_ESCAPE
  | INT_OUT_OF_RANGE
  | INCOMPLETE_INT
  | FLOAT_OUT_OF_RANGE
  | INVALID_FLOAT
deriving DecidableEq, Repr

/-- A lexer error: a `Location` plus a `LexErrorKind` (class `LexError`). -/
structure LexError where
  loc : Location
  kind : LexErrorKind
deriving DecidableEq, Repr

def LexError.invalidChar (loc : Location) : LexError := ⟨loc, .INVALID_CHAR⟩
def LexError.unclosedString (loc : Location) : LexError := ⟨loc, .UNCLOSED_STRING⟩
def LexError.unknownEscape (loc : Location) : LexError := ⟨loc, .UNKNOWN_ESCAPE⟩
def LexError.intOutOfRange (loc : Location) : LexError := ⟨loc, .INT_OUT_OF_RANGE⟩
def LexError.incompleteInt (loc : Location) : LexError := ⟨loc, .INCOMPLETE_INT⟩
def LexError.floatOutOfRange (loc : Location) : LexError := ⟨loc, .FLOAT_OUT_OF_RANGE⟩
def LexError.invalidFloat (loc : Location) : LexError := ⟨loc, .INVALID_FLOAT⟩

/-- Message text of `LexError::toString`'s switch. -/
def LexErrorKind.message : LexErrorKind → String
  | .INVALID_CHAR => "invalid character"
  | .UNCLOSED_STRING => "unclosed string literal"
  | .UNKNOWN_ESCAPE => "unknown escape character"
  | .INT_OUT_OF_RANGE => "integer literal out of 64-bit range"
  | .INCOMPLETE_INT => "incomplete integer literal"
  | .FLOAT_OUT_OF_RANGE => "floating-point literal out of range"
  | .INVALID_FLOAT => "invalid floating-point literal"

/-- `LexError::toString` (also the content of `what()`). -/
def LexError.toString (e : LexError) : String :=
  e.loc.printStr ++ ": " ++ e.kind.message

/-- Integer literal bases (enum `Base`). -/
inductive Base
  | DEC
  | BIN
  | HEX
deriving DecidableEq, Repr

/-- All token kinds (enum `TokenKind`). -/
inductive TokenKind
  | TOK_EOF
  | TOK_IF
  | TOK_ELSE
  | TOK_FOR
  | TOK_IN
  | TOK_WHILE
  | TOK_BREAK
  | TOK_RETURN
  | TOK_INT
  | TOK_BOOL
  | TOK_STRING
  | TOK_AND
  | TOK_OR
  | TOK_NOT
  | TOK_TRUE
  | TOK_FALSE
  | TOK_ASSIGN
  | TOK_PLUS
  | TOK_MINUS
  | TOK_DOUBLE_MINUS
  | TOK_TIMES
  | TOK_DIVIDE
  | TOK_MODULO
  | TOK_SHL
  | TOK_SHR
  | TOK_LESS
  | TOK_GREATER
  | TOK_LESS_EQ
  | TOK_GREATER_EQ
  | TOK_EQ
  | TOK_NOT_EQ
  | TOK_LPAREN
  | TOK_RPAREN
  | TOK_LBRACE
  | TOK_RBRACE
  | TOK_LBRACKET
  | TOK_RBRACKET
  | TOK_SEMI
  | TOK_COLON
  | TOK_COMMA
  | TOK_DOT
  | TOK_ID
  | TOK_INT_LIT
  | TOK_FLOAT_LIT
  | TOK_STR_LIT
  | TOK_FLAG_SHORT
  | TOK_FLAG_LONG
deriving DecidableEq, Repr

/-- Half-open byte span `[start, stop)` (struct `Span`; C++ field `end`). -/
structure Span where
  start : Nat
  stop : Nat
deriving DecidableEq, Repr

/-- One lexical token (class `Token`).

The C++ class is a `TokenKind` plus a union whose live member is fixed by
the kind; the factory methods (`makeId`, `makeShortFlag`, `makeLongFlag`,
`makeIntLit`, `makeFloatLit`, `makeStrLit` and the simple-token constructor)
only ever create the kind/payload combinations below, so the pair is modelled
as an inductive over exactly those combinations.  The `StringRef`
pointer-plus-length into the source buffer is modelled as the referenced
character slice itself. -/
inductive Token
  | simple (kind : TokenKind) (span : Span)
  | id (ref : List Char) (span : Span)
  | shortFlag (ref : List Char) (span : Span)
  | longFlag (ref : List Char) (span : Span)
  | intLit (value : Int) (base : Base) (span : Span)
  | floatLit (value : Rat) (hasExponent : Bool) (span : Span)
  | strLit (ref : List Char) (span : Span)
deriving DecidableEq, Repr

/-- `Token::getKind`. -/
def Token.getKind : Token → TokenKind
  | .simple k _ => k
  | .id _ _ => .TOK_ID
  | .shortFlag _ _ => .TOK_FLAG_SHORT
  | .longFlag _ _ => .TOK_FLAG_LONG
  | .intLit _ _ _ => .TOK_INT_LIT
  | .floatLit _ _ _ => .TOK_FLOAT_LIT
  | .strLit _ _ => .TOK_STR_LIT

/-- `Token::getSpan`. -/
def Token.getSpan : Token → Span
  | .simple _ sp => sp
  | .id _ sp => sp
  | .shortFlag _ sp => sp
  | .longFlag _ sp => sp
  | .intLit _ _ sp => sp
  | .floatLit _ _ sp => sp
  | .strLit _ sp => sp

/-- `Token::getIdValue`: the identifier/flag name (no dashes); throws
`std::runtime_error("Token is not an identifier or flag")` for other kinds. -/
def Token.getIdValue : Token → Except String String
  | .id ref _ => .ok (String.mk ref)
  | .shortFlag ref _ => .ok (String.mk ref)
  | .longFlag ref _ => .ok (String.mk ref)
  | _ => .error "Token is not an identifier or flag"

/-- `Token::getIntValue`; throws for non-integer-literal tokens. -/
def Token.getIntValue : Token → Except String Int
  | .intLit v _ _ => .ok v
  | _ => .error "Token is not an integer literal"

/-- The escape-processing loop inside `Token::getStrLitValue`. -/
def processEscapes : List Char → String
  | [] => ""
  | '\\' :: rest =>
    match rest with
    | [] => "\\"
    | e :: rest' =>
      let decoded : Char :=
        if e = 'n' then '\n'
        else if e = 'r' then '\r'
        else if e = 't' then '\t'
        else if e = '\\' then '\\'
        else if e = '"' then '"'
        else if e = '0' then '\x00'
        else e
      String.mk [decoded] ++ processEscapes rest'
  | c :: rest => String.mk [c] ++ processEscapes rest

/-- `Token::getStrLitValue`: decodes escapes from the raw slice; throws
`std::runtime_error("Token is not a string literal")` for any other kind. -/
def Token.getStrLitValue : Token → Except String String
  | .strLit ref _ => .ok (processEscapes ref)
  | _ => .error "Token is not a string literal"

/-- Reading a byte of the buffer, `'\x00'` when out of range — the behaviour
of `SourceIterator::current/peek/peek2` (and, for an embedded NUL byte, of
reading that byte itself). -/
def charAtD (code : List Char) (pos : Nat) : Char :=
  code.getD pos '\x00'

/-- Iterator over a `Source`'s characters (class `SourceIterator`). -/
structure SourceIterator where
  code : List Char
  filename : String
  line : Nat
  col : Nat
  pos : Nat
deriving DecidableEq, Repr

def SourceIterator.current (it : SourceIterator) : Char := charAtD it.code it.pos

def SourceIterator.peek (it : SourceIterator) : Char := charAtD it.code (it.pos + 1)

def SourceIterator.peek2 (it : SourceIterator) : Char := charAtD it.code (it.pos + 2)

/-- `SourceIterator::next`: advance one character, tracking line/column
(tab counts 4 columns, newline starts a new line). -/
def SourceIterator.next (it : SourceIterator) : SourceIterator :=
  if it.pos < it.code.length then
    let c := charAtD it.code it.pos
    if c = '\n' then { it with line := it.line + 1, col := 1, pos := it.pos + 1 }
    else if c = '\t' then { it with col := it.col + 4, pos := it.pos + 1 }
    else { it with col := it.col + 1, pos := it.pos + 1 }
  else it

def SourceIterator.next2 (it : SourceIterator) : SourceIterator := it.next.next

def SourceIterator.getLocation (it : SourceIterator) : Location :=
  ⟨it.filename, it.line, it.col⟩

/-- `Source::fromString` followed by `Source::getIterator`. -/
def SourceIterator.fromString (codeStr : String) (filename : String) : SourceIterator :=
  ⟨codeStr.data, filename, 1, 1, 0⟩

/-- `Lexer::isAsciiDecDigit`. -/
def isAsciiDecDigit (c : Char) : Bool := '0' ≤ c && c ≤ '9'

/-- `Lexer::isAsciiHexDigit`. -/
def isAsciiHexDigit (c : Char) : Bool :=
  ('0' ≤ c && c ≤ '9') || ('a' ≤ c && c ≤ 'f') || ('A' ≤ c && c ≤ 'F')

/-- `Lexer::isAsciiBinDigit`. -/
def isAsciiBinDigit (c : Char) : Bool := c = '0' || c = '1'

/-- `std::isalpha` in the default "C" locale (ASCII letters). -/
def isAlphaChar (c : Char) : Bool :=
  ('a' ≤ c && c ≤ 'z') || ('A' ≤ c && c ≤ 'Z')

/-- `Lexer::isIdentStart`: letters, `$`, `_`, `/`. -/
def isIdentStart (c : Char) : Bool :=
  isAlphaChar c || c = '$' || c = '_' || c = '/'

/-- `Lexer::isIdentCont`: ident-start, decimal digit, `.`, `/`. -/
def isIdentCont (c : Char) : Bool :=
  isIdentStart c || isAsciiDecDigit c || c = '.' || c = '/'

/-- `Lexer::isDigitOrUnderscore`. -/
def isDigitOrUnderscore (c : Char) (base : Base) : Bool :=
  if c = '_' then true
  else match base with
    | .DEC => isAsciiDecDigit c
    | .HEX => isAsciiHexDigit c
    | .BIN => isAsciiBinDigit c

/-- Failure modes of the modelled lexer: a thrown `LexError` (`err`), the
internal `std::runtime_error` of `lexShortFlag` (`fatal`), or fuel
exhaustion of the model (`fuel`), proved unreachable for the entry points. -/
inductive LexFail
  | fuel
  | err (e : LexError)
  | fatal (msg : String)
deriving DecidableEq, Repr

/-- The lexer's result monad. -/
abbrev LexM (α : Type) : Type := Except LexFail α

def throwLex {α : Type} (e : LexError) : LexM α := .error (.err e)

/-- The extracted slice `[a, b)` of a buffer (a `StringRef` of the C++
code, `source_code_ptr + a` with length `b - a`). -/
def sliceOf (code : List Char) (a b : Nat) : List Char :=
  (code.drop a).take (b - a)

/-- Generic character-skipping loop (the shape of the `while (pred(current()))
next();` loops of the C++ lexer). -/
def skipWhile (p : Char → Bool) : Nat → SourceIterator → LexM SourceIterator
  | 0, _ => .error .fuel
  | fuel + 1, it => if p it.current then skipWhile p fuel it.next else .ok it

/-- The single-line-comment loop inside `eatWhitespaceAndComments`. -/
def skipLineComment : Nat → SourceIterator → LexM SourceIterator
  | 0, _ => .error .fuel
  | fuel + 1, it =>
    let c := it.current
    if c = '\n' || c = '\x00' then .ok it
    else skipLineComment fuel it.next

/-- `Lexer::eatWhitespaceAndComments`. -/
def eatWhitespaceAndComments : Nat → SourceIterator → LexM SourceIterator
  | 0, _ => .error .fuel
  | fuel + 1, it =>
    let c := it.current
    if c = ' ' || c = '\t' || c = '\n' || c = '\r' then
      eatWhitespaceAndComments fuel it.next
    else if c = '/' then
      if it.peek = '/' then do
        let it' ← skipLineComment fuel it.next2
        eatWhitespaceAndComments fuel it'
      else .ok it
    else .ok it

/-- The keyword table of `Lexer::lexIdentifierOrKeyword`. -/
def keywordTable : List (String × TokenKind) :=
  [("if", .TOK_IF), ("else", .TOK_ELSE), ("for", .TOK_FOR), ("in", .TOK_IN),
   ("while", .TOK_WHILE), ("break", .TOK_BREAK), ("return", .TOK_RETURN),
   ("int", .TOK_INT), ("bool", .TOK_BOOL), ("string", .TOK_STRING),
   ("and", .TOK_AND), ("or", .TOK_OR), ("not", .TOK_NOT),
   ("true", .TOK_TRUE), ("false", .TOK_FALSE)]

/-- `Lexer::lexIdentifierOrKeyword`. -/
def lexIdentifierOrKeyword (fuel : Nat) (it : SourceIterator) :
    LexM (Token × SourceIterator) := do
  let startPos := it.pos
  let it2 ← skipWhile isIdentCont fuel it.next
  let endPos := it2.pos
  let slice := sliceOf it.code startPos endPos
  match keywordTable.find? (fun kw => kw.1.data = slice) with
  | some kw => .ok (Token.simple kw.2 ⟨startPos, endPos⟩, it2)
  | none => .ok (Token.id slice ⟨startPos, endPos⟩, it2)

/-- The scanning loop of `Lexer::lexString`; returns the iterator stopped at
the closing quote, or the `LexError` the C++ loop throws. -/
def lexStringLoop (startLoc : Location) : Nat → SourceIterator → LexM SourceIterator
  | 0, _ => .error .fuel
  | fuel + 1, it =>
    let c := it.current
    if c = '\x00' then throwLex (LexError.unclosedString startLoc)
    else if c = '\n' then throwLex (LexError.unclosedString it.getLocation)
    else if c = '"' then .ok it
    else if c = '\\' then
      let escapeLoc := it.getLocation
      let it' := it.next
      let ec := it'.current
      if ec = '\x00' || ec = '\n' then throwLex (LexError.unclosedString escapeLoc)
      else if ec = 'n' || ec = 'r' || ec = 't' || ec = '\\' || ec = '"' || ec = '0' then
        lexStringLoop startLoc fuel it'.next
      else throwLex (LexError.unknownEscape it'.getLocation)
    else lexStringLoop startLoc fuel it.next

/-- `Lexer::lexString`: raw content slice between the quotes. -/
def lexString (fuel : Nat) (it : SourceIterator) : LexM (Token × SourceIterator) := do
  let spanStart := it.pos
  let startLoc := it.getLocation
  let it1 := it.next
  let contentStart := it1.pos
  let it2 ← lexStringLoop startLoc fuel it1
  let contentEnd := it2.pos
  let it3 := it2.next
  let spanEnd := it3.pos
  .ok (Token.strLit (sliceOf it.code contentStart contentEnd) ⟨spanStart, spanEnd⟩, it3)

/-- `LLONG_MAX`. -/
def llongMax : Nat := 9223372036854775807

/-- `addToBuffer` of `Lexer::lexNumber`: `num_buffer` holds at most 63
characters (`buffer_max_idx`); further characters are dropped. -/
def addToBuffer (buf : List Char) (c : Char) : List Char :=
  if buf.length < 63 then buf ++ [c] else buf

/-- The main digit loop of `Lexer::lexNumber`, including its (dead)
first-digit re-add check `buffer_idx == 0 && start_pos == iter.position() - 1`
(the `size_t` comparison is rendered overflow-faithfully as
`startPos + 1 = pos`). -/
def takeDigitsMain (base : Base) (startPos : Nat) :
    Nat → SourceIterator → List Char → LexM (SourceIterator × List Char)
  | 0, _, _ => .error .fuel
  | fuel + 1, it, buf =>
    if isDigitOrUnderscore it.current base then
      let buf1 := if buf.isEmpty && startPos + 1 == it.pos then
          addToBuffer buf (charAtD it.code startPos)
        else buf
      let buf2 := if it.current ≠ '_' then addToBuffer buf1 it.current else buf1
      takeDigitsMain base startPos fuel it.next buf2
    else .ok (it, buf)

/-- The fraction/exponent digit loops of `Lexer::lexNumber` (no re-add check). -/
def takeDigits (base : Base) :
    Nat → SourceIterator → List Char → LexM (SourceIterator × List Char)
  | 0, _, _ => .error .fuel
  | fuel + 1, it, buf =>
    if isDigitOrUnderscore it.current base then
      let buf1 := if it.current ≠ '_' then addToBuffer buf it.current else buf
      takeDigits base fuel it.next buf1
    else .ok (it, buf)

/-- Numeric value of a (decimal or hex) digit character. -/
def digitVal (c : Char) : Nat :=
  if '0' ≤ c && c ≤ '9' then c.toNat - '0'.toNat
  else if 'a' ≤ c && c ≤ 'f' then c.toNat - 'a'.toNat + 10
  else if 'A' ≤ c && c ≤ 'F' then c.toNat - 'A'.toNat + 10
  else 0

def isBaseDigit (base : Base) (c : Char) : Bool :=
  match base with
  | .DEC => isAsciiDecDigit c
  | .HEX => isAsciiHexDigit c
  | .BIN => isAsciiBinDigit c

def baseRadix (base : Base) : Nat :=
  match base with
  | .DEC => 10
  | .HEX => 16
  | .BIN => 2

/-- Model of `strtoll(digits, &endptr, base)` on the digit-only buffers
`lexNumber` builds (no whitespace or sign is ever present): the value of the
maximal valid-digit prefix, the number of characters consumed, and whether
the value overflows `LLONG_MAX` (`errno == ERANGE`, result clamped). -/
def strtollM (s : List Char) (base : Base) : Int × Nat × Bool :=
  let ds := s.takeWhile (isBaseDigit base)
  let v : Nat := ds.foldl (fun acc c => acc * baseRadix base + digitVal c) 0
  ((min v llongMax : Nat), ds.length, decide (llongMax < v))

/-- Value of a digit run as a natural number. -/
def digitsVal (ds : List Char) : Nat :=
  ds.foldl (fun acc c => acc * 10 + digitVal c) 0

/-- Integer power of ten as a rational. -/
def pow10Z (e : Int) : Rat :=
  if 0 ≤ e then ((10 : Rat) ^ e.toNat) else 1 / ((10 : Rat) ^ (-e).toNat)

/-- Model of `strtod` on the buffers `lexNumber` builds (digits, at most one
`.`, an optional `e`/`E` exponent with optional sign): the exact rational
value of the consumed prefix and the number of characters consumed, following
the C `strtod` grammar (an exponent marker not followed by digits is not
consumed; a lone `.` converts nothing).  The conversion is exact over `Rat`;
IEEE-754 rounding is not modelled and no claim depends on the value. -/
def strtodM (s : List Char) : Rat × Nat :=
  let ip := s.takeWhile isAsciiDecDigit
  let r1 := s.drop ip.length
  let hasDot := r1.head? = some '.'
  let fp := if hasDot then (r1.drop 1).takeWhile isAsciiDecDigit else []
  if ip.isEmpty && (!hasDot || fp.isEmpty) then (0, 0)
  else
    let dotPart := if hasDot then 1 + fp.length else 0
    let consumed0 := ip.length + dotPart
    let q0 : Rat := (digitsVal ip : Rat) + (digitsVal fp : Rat) / ((10 : Rat) ^ fp.length)
    let r2 := s.drop consumed0
    match r2 with
    | 'e' :: r3 =>
      let sgn : Int := if r3.head? = some '-' then -1 else 1
      let r4 := if r3.head? = some '-' || r3.head? = some '+' then r3.drop 1 else r3
      let eds := r4.takeWhile isAsciiDecDigit
      if eds.isEmpty then (q0, consumed0)
      else (q0 * pow10Z (sgn * (digitsVal eds : Int)),
            consumed0 + 1 + (if r3.length ≠ r4.length then 1 else 0) + eds.length)
    | 'E' :: r3 =>
      let sgn : Int := if r3.head? = some '-' then -1 else 1
      let r4 := if r3.head? = some '-' || r3.head? = some '+' then r3.drop 1 else r3
      let eds := r4.takeWhile isAsciiDecDigit
      if eds.isEmpty then (q0, consumed0)
      else (q0 * pow10Z (sgn * (digitsVal eds : Int)),
            consumed0 + 1 + (if r3.length ≠ r4.length then 1 else 0) + eds.length)
    | _ => (q0, consumed0)

/-- `DBL_MAX` as an exact rational. -/
def dblMax : Rat := (2 : Rat) ^ 1024 - (2 : Rat) ^ 971

/-- Model of `errno == ERANGE` after `strtod`: overflow beyond the double
range.  (The exact IEEE rounding boundary and glibc's underflow `ERANGE` are
not modelled; no claim depends on this boundary.) -/
def strtodOverflow (q : Rat) : Bool := decide (dblMax < |q|)

/-- The conversion tail of `Lexer::lexNumber` (from "Null-terminate the
buffer" onward): prefix-completeness checks, then `strtod`/`strtoll`
conversion with range and full-consumption checks. -/
def finishNumber (startLoc : Location) (startPos : Nat) (base : Base)
    (isFloat hasExp : Bool) (buf : List Char) (it : SourceIterator) :
    LexM (Token × SourceIterator) :=
  if base = .HEX ∧ buf.length ≤ 2 then throwLex (LexError.incompleteInt it.getLocation)
  else if base = .BIN ∧ buf.length ≤ 2 then throwLex (LexError.incompleteInt it.getLocation)
  else
    let digitsStart := if base = .HEX ∨ base = .BIN then buf.drop 2 else buf
    let numberSpan : Span := ⟨startPos, it.pos⟩
    let endLoc := it.getLocation
    if isFloat then
      let (value, consumed) := strtodM buf
      if strtodOverflow value then throwLex (LexError.floatOutOfRange endLoc)
      else if consumed ≠ buf.length then throwLex (LexError.invalidFloat startLoc)
      else .ok (Token.floatLit value hasExp numberSpan, it)
    else
      if digitsStart.isEmpty then throwLex (LexError.incompleteInt startLoc)
      else
        let (value, consumed, overflow) := strtollM digitsStart base
        if overflow then throwLex (LexError.intOutOfRange endLoc)
        else if consumed ≠ digitsStart.length then throwLex (LexError.incompleteInt startLoc)
        else .ok (Token.intLit value base numberSpan, it)

/-- The decimal-float detection of `Lexer::lexNumber` (the `base == DEC`
block): optional `.` + digits, then optional `e`/`E` exponent, each only
consumed when validly continued; returns `(isFloat, hasExponent, buffer,
iterator)`. -/
def lexNumberFloatPart (fuel : Nat) (buf : List Char) (it : SourceIterator) :
    LexM (Bool × Bool × List Char × SourceIterator) := do
  let (isF1, buf1, it1) ←
    if it.current = '.' && isAsciiDecDigit it.peek then do
      let (it', b') ← takeDigits .DEC fuel it.next (addToBuffer buf '.')
      (.ok (true, b', it') : LexM _)
    else (.ok (false, buf, it) : LexM _)
  if it1.current = 'e' || it1.current = 'E' then
    let expPeek := it1.peek
    let expPeek2 := it1.peek2
    if isAsciiDecDigit expPeek ||
        ((expPeek = '+' || expPeek = '-') && isAsciiDecDigit expPeek2) then do
      let buf2 := addToBuffer buf1 it1.current
      let it2 := it1.next
      let (buf3, it3) :=
        if it2.current = '+' || it2.current = '-' then
          (addToBuffer buf2 it2.current, it2.next)
        else (buf2, it2)
      let (it4, buf4) ← takeDigits .DEC fuel it3 buf3
      .ok (true, true, buf4, it4)
    else .ok (isF1, false, buf1, it1)
  else .ok (isF1, false, buf1, it1)

/-- `Lexer::lexNumber`. -/
def lexNumber (fuel : Nat) (it0 : SourceIterator) : LexM (Token × SourceIterator) := do
  let startPos := it0.pos
  let startLoc := it0.getLocation
  -- base-prefix handling (the `current() == '0'` block)
  let (base, buf0, it1, earlyZero) ←
    if it0.current = '0' then
      let bufA := addToBuffer [] '0'
      let itA := it0.next
      let p := itA.current
      if p = 'x' || p = 'X' then
        let bufB := addToBuffer bufA p
        let itB := itA.next
        if !isAsciiHexDigit itB.current then
          (throwLex (LexError.incompleteInt itB.getLocation) : LexM _)
        else (.ok (Base.HEX, bufB, itB, false) : LexM _)
      else if p = 'b' || p = 'B' then
        let bufB := addToBuffer bufA p
        let itB := itA.next
        if !isAsciiBinDigit itB.current then
          (throwLex (LexError.incompleteInt itB.getLocation) : LexM _)
        else (.ok (Base.BIN, bufB, itB, false) : LexM _)
      else if !isAsciiDecDigit p && p ≠ '.' && p ≠ 'e' && p ≠ 'E' then
        (.ok (Base.DEC, bufA, itA, true) : LexM _)
      else (.ok (Base.DEC, bufA, itA, false) : LexM _)
    else (.ok (Base.DEC, [], it0, false) : LexM _)
  if earlyZero then
    .ok (Token.intLit 0 .DEC ⟨startPos, it1.pos⟩, it1)
  else do
    let (it2, buf1) ← takeDigitsMain base startPos fuel it1 buf0
    -- post-loop first-digit re-add (dead in practice, mirrored faithfully)
    let buf1' := if buf1.isEmpty && startPos + 1 == it2.pos then
        addToBuffer buf1 (charAtD it2.code startPos)
      else buf1
    if base = .DEC then do
      let (isFloat, hasExp, buf2, it3) ← lexNumberFloatPart fuel buf1' it2
      finishNumber startLoc startPos base isFloat hasExp buf2 it3
    else
      if it2.current = '.' || it2.current = 'e' || it2.current = 'E' then
        throwLex (LexError.invalidChar it2.getLocation)
      else
        finishNumber startLoc startPos base false false buf1' it2

/-- `Lexer::lexShortFlag` (called with the iterator just after `-`;
`startPos` is the position of the `-`). -/
def lexShortFlag (fuel : Nat) (startPos : Nat) (it : SourceIterator) :
    LexM (Token × SourceIterator) := do
  let contentStart := it.pos
  let it' ← skipWhile (fun c => isIdentCont c || isAsciiDecDigit c) fuel it
  let endPos := it'.pos
  let length := endPos - contentStart
  if length = 0 then
    .error (.fatal "Internal lexer error: lexShortFlag called incorrectly")
  else
    .ok (Token.shortFlag (sliceOf it.code contentStart endPos) ⟨startPos, endPos⟩, it')

/-- `Lexer::lexLongFlag` (called with the iterator just after `--`;
`startPos` is the position of the first `-`). -/
def lexLongFlag (fuel : Nat) (startPos : Nat) (it : SourceIterator) :
    LexM (Token × SourceIterator) := do
  let nameStartLoc := it.getLocation
  let nameStartPos := it.pos
  let it' ← skipWhile isIdentCont fuel it
  let nameEndPos := it'.pos
  let nameLength := nameEndPos - nameStartPos
  if nameLength = 0 then throwLex (LexError.invalidChar nameStartLoc)
  else
    .ok (Token.longFlag (sliceOf it.code nameStartPos nameEndPos) ⟨startPos, nameEndPos⟩, it')

/-- `Lexer::nextToken`. -/
def nextToken (fuel : Nat) (it : SourceIterator) : LexM (Token × SourceIterator) :=
  let startPos := it.pos
  let startLoc := it.getLocation
  let c := it.current
  if c = '\x00' then .ok (Token.simple .TOK_EOF ⟨startPos, startPos⟩, it)
  else if c = '+' then .ok (Token.simple .TOK_PLUS ⟨startPos, it.next.pos⟩, it.next)
  else if c = '*' then .ok (Token.simple .TOK_TIMES ⟨startPos, it.next.pos⟩, it.next)
  else if c = '%' then .ok (Token.simple .TOK_MODULO ⟨startPos, it.next.pos⟩, it.next)
  else if c = '(' then .ok (Token.simple .TOK_LPAREN ⟨startPos, it.next.pos⟩, it.next)
  else if c = ')' then .ok (Token.simple .TOK_RPAREN ⟨startPos, it.next.pos⟩, it.next)
  else if c = '{' then .ok (Token.simple .TOK_LBRACE ⟨startPos, it.next.pos⟩, it.next)
  else if c = '}' then .ok (Token.simple .TOK_RBRACE ⟨startPos, it.next.pos⟩, it.next)
  else if c = '[' then .ok (Token.simple .TOK_LBRACKET ⟨startPos, it.next.pos⟩, it.next)
  else if c = ']' then .ok (Token.simple .TOK_RBRACKET ⟨startPos, it.next.pos⟩, it.next)
  else if c = ';' then .ok (Token.simple .TOK_SEMI ⟨startPos, it.next.pos⟩, it.next)
  else if c = ':' then .ok (Token.simple .TOK_COLON ⟨startPos, it.next.pos⟩, it.next)
  else if c = ',' then .ok (Token.simple .TOK_COMMA ⟨startPos, it.next.pos⟩, it.next)
  else if c = '-' then
    let it1 := it.next
    if it1.current = '-' then
      let it2 := it1.next
      if isIdentStart it2.current then lexLongFlag fuel startPos it2
      else if !isIdentCont it2.current && !isAsciiDecDigit it2.current then
        .ok (Token.simple .TOK_DOUBLE_MINUS ⟨startPos, it2.pos⟩, it2)
      else
        throwLex (LexError.invalidChar ⟨startLoc.filename, startLoc.line, startLoc.col + 2⟩)
    else if isIdentStart it1.current || isAsciiDecDigit it1.current then
      lexShortFlag fuel startPos it1
    else .ok (Token.simple .TOK_MINUS ⟨startPos, it1.pos⟩, it1)
  else if c = '/' then
    if isIdentCont it.peek then lexIdentifierOrKeyword fuel it
    else .ok (Token.simple .TOK_DIVIDE ⟨startPos, it.next.pos⟩, it.next)
  else if c = '<' then
    let it1 := it.next
    if it1.current = '<' then .ok (Token.simple .TOK_SHL ⟨startPos, it1.next.pos⟩, it1.next)
    else if it1.current = '=' then .ok (Token.simple .TOK_LESS_EQ ⟨startPos, it1.next.pos⟩, it1.next)
    else .ok (Token.simple .TOK_LESS ⟨startPos, it1.pos⟩, it1)
  else if c = '>' then
    let it1 := it.next
    if it1.current = '>' then .ok (Token.simple .TOK_SHR ⟨startPos, it1.next.pos⟩, it1.next)
    else if it1.current = '=' then .ok (Token.simple .TOK_GREATER_EQ ⟨startPos, it1.next.pos⟩, it1.next)
    else .ok (Token.simple .TOK_GREATER ⟨startPos, it1.pos⟩, it1)
  else if c = '=' then
    let it1 := it.next
    if it1.current = '=' then .ok (Token.simple .TOK_EQ ⟨startPos, it1.next.pos⟩, it1.next)
    else .ok (Token.simple .TOK_ASSIGN ⟨startPos, it1.pos⟩, it1)
  else if c = '!' then
    let it1 := it.next
    if it1.current = '=' then .ok (Token.simple .TOK_NOT_EQ ⟨startPos, it1.next.pos⟩, it1.next)
    else .ok (Token.simple .TOK_NOT ⟨startPos, it1.pos⟩, it1)
  else if c = '"' then lexString fuel it
  else if isAsciiDecDigit c then lexNumber fuel it
  else if isIdentStart c then lexIdentifierOrKeyword fuel it
  else throwLex (LexError.invalidChar startLoc)

/-- The loop of `Lexer::lexAll`: whitespace/comments, one token, stop at
the end-marker token. -/
def lexAll : Nat → SourceIterator → LexM (List Token)
  | 0, _ => .error .fuel
  | fuel + 1, it => do
    let it1 ← eatWhitespaceAndComments fuel it
    let (tok, it2) ← nextToken fuel it1
    if tok.getKind = .TOK_EOF then .ok [tok]
    else do
      let rest ← lexAll fuel it2
      .ok (tok :: rest)

/-- `Lexer::tokenize` on a raw character buffer: the fuel passed is
sufficient (proved below), so `.error .fuel` is unreachable. -/
def tokenizeL (code : List Char) (filename : String) : LexM (List Token) :=
  lexAll (code.length + 2) ⟨code, filename, 1, 1, 0⟩

/-- `Lexer::tokenize(Source::fromString(s, filename))`. -/
def tokenize (s : String) (filename : String) : LexM (List Token) :=
  tokenizeL s.data filename

end lexer

namespace lexer

/-- `Token::getFloatValue`; throws for non-float-literal tokens. -/
def Token.getFloatValue : Token → Except String Rat
  | .floatLit v _ _ => .ok v
  | _ => .error "Token is not a float literal"

/-- `Token::hasFloatExponent`; throws for non-float-literal tokens. -/
def Token.hasFloatExponent : Token → Except String Bool
  | .floatLit _ e _ => .ok e
  | _ => .error "Token is not a float literal"

/-- `std::isprint` in the default "C" locale. -/
def isPrintAscii (c : Char) : Bool := 32 ≤ c.toNat && c.toNat ≤ 126

/-- The display-escaping loop of `Token::print` for string literals. -/
def displayEscape : List Char → String
  | [] => ""
  | '\\' :: rest =>
    match rest with
    | [] => "\\"
    | e :: rest' =>
      if e = 'n' then "\\n" ++ displayEscape rest'
      else if e = 'r' then "\\r" ++ displayEscape rest'
      else if e = 't' then "\\t" ++ displayEscape rest'
      else if e = '\\' then "\\\\" ++ displayEscape rest'
      else if e = '"' then "\\\"" ++ displayEscape rest'
      else if e = '0' then "\\0" ++ displayEscape rest'
      else if isPrintAscii e then "\\" ++ String.mk [e] ++ displayEscape rest'
      else "\\" ++ displayEscape (e :: rest')
  | c :: rest =>
    (if c = '"' then "\\\""
     else if c = '\n' then "\\n"
     else if c = '\r' then "\\r"
     else if c = '\t' then "\\t"
     else if isPrintAscii c then String.mk [c]
     else "�") ++ displayEscape rest

/-- The `simpleTokens` map of `Token::print`. -/
def simpleTokenStr : TokenKind → Option String
  | .TOK_EOF => some "<EOF>"
  | .TOK_IF => some "if"
  | .TOK_ELSE => some "else"
  | .TOK_FOR => some "for"
  | .TOK_IN => some "in"
  | .TOK_WHILE => some "while"
  | .TOK_BREAK => some "break"
  | .TOK_RETURN => some "return"
  | .TOK_INT => some "int"
  | .TOK_BOOL => some "bool"
  | .TOK_STRING => some "string"
  | .TOK_AND => some "and"
  | .TOK_OR => some "or"
  | .TOK_NOT => some "not"
  | .TOK_TRUE => some "true"
  | .TOK_FALSE => some "false"
  | .TOK_ASSIGN => some "="
  | .TOK_PLUS => some "+"
  | .TOK_MINUS => some "-"
  | .TOK_DOUBLE_MINUS => some "--"
  | .TOK_TIMES => some "*"
  | .TOK_DIVIDE => some "/"
  | .TOK_MODULO => some "%"
  | .TOK_SHL => some "<<"
  | .TOK_SHR => some ">>"
  | .TOK_LESS => some "<"
  | .TOK_GREATER => some ">"
  | .TOK_LESS_EQ => some "<="
  | .TOK_GREATER_EQ => some ">="
  | .TOK_EQ => some "=="
  | .TOK_NOT_EQ => some "!="
  | .TOK_LPAREN => some "("
  | .TOK_RPAREN => some ")"
  | .TOK_LBRACE => some "\x7b"
  | .TOK_RBRACE => some "\x7d"
  | .TOK_LBRACKET => some "["
  | .TOK_RBRACKET => some "]"
  | .TOK_SEMI => some ";"
  | .TOK_COLON => some ":"
  | .TOK_COMMA => some ","
  | .TOK_DOT => some "."
  | _ => Option.none

/-- `Token::print` (the token's printable form, used in diagnostics).
Float literals are formatted by iostream in C++; IEEE-754 formatting is not
modelled — the exact rational is rendered instead.  No claim inspects a
printed float. -/
def Token.printStr : Token → String
  | .shortFlag ref _ => "-" ++ String.mk ref
  | .longFlag ref _ => "--" ++ String.mk ref
  | .simple k _ => (simpleTokenStr k).getD "<Unknown TokenKind>"
  | .id ref _ => String.mk ref
  | .strLit ref _ => "\"" ++ displayEscape ref ++ "\""
  | .intLit v base _ =>
    match base with
    | .HEX => "0x" ++ String.mk (Nat.toDigits 16 v.toNat)
    | .BIN => "0b" ++ String.mk (Nat.toDigits 2 v.toNat)
    | .DEC => toString v
  | .floatLit v _ _ => toString v

end lexer

namespace pparser

/-- The tagged-union value type (`struct ArgValueImpl`, `typedef ArgValue`).
The C++ union's owned-pointer members are modelled by the payloads. -/
inductive ArgValue
  | none
  | bool (b : Bool)
  | int (i : Int)
  | double (d : Rat)
  | str (s : String)
  | strVec (v : List String)
deriving DecidableEq, Repr

def ArgValue.isNone : ArgValue → Bool
  | .none => true
  | _ => false

def ArgValue.isBool : ArgValue → Bool
  | .bool _ => true
  | _ => false

def ArgValue.isInt : ArgValue → Bool
  | .int _ => true
  | _ => false

def ArgValue.isDouble : ArgValue → Bool
  | .double _ => true
  | _ => false

def ArgValue.isString : ArgValue → Bool
  | .str _ => true
  | _ => false

def ArgValue.isStringVector : ArgValue → Bool
  | .strVec _ => true
  | _ => false

/-- `ArgValueImpl::getBool` (safe getter; null when the tag differs). -/
def ArgValue.getBool : ArgValue → Option Bool
  | .bool b => some b
  | _ => Option.none

def ArgValue.getInt : ArgValue → Option Int
  | .int i => some i
  | _ => Option.none

def ArgValue.getDouble : ArgValue → Option Rat
  | .double d => some d
  | _ => Option.none

def ArgValue.getString : ArgValue → Option String
  | .str s => some s
  | _ => Option.none

def ArgValue.getStringVector : ArgValue → Option (List String)
  | .strVec v => some v
  | _ => Option.none

/-- Argument arity/type (enum `ArgType`). -/
inductive ArgType
  | FLAG
  | SINGLE
  | MULTIPLE
  | POSITIONAL
deriving DecidableEq, Repr

/-- Declaration of one flag or positional argument (struct `ArgumentDef`). -/
structure ArgumentDef where
  name : String
  shortName : String
  longName : String
  help : String
  type : ArgType
  required : Bool
  defaultValue : ArgValue
  isHelpFlag : Bool
deriving DecidableEq, Repr

/-- `ArgumentDef::getDisplayName` (e.g. `-f, --file <value>...`). -/
def ArgumentDef.getDisplayName (arg : ArgumentDef) : String :=
  let d1 := if arg.shortName ≠ "" then arg.shortName else ""
  let d2 :=
    if arg.longName ≠ "" then
      (if d1 ≠ "" then d1 ++ ", " else d1) ++ arg.longName
    else d1
  if arg.type ≠ .FLAG ∧ arg.type ≠ .POSITIONAL then
    d2 ++ " <value>" ++ (if arg.type = .MULTIPLE then "..." else "")
  else d2

/-- Parse outcome status (enum `ParseResult::PParserStatus`). -/
inductive ParseStatus
  | SUCCESS
  | HELP_REQUESTED
  | PARSE_ERROR
deriving DecidableEq, Repr

/-- Outcome of a parse (class `ParseResult`).  `keywordValues` is a
`std::map<std::string, ArgValue>`, modelled as an association list with
`mapSet`/`mapFind` below; no claim depends on the map's traversal order. -/
structure ParseResult where
  status : ParseStatus
  exitCode : Int
  errorMessage : String
  commandPath : String
  keywordValues : List (String × ArgValue)
  positionalValues : List ArgValue
deriving DecidableEq, Repr

/-- `std::map::operator[] =` on `keywordValues`: replace in place or append. -/
def mapSet (m : List (String × ArgValue)) (k : String) (v : ArgValue) :
    List (String × ArgValue) :=
  match m with
  | [] => [(k, v)]
  | (k', v') :: rest => if k' = k then (k, v) :: rest else (k', v') :: mapSet rest k v

/-- `std::map::find` on `keywordValues`. -/
def mapFind (m : List (String × ArgValue)) (k : String) : Option ArgValue :=
  match m with
  | [] => Option.none
  | (k', v') :: rest => if k' = k then some v' else mapFind rest k

/-- `keywordArgsSeen[name] = true` (a `std::map<std::string, bool>` that only
ever stores `true`, modelled as the set of inserted keys). -/
def seenInsert (s : List String) (k : String) : List String :=
  if s.contains k then s else s ++ [k]

/-- A command tree node (class `Command`).  The handler function pointer is
modelled as an optional Lean function. -/
inductive Command
  | mk (name : String) (help : String) (keywordArgs : List ArgumentDef)
       (positionalArgs : List ArgumentDef) (subcommands : List (String × Command))
       (aliases : List String) (handler : Option (ParseResult → Int))

def Command.name : Command → String
  | .mk n _ _ _ _ _ _ => n

def Command.help : Command → String
  | .mk _ h _ _ _ _ _ => h

def Command.keywordArgs : Command → List ArgumentDef
  | .mk _ _ k _ _ _ _ => k

def Command.positionalArgs : Command → List ArgumentDef
  | .mk _ _ _ p _ _ _ => p

def Command.subcommands : Command → List (String × Command)
  | .mk _ _ _ _ s _ _ => s

def Command.aliases : Command → List String
  | .mk _ _ _ _ _ a _ => a

def Command.handler : Command → Option (ParseResult → Int)
  | .mk _ _ _ _ _ _ h => h

/-- `Command::hasAlias`. -/
def Command.hasAlias (cmd : Command) (a : String) : Bool :=
  cmd.aliases.contains a

/-- The standard help argument added by `Command::ensureHelpArgument`. -/
def helpArgumentDef : ArgumentDef :=
  ⟨"help", "-h", "--help", "Show this help message and exit", .FLAG, false,
    ArgValue.bool false, true⟩

/-- `Command::ensureHelpArgument`. -/
def ensureHelpArgument (args : List ArgumentDef) : List ArgumentDef :=
  if args.any (fun a => a.name = "help") then args else args ++ [helpArgumentDef]

/-- The `Command(name, help)` constructor (which calls `ensureHelpArgument`). -/
def Command.new (name help : String) : Command :=
  .mk name help (ensureHelpArgument []) [] [] [] Option.none

/-- `String::substr(n)` on our string model. -/
def strDropStr (s : String) (n : Nat) : String := String.mk (s.data.drop n)

/-- `Command::findKeywordArg`: match the flag name (without dashes) against
the name part of `shortName` / `longName`. -/
def Command.findKeywordArg (cmd : Command) (flagNameValue : String)
    (isShortFlagKind : Bool) : Option ArgumentDef :=
  cmd.keywordArgs.find? (fun arg =>
    if isShortFlagKind then
      decide (arg.shortName.data.length > 1) && strDropStr arg.shortName 1 == flagNameValue
    else
      decide (arg.longName.data.length > 2) && strDropStr arg.longName 2 == flagNameValue)

/-- `Command::parseTokenValue`: coerce one token into an `ArgValue` for the
expected argument type.  Thrown C++ exceptions (from the `Token` accessors)
surface as `.error`. -/
def parseTokenValue (token : lexer.Token) (expectedType : ArgType) :
    Except String ArgValue :=
  let expectString : Bool :=
    expectedType = ArgType.SINGLE || expectedType = ArgType.MULTIPLE ||
      expectedType = ArgType.POSITIONAL
  match token.getKind with
  | .TOK_INT_LIT =>
    if expectedType = ArgType.SINGLE || expectedType = ArgType.POSITIONAL then do
      let v ← token.getIntValue
      .ok (ArgValue.int v)
    else if expectString then do
      let s ← token.getStrLitValue
      .ok (ArgValue.str s)
    else .ok ArgValue.none
  | .TOK_FLOAT_LIT =>
    if expectedType = ArgType.SINGLE || expectedType = ArgType.POSITIONAL then do
      let v ← token.getFloatValue
      .ok (ArgValue.double v)
    else if expectString then do
      let s ← token.getStrLitValue
      .ok (ArgValue.str s)
    else .ok ArgValue.none
  | .TOK_TRUE =>
    if expectedType = ArgType.SINGLE || expectedType = ArgType.POSITIONAL then
      .ok (ArgValue.bool true)
    else if expectString then .ok (ArgValue.str "true")
    else .ok ArgValue.none
  | .TOK_FALSE =>
    if expectedType = ArgType.SINGLE || expectedType = ArgType.POSITIONAL then
      .ok (ArgValue.bool false)
    else if expectString then .ok (ArgValue.str "false")
    else .ok ArgValue.none
  | .TOK_STR_LIT =>
    if expectString then do
      let s ← token.getStrLitValue
      .ok (ArgValue.str s)
    else .ok ArgValue.none
  | .TOK_ID =>
    if expectString then do
      let s ← token.getIdValue
      .ok (ArgValue.str s)
    else .ok ArgValue.none
  | _ => .ok ArgValue.none

/-- Failure modes of the modelled matcher: a C++ exception propagating out of
`Command::parse` (`ex`), or fuel exhaustion of the model (`fuel` — reachable
only where the C++ loop itself would not terminate). -/
inductive PFail
  | fuel
  | ex (msg : String)
deriving DecidableEq, Repr

/-- The mutable state of `Command::parse`'s main loop: the `keywordArgsSeen`
set, `currentPositionalArgIndex`, and the `ParseResult` under construction. -/
structure PState where
  seen : List String
  posIdx : Nat
  result : ParseResult
deriving Repr

/-- An early `return result` with `PARSE_ERROR`, message and exit code 1. -/
def PState.errResult (st : PState) (msg : String) : ParseResult :=
  { st.result with status := .PARSE_ERROR, errorMessage := msg, exitCode := 1 }

/-- An early `return result` with `HELP_REQUESTED` and exit code 0. -/
def PState.helpResult (st : PState) : ParseResult :=
  { st.result with status := .HELP_REQUESTED, exitCode := 0 }

/-- Mark a keyword argument seen and set its value. -/
def PState.setSeenTrue (st : PState) (argName : String) (v : ArgValue) : PState :=
  { st with
      seen := seenInsert st.seen argName
      result := { st.result with
        keywordValues := mapSet st.result.keywordValues argName v } }

/-- The combined-short-flags loop of `Command::parse` (a short-flag token
whose name is longer than one character): each character must resolve to a
non-help FLAG argument; `inl` is an early `return result`, `inr` continues
the main loop. -/
def processCluster (cmd : Command) : List Char → PState → Sum ParseResult PState
  | [], st => .inr st
  | c :: rest, st =>
    match cmd.findKeywordArg (String.mk [c]) true with
    | Option.none =>
      .inl (st.errResult ("Unknown option in combined flags: -" ++ String.mk [c]))
    | some matchedArg =>
      if matchedArg.isHelpFlag then .inl st.helpResult
      else if matchedArg.type ≠ .FLAG then
        .inl (st.errResult ("Option -" ++ String.mk [c] ++
          " requires a value and cannot be combined."))
      else
        processCluster cmd rest (st.setSeenTrue matchedArg.name (ArgValue.bool true))

/-- The greedy value-consumption loop shared by MULTIPLE keyword options and
MULTIPLE positionals: consume consecutive non-flag tokens whose
`parseTokenValue (…, ARGTYPE_SINGLE)` coercion yields a string; returns the
strings and the number of tokens consumed. -/
def consumeStrings : List lexer.Token → Except String (List String × Nat)
  | [] => .ok ([], 0)
  | tok :: rest =>
    if tok.getKind = .TOK_FLAG_SHORT || tok.getKind = .TOK_FLAG_LONG then .ok ([], 0)
    else
      match parseTokenValue tok .SINGLE with
      | .error msg => .error msg
      | .ok v =>
        match v.getString with
        | some s =>
          match consumeStrings rest with
          | .error msg => .error msg
          | .ok (more, k) => .ok (s :: more, k + 1)
        | Option.none => .ok ([], 0)

/-- The trailing-positional fill of `Command::parse`'s post-loop validation:
a required slot is a missing-required-positional error (with the defaults
appended so far kept in the result, as in the C++ loop); optional slots
receive their declared default. -/
def fillPositionals : List ArgumentDef → PState → Sum ParseResult PState
  | [], st => .inr st
  | arg :: rest, st =>
    if arg.required then
      .inl (st.errResult ("Missing required positional argument: " ++ arg.name))
    else
      fillPositionals rest
        { st with result := { st.result with
            positionalValues := st.result.positionalValues ++ [arg.defaultValue] } }

/-- The post-loop validation and handler dispatch of `Command::parse`
(required keyword check, trailing-positional fill, handler invocation). -/
def finalize (cmd : Command) (st : PState) : ParseResult :=
  match cmd.keywordArgs.find? (fun arg =>
      !arg.isHelpFlag && arg.required && !(st.seen.contains arg.name)) with
  | some arg => st.errResult ("Missing required option: " ++ arg.getDisplayName)
  | Option.none =>
    match fillPositionals (cmd.positionalArgs.drop st.posIdx) st with
    | .inl r => r
    | .inr st' =>
      let r := st'.result
      match cmd.handler, r.status with
      | some h, .SUCCESS => { r with exitCode := h r }
      | _, _ => r

/-- Initial `ParseResult`/loop state of one `Command::parse` invocation:
command path extended, every non-help keyword argument pre-seeded with its
default value. -/
def initKeywordValues (args : List ArgumentDef) : List (String × ArgValue) :=
  args.foldl (fun m arg => if arg.isHelpFlag then m else mapSet m arg.name arg.defaultValue) []

def Command.initState (cmd : Command) (pathPfx : String) : PState :=
  { seen := []
    posIdx := 0
    result := { status := .SUCCESS
                exitCode := 0
                errorMessage := ""
                commandPath := pathPfx ++ cmd.name
                keywordValues := initKeywordValues cmd.keywordArgs
                positionalValues := [] } }

/-- `std::map::find` on the subcommand map. -/
def assocFind : List (String × Command) → String → Option Command
  | [], _ => Option.none
  | (n, c) :: rest, key => if n = key then some c else assocFind rest key

/-- The positional-argument step of `Command::parse`'s main loop (a token
that is neither a flag nor a matched subcommand): `inl` is an early
`return result`, `inr (st, idx)` continues the loop at `idx`.  A positional
slot declared with a type other than SINGLE/MULTIPLE takes neither branch in
the C++ `if`/`else if`, consuming nothing — the loop then repeats forever;
the model mirrors this by continuing at the same index (fuel exhaustion). -/
def handlePositional (cmd : Command) (tokens : List lexer.Token) (idx : Nat)
    (st : PState) (token : lexer.Token) :
    Except String (Sum (ParseResult × Nat) (PState × Nat)) :=
  match cmd.positionalArgs.get? st.posIdx with
  | Option.none =>
    .ok (.inl ({ st.result with
      status := .PARSE_ERROR
      errorMessage := "Unexpected argument: " ++ token.printStr
      exitCode := 1 }, idx))
  | some posArgDef =>
    match parseTokenValue token posArgDef.type with
    | .error msg => .error msg
    | .ok parsedValue =>
      if parsedValue.isNone then
        .ok (.inl (st.errResult ("Invalid value for positional argument '" ++
          posArgDef.name ++ "'"), idx))
      else if posArgDef.type = .SINGLE then
        .ok (.inr ({ st with
          posIdx := st.posIdx + 1
          result := { st.result with
            positionalValues := st.result.positionalValues ++ [parsedValue] } }, idx + 1))
      else if posArgDef.type = .MULTIPLE then
        if !parsedValue.isString then
          .ok (.inl (st.errResult ("Internal error: Expected string value for " ++
            "multiple positional argument " ++ posArgDef.name), idx))
        else
          let v0 := match parsedValue.getString with
            | some s => [s]
            | Option.none => []
          match consumeStrings (tokens.drop (idx + 1)) with
          | .error msg => .error msg
          | .ok (more, k) =>
            .ok (.inr ({ st with
              posIdx := st.posIdx + 1
              result := { st.result with
                positionalValues := st.result.positionalValues ++
                  [ArgValue.strVec (v0 ++ more)] } }, idx + 1 + k))
      else
        .ok (.inr (st, idx))

/-- The main loop of `Command::parse`, with the token cursor as an explicit
index and the loop state threaded functionally.  Delegation to a subcommand
recurses with that subcommand's fresh initial state and returns its result
verbatim. -/
def parseGo : Nat → Command → List lexer.Token → Nat → PState →
    Except PFail (ParseResult × Nat)
  | 0, _, _, _, _ => .error .fuel
  | fuel + 1, cmd, tokens, idx, st =>
    match tokens.get? idx with
    | Option.none => .ok (finalize cmd st, idx)
    | some token =>
      let kind := token.getKind
      if kind = .TOK_FLAG_SHORT || kind = .TOK_FLAG_LONG then
        match token.getIdValue with
        | .error msg => .error (.ex msg)
        | .ok flagNameStr =>
          let isShortFlagKind := kind = lexer.TokenKind.TOK_FLAG_SHORT
          if isShortFlagKind && decide (flagNameStr.data.length > 1) then
            match processCluster cmd flagNameStr.data st with
            | .inl r => .ok (r, idx + 1)
            | .inr st' => parseGo fuel cmd tokens (idx + 1) st'
          else
            match cmd.findKeywordArg flagNameStr isShortFlagKind with
            | Option.none =>
              .ok (st.errResult ("Unknown option: " ++
                (if isShortFlagKind then "-" else "--") ++ flagNameStr), idx)
            | some matchedArg =>
              if matchedArg.isHelpFlag then .ok (st.helpResult, idx)
              else
                let idx1 := idx + 1
                let st1 : PState := { st with seen := seenInsert st.seen matchedArg.name }
                if matchedArg.type = .FLAG then
                  parseGo fuel cmd tokens idx1
                    { st1 with result := { st1.result with
                      keywordValues := mapSet st1.result.keywordValues matchedArg.name
                        (ArgValue.bool true) } }
                else
                  match tokens.get? idx1 with
                  | Option.none =>
                    .ok (st1.errResult ("Option " ++ matchedArg.getDisplayName ++
                      " requires a value."), idx1)
                  | some valueToken =>
                    if valueToken.getKind = .TOK_FLAG_SHORT ||
                        valueToken.getKind = .TOK_FLAG_LONG then
                      .ok (st1.errResult ("Option " ++ matchedArg.getDisplayName ++
                        " requires a value."), idx1)
                    else
                      match parseTokenValue valueToken matchedArg.type with
                      | .error msg => .error (.ex msg)
                      | .ok parsedValue =>
                        if parsedValue.isNone then
                          .ok (st1.errResult ("Invalid value for option " ++
                            matchedArg.getDisplayName), idx1)
                        else if matchedArg.type = .SINGLE then
                          parseGo fuel cmd tokens (idx1 + 1)
                            { st1 with result := { st1.result with
                              keywordValues := mapSet st1.result.keywordValues
                                matchedArg.name parsedValue } }
                        else if matchedArg.type = .MULTIPLE then
                          if !parsedValue.isString then
                            .ok (st1.errResult ("Internal error: Expected string value " ++
                              "for multiple option " ++ matchedArg.name), idx1)
                          else
                            let kv0 := st1.result.keywordValues
                            let needReset :=
                              match mapFind kv0 matchedArg.name with
                              | Option.none => true
                              | some v => !v.isStringVector || v.isNone
                            let kv1 := if needReset then
                                mapSet kv0 matchedArg.name (ArgValue.strVec [])
                              else kv0
                            match mapFind kv1 matchedArg.name with
                            | some (ArgValue.strVec vec) =>
                              let vec1 := match parsedValue.getString with
                                | some s => vec ++ [s]
                                | Option.none => vec
                              match consumeStrings (tokens.drop (idx1 + 1)) with
                              | .error msg => .error (.ex msg)
                              | .ok (more, k) =>
                                parseGo fuel cmd tokens (idx1 + 1 + k)
                                  { st1 with result := { st1.result with
                                    keywordValues := mapSet kv1 matchedArg.name
                                      (ArgValue.strVec (vec1 ++ more)) } }
                            | _ =>
                              .ok ({ st1.result with
                                status := .PARSE_ERROR
                                errorMessage := "Internal error accessing vector for " ++
                                  "multiple values for " ++ matchedArg.name
                                exitCode := 1 }, idx1)
                        else
                          parseGo fuel cmd tokens idx1 st1
      else
        -- subcommand dispatch (only for TOK_ID), else positional handling
        let delegated : Option Command :=
          if kind = .TOK_ID then
            match token.getIdValue with
            | .error _ => Option.none
            | .ok potential =>
              match assocFind cmd.subcommands potential with
              | some sub => some sub
              | Option.none => Option.none
          else Option.none
        match delegated with
        | some sub =>
          parseGo fuel sub tokens (idx + 1) (sub.initState (st.result.commandPath ++ " "))
        | Option.none =>
          if kind = .TOK_ID then
            match token.getIdValue with
            | .error msg => .error (.ex msg)
            | .ok potential =>
              let aliasMatches := cmd.subcommands.filter (fun p => p.2.hasAlias potential)
              -- the C++ scan errors as soon as a second alias match is found
              if decide (aliasMatches.length ≥ 2) then
                .ok (st.errResult ("Ambiguous alias '" ++ potential ++
                  "' matches multiple subcommands."), idx)
              else
                match aliasMatches.head? with
                | some p =>
                  parseGo fuel p.2 tokens (idx + 1)
                    (p.2.initState (st.result.commandPath ++ " "))
                | Option.none =>
                  match handlePositional cmd tokens idx st token with
                  | .error msg => .error (.ex msg)
                  | .ok (.inl done) => .ok done
                  | .ok (.inr (st', idx')) => parseGo fuel cmd tokens idx' st'
          else
            match handlePositional cmd tokens idx st token with
            | .error msg => .error (.ex msg)
            | .ok (.inl done) => .ok done
            | .ok (.inr (st', idx')) => parseGo fuel cmd tokens idx' st'

/-- `Command::parse(tokens, currentTokenIndex, commandPathPrefix)`: runs the
main loop with sufficient fuel; returns the `ParseResult` and the final value
of the by-reference token index. -/
def Command.parse (cmd : Command) (tokens : List lexer.Token) (idx : Nat)
    (pathPfx : String) : Except PFail (ParseResult × Nat) :=
  parseGo (tokens.length - idx + 1) cmd tokens idx (cmd.initState pathPfx)

end pparser

namespace pparser

/-- `std::string::rfind(p, 0) == 0` (prefix test), kernel-reducible. -/
def strStartsWith (s p : String) : Bool := p.data.isPrefixOf s.data

/-- `Command::addKeywordArg`: registration checks (reserved names, duplicate
name / short / long names), default normalisation for flags, and the
automatic `--no-<flag>` companion.  Build-time `std::invalid_argument`
throws become `.error`.

Note on the companion registration: the C++ source constructs the negation
`ArgumentDef` with nine arguments `(noFlagName, "", noFlagLongName,
noFlagHelp, ARGTYPE_FLAG, false, ArgValue(false), false, name)`, but the
`ArgumentDef` constructor declared in `pparser.hpp` takes only eight
parameters (there is no `negatedFlagName` field), so that call does not
compile; the model keeps the eight arguments that have parameters. -/
def Command.addKeywordArg (cmd : Command) (name shortName longName help : String)
    (type : ArgType) (required : Bool) (defaultValue : ArgValue) :
    Except String Command :=
  if name = "help" then
    .error "Argument name 'help' is reserved for the automatic help flag."
  else if strStartsWith name "no_" then
    .error ("Argument name cannot start with 'no_'. This prefix is reserved " ++
      "for automatic negation flags.")
  else if longName ≠ "" && strStartsWith longName "--no-" then
    .error ("Long name cannot start with '--no-'. This prefix is reserved " ++
      "for automatic negation flags.")
  else
    let finalDefaultValue :=
      if type = .FLAG ∧ defaultValue.isNone then ArgValue.bool false else defaultValue
    if cmd.keywordArgs.any (fun arg => arg.name = name) then
      .error ("Argument name '" ++ name ++ "' already exists.")
    else if cmd.keywordArgs.any (fun arg => shortName ≠ "" && arg.shortName = shortName) then
      .error ("Short name '" ++ shortName ++ "' already exists.")
    else if cmd.keywordArgs.any (fun arg => longName ≠ "" && arg.longName = longName) then
      .error ("Long name '" ++ longName ++ "' already exists.")
    else
      let args1 := cmd.keywordArgs ++
        [⟨name, shortName, longName, help, type, required, finalDefaultValue, false⟩]
      let addNegation : Bool :=
        type = ArgType.FLAG && finalDefaultValue.getBool = some true &&
          longName ≠ "" && strStartsWith longName "--"
      if addNegation then
        let noFlagName := "no_" ++ name
        let noFlagLongName := "--no-" ++ strDropStr longName 2
        let noFlagHelp := "Disable the " ++ longName ++ " flag."
        if args1.any (fun arg => arg.name = noFlagName) then
          .error ("Automatic negation flag name '" ++ noFlagName ++
            "' conflicts with an existing argument.")
        else if args1.any (fun arg => arg.longName = noFlagLongName) then
          .error ("Automatic negation flag long name '" ++ noFlagLongName ++
            "' conflicts with an existing argument.")
        else
          .ok (.mk cmd.name cmd.help
            (args1 ++ [⟨noFlagName, "", noFlagLongName, noFlagHelp, .FLAG, false,
              ArgValue.bool false, false⟩])
            cmd.positionalArgs cmd.subcommands cmd.aliases cmd.handler)
      else
        .ok (.mk cmd.name cmd.help args1 cmd.positionalArgs cmd.subcommands
          cmd.aliases cmd.handler)

/-- `Command::addPositionalArg`: rejects FLAG-typed positionals and duplicate
names; the pushed def is built with `ARGTYPE_POSITIONAL` and then its `type`
field is overwritten with the requested type. -/
def Command.addPositionalArg (cmd : Command) (name help : String)
    (type : ArgType) (required : Bool) (defaultValue : ArgValue) :
    Except String Command :=
  if type = .FLAG then
    .error "Positional arguments cannot be flags."
  else if cmd.positionalArgs.any (fun arg => arg.name = name) then
    .error ("Argument '" ++ name ++ "' already exists.")
  else
    .ok (.mk cmd.name cmd.help cmd.keywordArgs
      (cmd.positionalArgs ++ [⟨name, "", "", help, type, required, defaultValue, false⟩])
      cmd.subcommands cmd.aliases cmd.handler)

/-- `Command::setHandler`. -/
def Command.setHandler (cmd : Command) (h : Option (ParseResult → Int)) : Command :=
  .mk cmd.name cmd.help cmd.keywordArgs cmd.positionalArgs cmd.subcommands
    cmd.aliases h

/-- A fresh error `ParseResult` as built by `ArgumentParser::parse`'s catch
blocks and early checks. -/
def freshErrorResult (msg : String) : ParseResult :=
  { status := .PARSE_ERROR
    exitCode := 1
    errorMessage := msg
    commandPath := ""
    keywordValues := []
    positionalValues := [] }

/-- `ArgumentParser::parse(const std::string&)`: tokenize (filename
`"<cli>"`), pop the trailing `TOK_EOF`, run the root command's parse from
index 0, then flag unconsumed trailing tokens; a `LexError` or other
exception becomes a `PARSE_ERROR` result carrying `what()`.  The `.fuel`
cases translate states in which the C++ code itself would not terminate or
are unreachable for the fuel supplied. -/
def ArgumentParser.parseLine (rootCommand : Command) (commandLine : String) :
    ParseResult :=
  match lexer.tokenize commandLine "<cli>" with
  | .error (.err e) => freshErrorResult e.toString
  | .error (.fatal msg) => freshErrorResult msg
  | .error .fuel => freshErrorResult "<lexer model out of fuel>"
  | .ok tokens0 =>
    let tokens :=
      if h : tokens0 ≠ [] then
        if (tokens0.getLast h).getKind = .TOK_EOF then tokens0.dropLast else tokens0
      else tokens0
    match rootCommand.parse tokens 0 "" with
    | .error (.ex msg) => freshErrorResult msg
    | .error .fuel => freshErrorResult "<matcher model out of fuel>"
    | .ok (result, tokenIndex) =>
      if result.status = .PARSE_ERROR then result
      else if result.status = .HELP_REQUESTED then result
      else
        match tokens.get? tokenIndex with
        | some tok =>
          { result with
            status := .PARSE_ERROR
            errorMessage := "Unexpected arguments starting from: " ++ tok.printStr
            exitCode := 1 }
        | Option.none => result

/-- `ArgumentParser::parse(int argc, char* argv[])`: rejects `argc < 1`,
otherwise concatenates `argv[1] … argv[argc-1]`, each followed by one space,
and re-parses the combined string. -/
def ArgumentParser.parseArgs (rootCommand : Command) (argv : List String) :
    ParseResult :=
  if argv.length < 1 then
    freshErrorResult "Invalid arguments provided (argc < 1)"
  else
    ArgumentParser.parseLine rootCommand
      (String.join ((argv.drop 1).map (fun a => a ++ " ")))

end pparser

namespace pparser

/-- Concrete command for exercising the value-coercion helper: a MULTIPLE
keyword option `--files` registered on a fresh command. -/
def filesCommand : Command :=
  (((Command.new "prog" "").addKeywordArg "files" "" "--files" "" .MULTIPLE false
    ArgValue.none).toOption).getD (Command.new "prog" "")

/-- Concrete command with one MULTIPLE positional `files`. -/
def filesPosCommand : Command :=
  (((Command.new "prog" "").addPositionalArg "files" "" .MULTIPLE true
    ArgValue.none).toOption).getD (Command.new "prog" "")

end pparser

/-- C1: the spec claims that for integer- and float-literal tokens with
expected type MULTIPLE, `parseTokenValue` returns an `ArgValue` holding the
literal's string representation, so `Command::parse` accepts numeric tokens
for MULTIPLE flags/positionals.  The code instead calls
`Token::getStrLitValue`, which throws
`std::runtime_error("Token is not a string literal")` for any
non-string-literal kind, so the helper throws rather than coercing, and
`Command::parse` propagates the exception (surfacing as a generic
`PARSE_ERROR` in `ArgumentParser::parse`).  This theorem evaluates the code
at the failing inputs `--files 42` and (positional) `42`. -/
theorem claim_C1_multiple_numeric_coercion_throws :
    pparser.parseTokenValue (lexer.Token.intLit 42 .DEC ⟨8, 10⟩) .MULTIPLE =
      .error "Token is not a string literal" ∧
    pparser.parseTokenValue (lexer.Token.floatLit 3 false ⟨8, 11⟩) .MULTIPLE =
      .error "Token is not a string literal" ∧
    pparser.Command.parse pparser.filesCommand
        [lexer.Token.longFlag "files".data ⟨0, 7⟩, lexer.Token.intLit 42 .DEC ⟨8, 10⟩]
        0 "" =
      .error (.ex "Token is not a string literal") ∧
    pparser.Command.parse pparser.filesPosCommand
        [lexer.Token.intLit 42 .DEC ⟨0, 2⟩] 0 "" =
      .error (.ex "Token is not a string literal") ∧
    pparser.ArgumentParser.parseLine pparser.filesCommand "--files 42" =
      pparser.freshErrorResult "Token is not a string literal" := by
  refine ⟨rfl, rfl, by decide, by decide, by decide⟩

namespace pparser

/-- Concrete command registering the boolean flag `-f`/`--force` with an
explicit default of `true` (which auto-registers the `--no-force`
companion). -/
def forceCommand : Command :=
  (((Command.new "prog" "").addKeywordArg "force" "-f" "--force" "" .FLAG false
    (ArgValue.bool true)).toOption).getD (Command.new "prog" "")

/-- The companion definition the builder registers for `--force`. -/
def noForceDef : ArgumentDef :=
  ⟨"no_force", "", "--no-force", "Disable the --force flag.", .FLAG, false,
    ArgValue.bool false, false⟩

end pparser

/-- C3: registering FLAG `--force` with default `true` does append the
companion `no_force` / `--no-force` definition, but parsing an input
containing `--no-force` can never set `no_force` to `true`: the lexer does
not allow `-` inside a long-flag name (`isIdentCont` excludes it), so
`--no-force` tokenizes as the long flag `--no` followed by the short flag
`-force`, and `Command::parse` fails with "Unknown option: --no" while
`no_force` keeps its default `false`.  (In addition, the C++ companion
registration calls the 8-parameter `ArgumentDef` constructor with 9
arguments, which does not compile.)  This theorem evaluates the model at the
failing input. -/
theorem claim_C3_no_force_never_true :
    pparser.forceCommand.keywordArgs =
      [pparser.helpArgumentDef,
       ⟨"force", "-f", "--force", "", .FLAG, false, pparser.ArgValue.bool true, false⟩,
       pparser.noForceDef] ∧
    lexer.tokenize "--no-force" "<cli>" =
      .ok [lexer.Token.longFlag "no".data ⟨0, 4⟩,
           lexer.Token.shortFlag "force".data ⟨4, 10⟩,
           lexer.Token.simple .TOK_EOF ⟨10, 10⟩] ∧
    (pparser.ArgumentParser.parseLine pparser.forceCommand "--no-force").status =
      .PARSE_ERROR ∧
    (pparser.ArgumentParser.parseLine pparser.forceCommand "--no-force").errorMessage =
      "Unknown option: --no" ∧
    pparser.mapFind
      (pparser.ArgumentParser.parseLine pparser.forceCommand "--no-force").keywordValues
      "no_force" = some (pparser.ArgValue.bool false) := by
  refine ⟨by decide, by decide, by decide, by decide, by decide⟩

/-- C10: `ArgumentParser::parse(argc, argv)` with `argc ≥ 1` concatenates
`argv[1] … argv[argc-1]`, each followed by a single space, and returns
exactly `ArgumentParser::parse` of that string — so an `argv` element
containing spaces or quotes is re-lexed and may split into several tokens. -/
theorem claim_C10_argv_parse_is_joined_string_parse
    (root : pparser.Command) (argv : List String) (h : 1 ≤ argv.length) :
    pparser.ArgumentParser.parseArgs root argv =
      pparser.ArgumentParser.parseLine root
        (String.join ((argv.drop 1).map (fun a => a ++ " "))) := by
  unfold pparser.ArgumentParser.parseArgs
  rw [if_neg]
  omega

/-- Witness for C10 at a concrete input (an argv element `"a b"` containing a
space, which re-lexes into two identifier tokens). -/
theorem claim_C10_argv_parse_witness :
    1 ≤ (["prog", "a b"] : List String).length ∧
    pparser.ArgumentParser.parseArgs pparser.filesCommand ["prog", "a b"] =
      pparser.ArgumentParser.parseLine pparser.filesCommand
        (String.join (((["prog", "a b"] : List String).drop 1).map (fun a => a ++ " "))) :=
  ⟨by decide,
   claim_C10_argv_parse_is_joined_string_parse pparser.filesCommand ["prog", "a b"]
     (by decide)⟩
namespace pparser

/-- One main-loop iteration past the end of the token sequence: post-loop
validation. -/
theorem parseGo_atEnd (fuel : Nat) (cmd : Command) (tokens : List lexer.Token)
    (idx : Nat) (st : PState) (h : tokens.get? idx = Option.none) :
    parseGo (fuel + 1) cmd tokens idx st = .ok (finalize cmd st, idx) := by
  simp only [parseGo, h]

/-- One main-loop iteration on a single-character short-flag token resolving
to a non-help FLAG argument: mark seen, set `true`, continue. -/
theorem parseGo_singleFlag_step (fuel : Nat) (cmd : Command)
    (tokens : List lexer.Token) (idx : Nat) (st : PState) (ch : Char) (sp : lexer.Span)
    (a : ArgumentDef) (htok : tokens.get? idx = some (lexer.Token.shortFlag [ch] sp))
    (hfind : cmd.findKeywordArg (String.mk [ch]) true = some a)
    (hhelp : a.isHelpFlag = false) (htype : a.type = .FLAG) :
    parseGo (fuel + 1) cmd tokens idx st =
      parseGo fuel cmd tokens (idx + 1) (st.setSeenTrue a.name (ArgValue.bool true)) := by
  simp only [parseGo, htok, lexer.Token.getKind, lexer.Token.getIdValue, hfind, hhelp,
    htype, List.length_cons, List.length_nil, decide_True, decide_False, Bool.true_and,
    Bool.false_and, Bool.true_or, Bool.or_true, Bool.false_or, Bool.or_false, if_true,
    if_false]
  simp [PState.setSeenTrue]

/-- One main-loop iteration on a three-character short-flag cluster whose
characters all resolve to non-help FLAG arguments. -/
theorem parseGo_cluster3_step (fuel : Nat) (cmd : Command)
    (tokens : List lexer.Token) (idx : Nat) (st : PState) (c1 c2 c3 : Char)
    (sp : lexer.Span) (a b c : ArgumentDef)
    (htok : tokens.get? idx = some (lexer.Token.shortFlag [c1, c2, c3] sp))
    (hA : cmd.findKeywordArg (String.mk [c1]) true = some a)
    (hA1 : a.isHelpFlag = false) (hA2 : a.type = .FLAG)
    (hB : cmd.findKeywordArg (String.mk [c2]) true = some b)
    (hB1 : b.isHelpFlag = false) (hB2 : b.type = .FLAG)
    (hC : cmd.findKeywordArg (String.mk [c3]) true = some c)
    (hC1 : c.isHelpFlag = false) (hC2 : c.type = .FLAG) :
    parseGo (fuel + 1) cmd tokens idx st =
      parseGo fuel cmd tokens (idx + 1)
        (((st.setSeenTrue a.name (ArgValue.bool true)).setSeenTrue b.name
          (ArgValue.bool true)).setSeenTrue c.name (ArgValue.bool true)) := by
  simp only [parseGo, htok, lexer.Token.getKind, lexer.Token.getIdValue, processCluster,
    hA, hA1, hA2, hB, hB1, hB2, hC, hC1, hC2, List.length_cons, List.length_nil,
    decide_True, decide_False, Bool.true_and, Bool.false_and, Bool.true_or, Bool.or_true,
    Bool.false_or, Bool.or_false, if_true, if_false]
  simp

end pparser
namespace pparser

set_option maxHeartbeats 1000000 in
/-- C4: for every `Command` on which three single-character boolean FLAG
arguments resolve for the short names `-a`, `-b`, `-c` (as non-help FLAG
definitions), parsing the input `-abc` (one short-flag cluster token)
produces exactly the same `ParseResult` — in particular identical
`keywordValues` entries for `a`, `b` and `c` — as parsing `-a -b -c`
(three separate short-flag tokens). -/
theorem claim_C4_cluster_equivalence (cmd : Command) (a b c : ArgumentDef)
    (hA : cmd.findKeywordArg "a" true = some a) (hA1 : a.isHelpFlag = false)
    (hA2 : a.type = .FLAG)
    (hB : cmd.findKeywordArg "b" true = some b) (hB1 : b.isHelpFlag = false)
    (hB2 : b.type = .FLAG)
    (hC : cmd.findKeywordArg "c" true = some c) (hC1 : c.isHelpFlag = false)
    (hC2 : c.type = .FLAG) :
    ArgumentParser.parseLine cmd "-abc" = ArgumentParser.parseLine cmd "-a -b -c" := by
  have hA' : cmd.findKeywordArg (String.mk ['a']) true = some a := by
    rw [show String.mk ['a'] = "a" from rfl]; exact hA
  have hB' : cmd.findKeywordArg (String.mk ['b']) true = some b := by
    rw [show String.mk ['b'] = "b" from rfl]; exact hB
  have hC' : cmd.findKeywordArg (String.mk ['c']) true = some c := by
    rw [show String.mk ['c'] = "c" from rfl]; exact hC
  have p1 : Command.parse cmd [lexer.Token.shortFlag ['a', 'b', 'c'] ⟨0, 4⟩] 0 "" =
      .ok (finalize cmd
        ((((cmd.initState "").setSeenTrue a.name (ArgValue.bool true)).setSeenTrue b.name
          (ArgValue.bool true)).setSeenTrue c.name (ArgValue.bool true)), 1) := by
    show parseGo 2 cmd [lexer.Token.shortFlag ['a', 'b', 'c'] ⟨0, 4⟩] 0
      (cmd.initState "") = _
    rw [show (2 : Nat) = 1 + 1 from rfl,
      parseGo_cluster3_step 1 cmd [lexer.Token.shortFlag ['a', 'b', 'c'] ⟨0, 4⟩] 0 (cmd.initState "") 'a' 'b' 'c' ⟨0, 4⟩ a b c rfl
        hA' hA1 hA2 hB' hB1 hB2 hC' hC1 hC2,
      parseGo_atEnd 0 cmd [lexer.Token.shortFlag ['a', 'b', 'c'] ⟨0, 4⟩] (0 + 1) _ rfl]
  have p2 : Command.parse cmd [lexer.Token.shortFlag ['a'] ⟨0, 2⟩,
        lexer.Token.shortFlag ['b'] ⟨3, 5⟩, lexer.Token.shortFlag ['c'] ⟨6, 8⟩] 0 "" =
      .ok (finalize cmd
        ((((cmd.initState "").setSeenTrue a.name (ArgValue.bool true)).setSeenTrue b.name
          (ArgValue.bool true)).setSeenTrue c.name (ArgValue.bool true)), 3) := by
    show parseGo 4 cmd _ 0 (cmd.initState "") = _
    rw [show (4 : Nat) = 3 + 1 from rfl,
      parseGo_singleFlag_step 3 cmd [lexer.Token.shortFlag ['a'] ⟨0, 2⟩, lexer.Token.shortFlag ['b'] ⟨3, 5⟩, lexer.Token.shortFlag ['c'] ⟨6, 8⟩] 0 (cmd.initState "") 'a' ⟨0, 2⟩ a rfl hA' hA1 hA2,
      show (3 : Nat) = 2 + 1 from rfl,
      parseGo_singleFlag_step 2 cmd [lexer.Token.shortFlag ['a'] ⟨0, 2⟩, lexer.Token.shortFlag ['b'] ⟨3, 5⟩, lexer.Token.shortFlag ['c'] ⟨6, 8⟩] (0 + 1) _ 'b' ⟨3, 5⟩ b rfl hB' hB1 hB2,
      show (2 : Nat) = 1 + 1 from rfl,
      parseGo_singleFlag_step 1 cmd [lexer.Token.shortFlag ['a'] ⟨0, 2⟩, lexer.Token.shortFlag ['b'] ⟨3, 5⟩, lexer.Token.shortFlag ['c'] ⟨6, 8⟩] (0 + 1 + 1) _ 'c' ⟨6, 8⟩ c rfl hC' hC1 hC2,
      parseGo_atEnd 0 cmd [lexer.Token.shortFlag ['a'] ⟨0, 2⟩, lexer.Token.shortFlag ['b'] ⟨3, 5⟩, lexer.Token.shortFlag ['c'] ⟨6, 8⟩] (0 + 1 + 1 + 1) _ rfl]
  have e1 : ArgumentParser.parseLine cmd "-abc" =
      (match Command.parse cmd [lexer.Token.shortFlag ['a','b','c'] ⟨0,4⟩] 0 "" with
       | .error (.ex msg) => freshErrorResult msg
       | .error .fuel => freshErrorResult "<matcher model out of fuel>"
       | .ok (result, tokenIndex) =>
         if result.status = .PARSE_ERROR then result
         else if result.status = .HELP_REQUESTED then result
         else match ([lexer.Token.shortFlag ['a','b','c'] ⟨0,4⟩] : List lexer.Token).get? tokenIndex with
           | some tok => { result with
               status := .PARSE_ERROR
               errorMessage := "Unexpected arguments starting from: " ++ tok.printStr
               exitCode := 1 }
           | Option.none => result) := rfl
  have e2 : ArgumentParser.parseLine cmd "-a -b -c" =
      (match Command.parse cmd [lexer.Token.shortFlag ['a'] ⟨0,2⟩,
          lexer.Token.shortFlag ['b'] ⟨3,5⟩, lexer.Token.shortFlag ['c'] ⟨6,8⟩] 0 "" with
       | .error (.ex msg) => freshErrorResult msg
       | .error .fuel => freshErrorResult "<matcher model out of fuel>"
       | .ok (result, tokenIndex) =>
         if result.status = .PARSE_ERROR then result
         else if result.status = .HELP_REQUESTED then result
         else match ([lexer.Token.shortFlag ['a'] ⟨0,2⟩, lexer.Token.shortFlag ['b'] ⟨3,5⟩,
             lexer.Token.shortFlag ['c'] ⟨6,8⟩] : List lexer.Token).get? tokenIndex with
           | some tok => { result with
               status := .PARSE_ERROR
               errorMessage := "Unexpected arguments starting from: " ++ tok.printStr
               exitCode := 1 }
           | Option.none => result) := rfl
  rw [e1, e2, p1, p2]
  simp

/-- Demo command with boolean flags `-a`, `-b`, `-c` registered via
`addKeywordArg`. -/
def clusterDemoCommand : Command :=
  ((do
    let c0 := Command.new "prog" ""
    let c1 ← c0.addKeywordArg "a" "-a" "" "" .FLAG false ArgValue.none
    let c2 ← c1.addKeywordArg "b" "-b" "" "" .FLAG false ArgValue.none
    c2.addKeywordArg "c" "-c" "" "" .FLAG false ArgValue.none :
     Except String Command).toOption).getD (Command.new "prog" "")

def aFlagDef : ArgumentDef := ⟨"a", "-a", "", "", .FLAG, false, ArgValue.bool false, false⟩

def bFlagDef : ArgumentDef := ⟨"b", "-b", "", "", .FLAG, false, ArgValue.bool false, false⟩

def cFlagDef : ArgumentDef := ⟨"c", "-c", "", "", .FLAG, false, ArgValue.bool false, false⟩

/-- Witness for C4 at a concrete command. -/
theorem claim_C4_cluster_equivalence_witness :
    clusterDemoCommand.findKeywordArg "a" true = some aFlagDef ∧
    clusterDemoCommand.findKeywordArg "b" true = some bFlagDef ∧
    clusterDemoCommand.findKeywordArg "c" true = some cFlagDef ∧
    ArgumentParser.parseLine clusterDemoCommand "-abc" =
      ArgumentParser.parseLine clusterDemoCommand "-a -b -c" :=
  ⟨by decide, by decide, by decide,
   claim_C4_cluster_equivalence clusterDemoCommand aFlagDef bFlagDef cFlagDef
     (by decide) (by decide) (by decide) (by decide) (by decide) (by decide)
     (by decide) (by decide) (by decide)⟩

end pparser
namespace pparser

/-- Concrete command with a required SINGLE keyword option `-o`/`--out`. -/
def requiredOutCommand : Command :=
  (((Command.new "prog" "").addKeywordArg "out" "-o" "--out" "" .SINGLE true
    ArgValue.none).toOption).getD (Command.new "prog" "")

/-- The registered required `out` definition. -/
def outDef : ArgumentDef := ⟨"out", "-o", "--out", "", .SINGLE, true, ArgValue.none, false⟩

/-- Appending the declared defaults of trailing optional positional slots. -/
def appendDefaults (st : PState) (ds : List ArgumentDef) : PState :=
  { st with result := { st.result with
      positionalValues := st.result.positionalValues ++ ds.map (fun d => d.defaultValue) } }

theorem appendDefaults_nil (st : PState) : appendDefaults st [] = st := by
  simp [appendDefaults]

theorem fillPositionals_first_required (p : ArgumentDef) (rest : List ArgumentDef)
    (optDefs : List ArgumentDef) (st : PState)
    (hopt : ∀ d ∈ optDefs, d.required = false) (hp : p.required = true) :
    fillPositionals (optDefs ++ p :: rest) st =
      .inl ((appendDefaults st optDefs).errResult
        ("Missing required positional argument: " ++ p.name)) := by
  induction optDefs generalizing st with
  | nil => simp [fillPositionals, hp, appendDefaults_nil]
  | cons d ds ih =>
    have hd : d.required = false := hopt d (by simp)
    have hds : ∀ x ∈ ds, x.required = false := fun x hx => hopt x (by simp [hx])
    simp only [List.cons_append, fillPositionals, hd, Bool.false_eq_true, if_false,
      List.append_eq]
    rw [ih _ hds]
    congr 1
    simp [appendDefaults, PState.errResult]

end pparser

/-- C5 counterexample: the claim says that for every Command with a required
argument, parsing ANY token sequence omitting that argument yields
`PARSE_ERROR` naming it; but the input `-h` (which omits the required
`--out`) short-circuits to `HELP_REQUESTED` instead. -/
theorem claim_C5_help_preempts_required_check :
    pparser.requiredOutCommand.keywordArgs.any (fun a => a.required) = true ∧
    (pparser.ArgumentParser.parseLine pparser.requiredOutCommand "-h").status =
      .HELP_REQUESTED ∧
    (pparser.ArgumentParser.parseLine pparser.requiredOutCommand "-h").status ≠
      .PARSE_ERROR := by
  refine ⟨by decide, by decide, by decide⟩

/-- C5 (amended): when `Command::parse`'s main loop completes without an
early return and reaches the post-loop validation (`finalize`), a required
keyword argument that was never seen yields `PARSE_ERROR` whose message
names it (the first such, in declaration order, help flag skipped), and —
when all required keyword arguments were seen — a required positional slot
beyond the last consumed index yields `PARSE_ERROR` naming the first
required one, with the declared defaults of the optional slots before it
already appended. -/
theorem claim_C5_post_loop_missing_required (cmd : pparser.Command) (st : pparser.PState) :
    (∀ a : pparser.ArgumentDef,
      cmd.keywordArgs.find? (fun arg =>
        !arg.isHelpFlag && arg.required && !(st.seen.contains arg.name)) = some a →
      pparser.finalize cmd st =
        st.errResult ("Missing required option: " ++ a.getDisplayName)) ∧
    (∀ (optDefs : List pparser.ArgumentDef) (p : pparser.ArgumentDef)
        (rest : List pparser.ArgumentDef),
      cmd.keywordArgs.find? (fun arg =>
        !arg.isHelpFlag && arg.required && !(st.seen.contains arg.name)) = Option.none →
      cmd.positionalArgs.drop st.posIdx = optDefs ++ p :: rest →
      (∀ d ∈ optDefs, d.required = false) → p.required = true →
      pparser.finalize cmd st =
        (pparser.appendDefaults st optDefs).errResult
          ("Missing required positional argument: " ++ p.name)) := by
  constructor
  · intro a ha
    simp only [pparser.finalize]
    rw [ha]
  · intro optDefs p rest hnone hdrop hopt hp
    have hfill := pparser.fillPositionals_first_required p rest optDefs st hopt hp
    simp only [pparser.finalize]
    rw [hnone, hdrop, hfill]

/-- Witness for C5's amended theorem: the required `--out` is reported from
the post-loop validation of `requiredOutCommand` on the initial state, and a
required positional after an optional one is reported with the optional's
default appended. -/
theorem claim_C5_post_loop_missing_required_witness :
    (pparser.requiredOutCommand.keywordArgs.find? (fun arg =>
        !arg.isHelpFlag && arg.required &&
          !((pparser.requiredOutCommand.initState "").seen.contains arg.name)) =
      some pparser.outDef) ∧
    pparser.finalize pparser.requiredOutCommand (pparser.requiredOutCommand.initState "") =
      (pparser.requiredOutCommand.initState "").errResult
        ("Missing required option: " ++ pparser.outDef.getDisplayName) :=
  ⟨by decide,
   (claim_C5_post_loop_missing_required pparser.requiredOutCommand
     (pparser.requiredOutCommand.initState "")).1 pparser.outDef (by decide)⟩
namespace pparser

theorem findKeywordArg_setHandler (cmd : Command) (hh : Option (ParseResult → Int))
    (s : String) (b : Bool) :
    (cmd.setHandler hh).findKeywordArg s b = cmd.findKeywordArg s b := by
  cases cmd; rfl

theorem processCluster_setHandler (cmd : Command) (hh : Option (ParseResult → Int)) :
    ∀ (chars : List Char) (st : PState),
    processCluster (cmd.setHandler hh) chars st = processCluster cmd chars st := by
  intro chars
  induction chars with
  | nil => intro st; rfl
  | cons c cs ih =>
    intro st
    simp only [processCluster, findKeywordArg_setHandler]
    cases cmd.findKeywordArg (String.mk [c]) true with
    | none => rfl
    | some a =>
      by_cases h1 : a.isHelpFlag = true
      · simp [h1]
      · by_cases h2 : a.type = ArgType.FLAG <;> simp [h1, h2, ih]

/-- Inside a short-flag cluster, characters resolving to non-help FLAG
arguments are processed until a character resolving to the help flag is hit,
at which point the loop returns the help result of the state built so far. -/
theorem processCluster_finds_help (cmd : Command) (ch : Char) (post : List Char) :
    ∀ (pre : List Char) (st : PState),
    (∀ c ∈ pre, ∃ a : ArgumentDef, cmd.findKeywordArg (String.mk [c]) true = some a ∧
      a.isHelpFlag = false ∧ a.type = .FLAG) →
    (∃ hdef : ArgumentDef, cmd.findKeywordArg (String.mk [ch]) true = some hdef ∧
      hdef.isHelpFlag = true) →
    ∃ st' : PState, processCluster cmd (pre ++ ch :: post) st = .inl st'.helpResult := by
  intro pre
  induction pre with
  | nil =>
    intro st _ hh
    obtain ⟨hdef, h1, h2⟩ := hh
    exact ⟨st, by simp [processCluster, h1, h2]⟩
  | cons c cs ih =>
    intro st hpre hh
    obtain ⟨a, h1, h2, h3⟩ := hpre c (by simp)
    obtain ⟨st', hst'⟩ := ih (st.setSeenTrue a.name (ArgValue.bool true))
      (fun x hx => hpre x (by simp [hx])) hh
    exact ⟨st', by simp [processCluster, h1, h2, h3, hst']⟩

end pparser

/-- C6: whenever `Command::parse` resolves a flag token — alone (short or
long) or as a character inside a short-flag cluster — to the help
`ArgumentDef`, it returns immediately with `HELP_REQUESTED` and exit code 0;
the final token index is the help token's own position (the cluster consumes
only its single token), so no further token is matched, and the result does
not depend on the command's handler (the handler is never invoked). -/
theorem claim_C6_help_flag_short_circuits (fuel : Nat) (cmd : pparser.Command)
    (tokens : List lexer.Token) (idx : Nat) (st : pparser.PState) :
    (∀ (ref : List Char) (sp : lexer.Span) (hdef : pparser.ArgumentDef),
       tokens.get? idx = some (lexer.Token.longFlag ref sp) →
       cmd.findKeywordArg (String.mk ref) false = some hdef →
       hdef.isHelpFlag = true →
       pparser.parseGo (fuel + 1) cmd tokens idx st = .ok (st.helpResult, idx) ∧
       st.helpResult.status = .HELP_REQUESTED ∧ st.helpResult.exitCode = 0 ∧
       ∀ hh, pparser.parseGo (fuel + 1) (cmd.setHandler hh) tokens idx st =
         .ok (st.helpResult, idx)) ∧
    (∀ (ch : Char) (sp : lexer.Span) (hdef : pparser.ArgumentDef),
       tokens.get? idx = some (lexer.Token.shortFlag [ch] sp) →
       cmd.findKeywordArg (String.mk [ch]) true = some hdef →
       hdef.isHelpFlag = true →
       pparser.parseGo (fuel + 1) cmd tokens idx st = .ok (st.helpResult, idx) ∧
       st.helpResult.status = .HELP_REQUESTED ∧ st.helpResult.exitCode = 0 ∧
       ∀ hh, pparser.parseGo (fuel + 1) (cmd.setHandler hh) tokens idx st =
         .ok (st.helpResult, idx)) ∧
    (∀ (pre : List Char) (ch : Char) (post : List Char) (sp : lexer.Span),
       tokens.get? idx = some (lexer.Token.shortFlag (pre ++ ch :: post) sp) →
       1 < (pre ++ ch :: post).length →
       (∀ c ∈ pre, ∃ a : pparser.ArgumentDef,
          cmd.findKeywordArg (String.mk [c]) true = some a ∧
          a.isHelpFlag = false ∧ a.type = .FLAG) →
       (∃ hdef : pparser.ArgumentDef,
          cmd.findKeywordArg (String.mk [ch]) true = some hdef ∧
          hdef.isHelpFlag = true) →
       ∃ st' : pparser.PState,
         pparser.parseGo (fuel + 1) cmd tokens idx st = .ok (st'.helpResult, idx + 1) ∧
         st'.helpResult.status = .HELP_REQUESTED ∧ st'.helpResult.exitCode = 0 ∧
         ∀ hh, pparser.parseGo (fuel + 1) (cmd.setHandler hh) tokens idx st =
           .ok (st'.helpResult, idx + 1)) := by
  refine ⟨?_, ?_, ?_⟩
  · intro ref sp hdef htok hfind hhelp
    refine ⟨?_, rfl, rfl, ?_⟩
    · simp only [pparser.parseGo, htok, lexer.Token.getKind, lexer.Token.getIdValue,
        hfind, hhelp, List.length_cons, List.length_nil, decide_True,
        decide_False, Bool.true_and, Bool.false_and, Bool.true_or, Bool.or_true,
        Bool.false_or, Bool.or_false, if_true, if_false]
      simp [hfind, hhelp]
    · intro hh
      simp only [pparser.parseGo, htok, lexer.Token.getKind, lexer.Token.getIdValue,
        pparser.findKeywordArg_setHandler, hfind, hhelp, List.length_cons,
        List.length_nil, decide_True, decide_False, Bool.true_and, Bool.false_and,
        Bool.true_or, Bool.or_true, Bool.false_or, Bool.or_false, if_true, if_false]
      simp [pparser.findKeywordArg_setHandler, hfind, hhelp]
  · intro ch sp hdef htok hfind hhelp
    refine ⟨?_, rfl, rfl, ?_⟩
    · simp only [pparser.parseGo, htok, lexer.Token.getKind, lexer.Token.getIdValue,
        hfind, hhelp, List.length_cons, List.length_nil, decide_True,
        decide_False, Bool.true_and, Bool.false_and, Bool.true_or, Bool.or_true,
        Bool.false_or, Bool.or_false, if_true, if_false]
      simp [hfind, hhelp]
    · intro hh
      simp only [pparser.parseGo, htok, lexer.Token.getKind, lexer.Token.getIdValue,
        pparser.findKeywordArg_setHandler, hfind, hhelp, List.length_cons,
        List.length_nil, decide_True, decide_False, Bool.true_and, Bool.false_and,
        Bool.true_or, Bool.or_true, Bool.false_or, Bool.or_false, if_true, if_false]
      simp [pparser.findKeywordArg_setHandler, hfind, hhelp]
  · intro pre ch post sp htok hlen hpre hh
    obtain ⟨st', hst'⟩ := pparser.processCluster_finds_help cmd ch post pre st hpre hh
    refine ⟨st', ?_, rfl, rfl, ?_⟩
    · simp only [pparser.parseGo, htok, lexer.Token.getKind, lexer.Token.getIdValue,
        hst', List.length_cons, List.length_nil, decide_True,
        decide_False, Bool.true_and, Bool.false_and, Bool.true_or, Bool.or_true,
        Bool.false_or, Bool.or_false, if_true, if_false]
      simp [hlen, hst']
      intro hle
      simp [List.length_append] at hlen
      omega
    · intro hh'
      simp only [pparser.parseGo, htok, lexer.Token.getKind, lexer.Token.getIdValue,
        pparser.processCluster_setHandler, hst', List.length_cons, List.length_nil,
        decide_True, decide_False, Bool.true_and, Bool.false_and, Bool.true_or,
        Bool.or_true, Bool.false_or, Bool.or_false, if_true, if_false]
      simp [hlen, pparser.processCluster_setHandler, hst']
      intro hle
      simp [List.length_append] at hlen
      omega

/-- Witness for C6: `-h` on a command with a required option returns the
help result immediately at index 0, and the cluster `-ah` (boolean flag `a`,
then `h`) short-circuits after consuming only the cluster token. -/
theorem claim_C6_help_flag_short_circuits_witness :
    pparser.parseGo (0 + 1) pparser.requiredOutCommand
        [lexer.Token.shortFlag ['h'] ⟨0, 2⟩] 0
        (pparser.requiredOutCommand.initState "") =
      .ok ((pparser.requiredOutCommand.initState "").helpResult, 0) ∧
    (∃ st' : pparser.PState,
      pparser.parseGo (0 + 1) pparser.clusterDemoCommand
          [lexer.Token.shortFlag (['a'] ++ 'h' :: []) ⟨0, 3⟩] 0
          (pparser.clusterDemoCommand.initState "") =
        .ok (st'.helpResult, 0 + 1)) := by
  constructor
  · exact ((claim_C6_help_flag_short_circuits 0 pparser.requiredOutCommand
      [lexer.Token.shortFlag ['h'] ⟨0, 2⟩] 0
      (pparser.requiredOutCommand.initState "")).2.1 'h' ⟨0, 2⟩ pparser.helpArgumentDef
      (by decide) (by decide) (by decide)).1
  · obtain ⟨st', h1, -, -, -⟩ := (claim_C6_help_flag_short_circuits 0
      pparser.clusterDemoCommand
      [lexer.Token.shortFlag (['a'] ++ 'h' :: []) ⟨0, 3⟩] 0
      (pparser.clusterDemoCommand.initState "")).2.2 ['a'] 'h' [] ⟨0, 3⟩
      (by decide) (by decide)
      (fun c hc => by
        simp at hc
        subst hc
        exact ⟨pparser.aFlagDef, by decide, by decide, by decide⟩)
      ⟨pparser.helpArgumentDef, by decide, by decide⟩
    exact ⟨st', h1⟩
namespace lexer

theorem okBind {e a b : Type} (x : a) (f : a → Except e b) :
    (do let y ← Except.ok x; f y) = f x := rfl

theorem errBind {e a b : Type} (err : e) (f : a → Except e b) :
    (do let y ← Except.error err; f y) = (Except.error err : Except e b) := rfl

end lexer

namespace lexer

theorem charAtD_of_drop_cons {code : List Char} {pos : Nat} {x : Char} {l : List Char}
    (h : code.drop pos = x :: l) : charAtD code pos = x := by
  simp [charAtD, List.getD_eq_getElem?_getD, ← List.head?_drop, h]

theorem pos_lt_of_drop_cons {code : List Char} {pos : Nat} {x : Char} {l : List Char}
    (h : code.drop pos = x :: l) : pos < code.length := by
  by_contra hc
  rw [List.drop_eq_nil_of_le (by omega)] at h
  cases h

theorem drop_succ_of_drop_cons {code : List Char} {pos : Nat} {x : Char} {l : List Char}
    (h : code.drop pos = x :: l) : code.drop (pos + 1) = l := by
  rw [← List.tail_drop, h]
  rfl

/-- `next` on a plain character (no newline, no tab): column + 1, position + 1. -/
theorem next_plain (it : SourceIterator) (x : Char) (l : List Char)
    (h : it.code.drop it.pos = x :: l) (hn : x ≠ '\n') (ht : x ≠ '\t') :
    it.next = { it with col := it.col + 1, pos := it.pos + 1 } := by
  have hc := charAtD_of_drop_cons h
  have hp := pos_lt_of_drop_cons h
  simp [SourceIterator.next, hp, hc, hn, ht]

theorem digitOrUnderscore_not_nl {d : Char} {base : Base}
    (h : isDigitOrUnderscore d base = true) : d ≠ '\n' ∧ d ≠ '\t' := by
  constructor <;> intro hd <;> subst hd <;> cases base <;> exact absurd h (by decide)

/-- The main digit loop consumes exactly the maximal digit/underscore run. -/
theorem takeDigitsMain_run (base : Base) (startPos : Nat) (c : Char) (rest : List Char)
    (hc : isDigitOrUnderscore c base = false) :
    ∀ (ds : List Char) (fuel : Nat) (it : SourceIterator) (buf : List Char),
    it.code.drop it.pos = ds ++ c :: rest →
    (∀ d ∈ ds, isDigitOrUnderscore d base = true) →
    ds.length + 1 ≤ fuel →
    ∃ buf' : List Char, takeDigitsMain base startPos fuel it buf =
      .ok ({ it with col := it.col + ds.length, pos := it.pos + ds.length }, buf') := by
  intro ds
  induction ds with
  | nil =>
    intro fuel it buf hdrop _ hfuel
    obtain ⟨f, rfl⟩ : ∃ f, fuel = f + 1 := ⟨fuel - 1, by omega⟩
    have hcur : it.current = c := charAtD_of_drop_cons hdrop
    refine ⟨buf, ?_⟩
    simp [takeDigitsMain, SourceIterator.current, charAtD_of_drop_cons hdrop, hc]
  | cons d ds' ih =>
    intro fuel it buf hdrop hds hfuel
    obtain ⟨f, rfl⟩ : ∃ f, fuel = f + 1 := ⟨fuel - 1, by omega⟩
    have hd : isDigitOrUnderscore d base = true := hds d (by simp)
    have hcur : it.current = d := charAtD_of_drop_cons (by simpa using hdrop)
    have hnl := digitOrUnderscore_not_nl hd
    have hnext : it.next = { it with col := it.col + 1, pos := it.pos + 1 } :=
      next_plain it d (ds' ++ c :: rest) (by simpa using hdrop) hnl.1 hnl.2
    have hdrop' : it.next.code.drop it.next.pos = ds' ++ c :: rest := by
      rw [hnext]
      exact drop_succ_of_drop_cons (by simpa using hdrop)
    obtain ⟨buf', hbuf'⟩ := ih f it.next
      (if d ≠ '_' then
        addToBuffer (if buf.isEmpty && startPos + 1 == it.pos then
          addToBuffer buf (charAtD it.code startPos) else buf) d
       else (if buf.isEmpty && startPos + 1 == it.pos then
          addToBuffer buf (charAtD it.code startPos) else buf))
      hdrop' (fun x hx => hds x (by simp [hx])) (by simp at hfuel ⊢; omega)
    refine ⟨buf', ?_⟩
    simp only [takeDigitsMain, hcur, hd, if_true]
    rw [hbuf', hnext]
    simp [SourceIterator.mk.injEq]
    constructor <;> omega

end lexer

namespace lexer

theorem drop_append_of_drop {code : List Char} :
    ∀ {p : Nat} {xs ys : List Char}, code.drop p = xs ++ ys →
    code.drop (p + xs.length) = ys := by
  intro p xs
  induction xs generalizing p with
  | nil => intro ys h; simpa using h
  | cons x xs' ih =>
    intro ys h
    have h' := drop_succ_of_drop_cons (by simpa using h)
    have := ih h'
    simpa [Nat.add_comm, Nat.add_assoc, Nat.add_left_comm] using this

theorem lexNumber_hexDot (fuel : Nat) (it : SourceIterator) (d0 : Char)
    (ds rest : List Char)
    (hdrop : it.code.drop it.pos = '0' :: 'x' :: d0 :: ds ++ '.' :: rest)
    (hd0 : isAsciiHexDigit d0 = true)
    (hds : ∀ d ∈ ds, isDigitOrUnderscore d .HEX = true)
    (hfuel : (d0 :: ds).length + 1 ≤ fuel) :
    lexNumber fuel it = throwLex (LexError.invalidChar
      ⟨it.filename, it.line, it.col + (2 + (d0 :: ds).length)⟩) := by
  have cur0 : it.current = '0' := charAtD_of_drop_cons hdrop
  have next0 : it.next = { it with col := it.col + 1, pos := it.pos + 1 } :=
    next_plain it '0' _ hdrop (by decide) (by decide)
  have drop1 : it.code.drop (it.pos + 1) = 'x' :: d0 :: ds ++ '.' :: rest :=
    drop_succ_of_drop_cons hdrop
  have curA : ({ it with col := it.col + 1, pos := it.pos + 1 } :
      SourceIterator).current = 'x' := charAtD_of_drop_cons (by simpa using drop1)
  have nextA : ({ it with col := it.col + 1, pos := it.pos + 1 } :
      SourceIterator).next = { it with col := it.col + 2, pos := it.pos + 2 } := by
    have := next_plain { it with col := it.col + 1, pos := it.pos + 1 } 'x'
      (d0 :: ds ++ '.' :: rest) (by simpa using drop1) (by decide) (by decide)
    simpa using this
  have drop2 : it.code.drop (it.pos + 2) = (d0 :: ds) ++ '.' :: rest := by
    have := @drop_succ_of_drop_cons it.code (it.pos + 1) _ _ drop1
    simpa using this
  have curB : ({ it with col := it.col + 2, pos := it.pos + 2 } :
      SourceIterator).current = d0 := charAtD_of_drop_cons (by simpa using drop2)
  obtain ⟨buf', hrun⟩ := takeDigitsMain_run .HEX it.pos '.' rest (by decide)
    (d0 :: ds) fuel { it with col := it.col + 2, pos := it.pos + 2 }
    (addToBuffer (addToBuffer [] '0') 'x')
    (by simpa using drop2)
    (fun d hd => by
      rcases List.mem_cons.mp hd with h | h
      · subst h; simp [isDigitOrUnderscore, hd0]
      · exact hds d h)
    hfuel
  have dropDot : it.code.drop (it.pos + 2 + (d0 :: ds).length) = '.' :: rest := by
    have := @drop_append_of_drop it.code (it.pos + 2) _ _ drop2
    simpa using this
  have curDot : ({ it with
      col := it.col + 2 + (d0 :: ds).length
      pos := it.pos + 2 + (d0 :: ds).length } : SourceIterator).current = '.' :=
    charAtD_of_drop_cons (by simpa using dropDot)
  have curDot2 : ({ it with
      col := it.col + (2 + (ds.length + 1))
      pos := it.pos + (2 + (ds.length + 1)) } : SourceIterator).current = '.' :=
    charAtD_of_drop_cons (show it.code.drop (it.pos + (2 + (ds.length + 1))) = '.' :: rest by
      rw [show it.pos + (2 + (ds.length + 1)) = it.pos + 2 + (d0 :: ds).length by
        simp only [List.length_cons]; omega]
      exact dropDot)
  simp only [lexNumber, cur0, next0, curA, nextA, curB, hd0]
  simp only [decide_True, decide_False, Bool.true_or, Bool.or_true, Bool.false_or,
    Bool.or_false, Bool.not_true, Bool.not_false, if_true, if_false]
  simp [okBind, hrun, curDot2, SourceIterator.getLocation, throwLex, Nat.add_assoc]

end lexer

namespace lexer

theorem lexNumber_binFloatChar (fuel : Nat) (it : SourceIterator) (d0 : Char)
    (ds rest : List Char) (c : Char) (hor : c = '.' ∨ c = 'e' ∨ c = 'E')
    (hdrop : it.code.drop it.pos = '0' :: 'b' :: d0 :: ds ++ c :: rest)
    (hd0 : isAsciiBinDigit d0 = true)
    (hds : ∀ d ∈ ds, isDigitOrUnderscore d .BIN = true)
    (hfuel : (d0 :: ds).length + 1 ≤ fuel) :
    lexNumber fuel it = throwLex (LexError.invalidChar
      ⟨it.filename, it.line, it.col + (2 + (d0 :: ds).length)⟩) := by
  have hcb : isDigitOrUnderscore c .BIN = false := by
    rcases hor with rfl | rfl | rfl <;> decide
  have hcnl : c ≠ '\n' := by rcases hor with rfl | rfl | rfl <;> decide
  have cur0 : it.current = '0' := charAtD_of_drop_cons hdrop
  have next0 : it.next = { it with col := it.col + 1, pos := it.pos + 1 } :=
    next_plain it '0' _ hdrop (by decide) (by decide)
  have drop1 : it.code.drop (it.pos + 1) = 'b' :: d0 :: ds ++ c :: rest :=
    drop_succ_of_drop_cons hdrop
  have curA : ({ it with col := it.col + 1, pos := it.pos + 1 } :
      SourceIterator).current = 'b' := charAtD_of_drop_cons (by simpa using drop1)
  have nextA : ({ it with col := it.col + 1, pos := it.pos + 1 } :
      SourceIterator).next = { it with col := it.col + 2, pos := it.pos + 2 } := by
    have := next_plain { it with col := it.col + 1, pos := it.pos + 1 } 'b'
      (d0 :: ds ++ c :: rest) (by simpa using drop1) (by decide) (by decide)
    simpa using this
  have drop2 : it.code.drop (it.pos + 2) = (d0 :: ds) ++ c :: rest := by
    have := @drop_succ_of_drop_cons it.code (it.pos + 1) _ _ drop1
    simpa using this
  have curB : ({ it with col := it.col + 2, pos := it.pos + 2 } :
      SourceIterator).current = d0 := charAtD_of_drop_cons (by simpa using drop2)
  obtain ⟨buf', hrun⟩ := takeDigitsMain_run .BIN it.pos c rest hcb
    (d0 :: ds) fuel { it with col := it.col + 2, pos := it.pos + 2 }
    (addToBuffer (addToBuffer [] '0') 'b')
    (by simpa using drop2)
    (fun d hd => by
      rcases List.mem_cons.mp hd with h | h
      · subst h; simp [isDigitOrUnderscore, hd0]
      · exact hds d h)
    hfuel
  have dropDot : it.code.drop (it.pos + 2 + (d0 :: ds).length) = c :: rest := by
    have := @drop_append_of_drop it.code (it.pos + 2) _ _ drop2
    simpa using this
  have curDot2 : ({ it with
      col := it.col + (2 + (ds.length + 1))
      pos := it.pos + (2 + (ds.length + 1)) } : SourceIterator).current = c :=
    charAtD_of_drop_cons (show it.code.drop (it.pos + (2 + (ds.length + 1))) = c :: rest by
      rw [show it.pos + (2 + (ds.length + 1)) = it.pos + 2 + (d0 :: ds).length by
        simp only [List.length_cons]; omega]
      exact dropDot)
  simp only [lexNumber, cur0, next0, curA, nextA, curB, hd0]
  simp only [decide_True, decide_False, Bool.true_or, Bool.or_true, Bool.false_or,
    Bool.or_false, Bool.not_true, Bool.not_false, if_true, if_false]
  rcases hor with rfl | rfl | rfl <;>
    simp [okBind, hrun, curDot2, SourceIterator.getLocation, throwLex, Nat.add_assoc]

end lexer

namespace lexer

/-- `nextToken` on a `0` character dispatches to `lexNumber`. -/
theorem nextToken_zero (fuel : Nat) (it : SourceIterator) (hcur : it.current = '0') :
    nextToken fuel it = lexNumber fuel it := by
  simp [nextToken, hcur]
  intro h
  exact absurd h (by decide)

end lexer

/-- C7 (amended): a hex integer literal whose digit run is immediately
followed by `.`, and a binary integer literal whose digit run is immediately
followed by `.`, `e`, or `E`, make `tokenize` raise an invalid-character
`LexError` at that character's location.  (For hex literals `e`/`E` are
themselves hex digits and are consumed into the digit run, so no error can
fire for them — see the counterexample `0x1e`.) -/
theorem claim_C7_hex_bin_trailing_float_chars :
    (∀ (d0 : Char) (ds rest : List Char) (fn : String),
       lexer.isAsciiHexDigit d0 = true →
       (∀ d ∈ ds, lexer.isDigitOrUnderscore d .HEX = true) →
       lexer.tokenizeL ('0' :: 'x' :: d0 :: ds ++ '.' :: rest) fn =
         .error (.err (lexer.LexError.invalidChar ⟨fn, 1, 1 + (2 + (d0 :: ds).length)⟩))) ∧
    (∀ (d0 : Char) (ds rest : List Char) (c : Char) (fn : String),
       c = '.' ∨ c = 'e' ∨ c = 'E' →
       lexer.isAsciiBinDigit d0 = true →
       (∀ d ∈ ds, lexer.isDigitOrUnderscore d .BIN = true) →
       lexer.tokenizeL ('0' :: 'b' :: d0 :: ds ++ c :: rest) fn =
         .error (.err (lexer.LexError.invalidChar ⟨fn, 1, 1 + (2 + (d0 :: ds).length)⟩))) := by
  constructor
  · intro d0 ds rest fn hd0 hds
    set code : List Char := '0' :: 'x' :: d0 :: ds ++ '.' :: rest with hcode
    have hdrop0 : code.drop 0 = '0' :: 'x' :: d0 :: ds ++ '.' :: rest := rfl
    have it0def : lexer.tokenizeL code fn =
        lexer.lexAll (code.length + 2) ⟨code, fn, 1, 1, 0⟩ := rfl
    have cur0 : (⟨code, fn, 1, 1, 0⟩ : lexer.SourceIterator).current = '0' :=
      lexer.charAtD_of_drop_cons hdrop0
    have hlex := lexer.lexNumber_hexDot (code.length + 1) ⟨code, fn, 1, 1, 0⟩ d0 ds rest
      hdrop0 hd0 hds (by simp [hcode]; omega)
    rw [it0def, show code.length + 2 = (code.length + 1) + 1 from rfl]
    simp only [lexer.lexAll]
    have heat : lexer.eatWhitespaceAndComments (code.length + 1) ⟨code, fn, 1, 1, 0⟩ =
        .ok ⟨code, fn, 1, 1, 0⟩ := by
      rw [show code.length + 1 = code.length + 1 from rfl]
      obtain ⟨f, hf⟩ : ∃ f, code.length + 1 = f + 1 := ⟨code.length, rfl⟩
      rw [hf]
      simp [lexer.eatWhitespaceAndComments, cur0]
    rw [heat, lexer.okBind]
    rw [lexer.nextToken_zero _ _ cur0, hlex]
    rfl
  · intro d0 ds rest c fn hor hd0 hds
    set code : List Char := '0' :: 'b' :: d0 :: ds ++ c :: rest with hcode
    have hdrop0 : code.drop 0 = '0' :: 'b' :: d0 :: ds ++ c :: rest := rfl
    have it0def : lexer.tokenizeL code fn =
        lexer.lexAll (code.length + 2) ⟨code, fn, 1, 1, 0⟩ := rfl
    have cur0 : (⟨code, fn, 1, 1, 0⟩ : lexer.SourceIterator).current = '0' :=
      lexer.charAtD_of_drop_cons hdrop0
    have hlex := lexer.lexNumber_binFloatChar (code.length + 1) ⟨code, fn, 1, 1, 0⟩ d0 ds
      rest c hor hdrop0 hd0 hds (by simp [hcode]; omega)
    rw [it0def, show code.length + 2 = (code.length + 1) + 1 from rfl]
    simp only [lexer.lexAll]
    have heat : lexer.eatWhitespaceAndComments (code.length + 1) ⟨code, fn, 1, 1, 0⟩ =
        .ok ⟨code, fn, 1, 1, 0⟩ := by
      obtain ⟨f, hf⟩ : ∃ f, code.length + 1 = f + 1 := ⟨code.length, rfl⟩
      rw [hf]
      simp [lexer.eatWhitespaceAndComments, cur0]
    rw [heat, lexer.okBind]
    rw [lexer.nextToken_zero _ _ cur0, hlex]
    rfl

/-- C7 counterexample: the claim as stated says a hex literal containing `e`
raises an invalid-character error, but `e` is a hex digit: `0x1e` tokenizes
successfully to the integer 30. -/
theorem claim_C7_hex_e_is_a_digit :
    lexer.tokenize "0x1e" "<cli>" =
      .ok [lexer.Token.intLit 30 .HEX ⟨0, 4⟩, lexer.Token.simple .TOK_EOF ⟨4, 4⟩] := by
  decide

/-- Witness for C7's amended theorem: `0x1.` and `0b1e5` raise
invalid-character errors at the offending character. -/
theorem claim_C7_hex_bin_trailing_float_chars_witness :
    lexer.isAsciiHexDigit '1' = true ∧
    lexer.tokenizeL ('0' :: 'x' :: '1' :: [] ++ '.' :: []) "<cli>" =
      .error (.err (lexer.LexError.invalidChar ⟨"<cli>", 1, 1 + (2 + ('1' :: ([] : List Char)).length)⟩)) ∧
    lexer.tokenizeL ('0' :: 'b' :: '1' :: [] ++ 'e' :: ['5']) "<cli>" =
      .error (.err (lexer.LexError.invalidChar ⟨"<cli>", 1, 1 + (2 + ('1' :: ([] : List Char)).length)⟩)) :=
  ⟨by decide,
   claim_C7_hex_bin_trailing_float_chars.1 '1' [] [] "<cli>" (by decide)
     (by intro d hd; cases hd),
   claim_C7_hex_bin_trailing_float_chars.2 '1' [] ['5'] 'e' "<cli>" (by simp)
     (by decide) (by intro d hd; cases hd)⟩
namespace pparser

/-- The names of the non-help keyword arguments, in declaration order. -/
def nonHelpNames (args : List ArgumentDef) : List String :=
  (args.filter (fun a => !a.isHelpFlag)).map (fun a => a.name)

/-- Keys of the `keywordValues` map. -/
def kvKeys (m : List (String × ArgValue)) : List String := m.map Prod.fst

/-- Well-formedness maintained by the registration API: keyword-argument
names are unique on every command of the tree (`addKeywordArg` rejects
duplicates; the constructor adds at most one help argument). -/
inductive WFCommand : Command → Prop
  | intro (name help : String) (keywordArgs positionalArgs : List ArgumentDef)
      (subcommands : List (String × Command)) (aliases : List String)
      (handler : Option (ParseResult → Int))
      (hnodup : (keywordArgs.map (fun a => a.name)).Nodup)
      (hsub : ∀ p ∈ subcommands, WFCommand p.2) :
      WFCommand (.mk name help keywordArgs positionalArgs subcommands aliases handler)

theorem WFCommand.nodupNames {cmd : Command} (h : WFCommand cmd) :
    (cmd.keywordArgs.map (fun a => a.name)).Nodup := by
  cases h; assumption

theorem WFCommand.sub {cmd : Command} (h : WFCommand cmd) :
    ∀ p ∈ cmd.subcommands, WFCommand p.2 := by
  cases h; assumption

/-- `m` is the command `c` itself or a descendant through `subcommands`. -/
inductive Reaches : Command → Command → Prop
  | refl (c : Command) : Reaches c c
  | step {c m : Command} (p : String × Command) (hmem : p ∈ c.subcommands)
      (h : Reaches p.2 m) : Reaches c m

theorem kvKeys_cons (p : String × ArgValue) (rest : List (String × ArgValue)) :
    kvKeys (p :: rest) = p.1 :: kvKeys rest := rfl

theorem kvKeys_mapSet_mem (k : String) (v : ArgValue) :
    ∀ (m : List (String × ArgValue)), k ∈ kvKeys m → kvKeys (mapSet m k v) = kvKeys m := by
  intro m
  induction m with
  | nil => intro h; cases h
  | cons p rest ih =>
    intro h
    by_cases hk : p.1 = k
    · show kvKeys (if p.1 = k then (k, v) :: rest else p :: mapSet rest k v) = _
      rw [if_pos hk, kvKeys_cons, kvKeys_cons, hk]
    · rw [kvKeys_cons, List.mem_cons] at h
      have h' : k ∈ kvKeys rest := by
        rcases h with h' | h'
        · exact absurd h'.symm hk
        · exact h'
      show kvKeys (if p.1 = k then (k, v) :: rest else p :: mapSet rest k v) = _
      rw [if_neg hk, kvKeys_cons, kvKeys_cons, ih h']

theorem kvKeys_mapSet_not_mem (k : String) (v : ArgValue) :
    ∀ (m : List (String × ArgValue)), ¬(k ∈ kvKeys m) →
      kvKeys (mapSet m k v) = kvKeys m ++ [k] := by
  intro m
  induction m with
  | nil => intro _; rfl
  | cons p rest ih =>
    intro h
    rw [kvKeys_cons] at h
    have hk : p.1 ≠ k := fun he => h (List.mem_cons.mpr (Or.inl he.symm))
    have h' : ¬(k ∈ kvKeys rest) := fun hm => h (List.mem_cons.mpr (Or.inr hm))
    show kvKeys (if p.1 = k then (k, v) :: rest else p :: mapSet rest k v) = _
    rw [if_neg hk, kvKeys_cons, ih h', kvKeys_cons]
    rfl

/-- The pre-seed fold of `Command::parse`, over a general accumulator. -/
theorem initKV_aux :
    ∀ (args : List ArgumentDef) (acc : List (String × ArgValue)),
    (∀ a ∈ args, ¬a.isHelpFlag = true → ¬(a.name ∈ kvKeys acc)) →
    (args.map (fun a => a.name)).Nodup →
    kvKeys (args.foldl (fun m arg =>
      if arg.isHelpFlag then m else mapSet m arg.name arg.defaultValue) acc) =
      kvKeys acc ++ nonHelpNames args := by
  intro args
  induction args with
  | nil => intro acc _ _; simp [nonHelpNames]
  | cons a args' ih =>
    intro acc hdisj hnd
    have hnd' : (args'.map (fun a => a.name)).Nodup := by
      simp at hnd; exact hnd.2
    have hna : ∀ x ∈ args', ¬(x.name = a.name) := by
      intro x hx he
      simp at hnd
      exact hnd.1 x hx he
    by_cases hh : a.isHelpFlag = true
    · rw [List.foldl_cons, if_pos hh,
        ih acc (fun x hx hxh => hdisj x (by simp [hx]) hxh) hnd']
      simp [nonHelpNames, hh]
    · have hnotin : ¬(a.name ∈ kvKeys acc) := hdisj a (by simp) (by simp [hh])
      have hkeys' := kvKeys_mapSet_not_mem a.name a.defaultValue acc hnotin
      have hdisj' : ∀ x ∈ args', ¬x.isHelpFlag = true →
          ¬(x.name ∈ kvKeys (mapSet acc a.name a.defaultValue)) := by
        intro x hx hxh
        rw [hkeys']
        intro hmem
        rcases List.mem_append.mp hmem with hm | hm
        · exact hdisj x (by simp [hx]) hxh hm
        · simp at hm
          exact hna x hx hm
      rw [List.foldl_cons, if_neg hh, ih (mapSet acc a.name a.defaultValue) hdisj' hnd',
        hkeys']
      simp [nonHelpNames, hh, List.append_assoc]

theorem initKeywordValues_keys (args : List ArgumentDef)
    (hnodup : (args.map (fun a => a.name)).Nodup) :
    kvKeys (initKeywordValues args) = nonHelpNames args := by
  have := initKV_aux args [] (by intro a _ _ h; cases h) hnodup
  simpa [initKeywordValues, kvKeys] using this

end pparser
namespace pparser

/-- A member of a non-help keyword definition list contributes its name. -/
theorem mem_nonHelpNames {args : List ArgumentDef} {a : ArgumentDef}
    (ha : a ∈ args) (hh : a.isHelpFlag = false) : a.name ∈ nonHelpNames args := by
  unfold nonHelpNames
  exact List.mem_map_of_mem _ (List.mem_filter.mpr ⟨ha, by simp [hh]⟩)

theorem findKeywordArg_mem {cmd : Command} {s : String} {b : Bool} {a : ArgumentDef}
    (h : cmd.findKeywordArg s b = some a) : a ∈ cmd.keywordArgs :=
  List.mem_of_find?_eq_some h

/-- The loop invariant of `Command::parse` relative to the command being
matched: the value-map keys are exactly the non-help keyword names (in
declaration order), and the positional values filled so far track
`currentPositionalArgIndex`, which never exceeds the declared count. -/
def StInv (cmd : Command) (st : PState) : Prop :=
  kvKeys st.result.keywordValues = nonHelpNames cmd.keywordArgs ∧
  st.result.positionalValues.length = st.posIdx ∧
  st.posIdx ≤ cmd.positionalArgs.length

theorem kvKeys_mapSet_of_eq {kv : List (String × ArgValue)} {names : List String}
    {n : String} {v : ArgValue}
    (h : kvKeys kv = names) (hn : n ∈ names) : kvKeys (mapSet kv n v) = names := by
  rw [kvKeys_mapSet_mem n v kv (h ▸ hn), h]

theorem setSeenTrue_inv {cmd : Command} {st : PState} {a : ArgumentDef} {v : ArgValue}
    (hinv : StInv cmd st) (ha : a ∈ cmd.keywordArgs) (hh : a.isHelpFlag = false) :
    StInv cmd (st.setSeenTrue a.name v) := by
  obtain ⟨h1, h2, h3⟩ := hinv
  exact ⟨kvKeys_mapSet_of_eq h1 (mem_nonHelpNames ha hh), h2, h3⟩

theorem processCluster_inr {cmd : Command} :
    ∀ (cs : List Char) (st st' : PState),
    processCluster cmd cs st = .inr st' → StInv cmd st → StInv cmd st' := by
  intro cs
  induction cs with
  | nil =>
    intro st st' h hinv
    cases h
    exact hinv
  | cons c rest ih =>
    intro st st' h hinv
    cases hfind : cmd.findKeywordArg (String.mk [c]) true with
    | none => simp [processCluster, hfind] at h
    | some a =>
      cases hh : a.isHelpFlag with
      | true => simp [processCluster, hfind, hh] at h
      | false =>
        by_cases ht : a.type = ArgType.FLAG
        · simp only [processCluster, hfind, hh, Bool.false_eq_true, if_false, ht,
            ne_eq, not_true_eq_false] at h
          exact ih _ _ h (setSeenTrue_inv hinv (findKeywordArg_mem hfind) hh)
        · simp [processCluster, hfind, hh, ht] at h

theorem processCluster_inl_status {cmd : Command} :
    ∀ (cs : List Char) (st : PState) (r : ParseResult),
    processCluster cmd cs st = .inl r → r.status ≠ .SUCCESS := by
  intro cs
  induction cs with
  | nil => intro st r h; cases h
  | cons c rest ih =>
    intro st r h
    cases hfind : cmd.findKeywordArg (String.mk [c]) true with
    | none =>
      simp only [processCluster, hfind] at h
      cases h
      simp [PState.errResult]
    | some a =>
      cases hh : a.isHelpFlag with
      | true =>
        simp only [processCluster, hfind, hh, if_true] at h
        cases h
        simp [PState.helpResult]
      | false =>
        by_cases ht : a.type = ArgType.FLAG
        · simp only [processCluster, hfind, hh, Bool.false_eq_true, if_false, ht,
            ne_eq, not_true_eq_false] at h
          exact ih _ _ h
        · simp only [processCluster, hfind, hh, Bool.false_eq_true, if_false, ht,
            ne_eq, not_false_eq_true, if_true] at h
          cases h
          simp [PState.errResult]

end pparser
namespace pparser

theorem fillPositionals_inl_status :
    ∀ (rest : List ArgumentDef) (st : PState) (r : ParseResult),
    fillPositionals rest st = .inl r → r.status = .PARSE_ERROR := by
  intro rest
  induction rest with
  | nil => intro st r h; cases h
  | cons a rest ih =>
    intro st r h
    by_cases hr : a.required = true
    · simp only [fillPositionals, hr, if_true] at h
      cases h
      simp [PState.errResult]
    · simp only [fillPositionals, hr, if_false] at h
      exact ih _ _ h

theorem fillPositionals_inr :
    ∀ (rest : List ArgumentDef) (st st' : PState),
    fillPositionals rest st = .inr st' →
    st'.result.keywordValues = st.result.keywordValues ∧
    st'.result.positionalValues.length = st.result.positionalValues.length + rest.length ∧
    st'.result.status = st.result.status := by
  intro rest
  induction rest with
  | nil =>
    intro st st' h
    cases h
    exact ⟨rfl, rfl, rfl⟩
  | cons a rest ih =>
    intro st st' h
    by_cases hr : a.required = true
    · simp only [fillPositionals, hr, if_true] at h
      cases h
    · simp only [fillPositionals, hr, if_false] at h
      obtain ⟨h1, h2, h3⟩ := ih _ _ h
      refine ⟨h1, ?_, h3⟩
      rw [h2]
      simp
      omega

theorem handlePositional_inl_status {cmd : Command} {tokens : List lexer.Token}
    {idx : Nat} {st : PState} {token : lexer.Token} {r : ParseResult} {i : Nat}
    (h : handlePositional cmd tokens idx st token = .ok (.inl (r, i))) :
    r.status = .PARSE_ERROR := by
  unfold handlePositional at h
  cases hget : cmd.positionalArgs.get? st.posIdx with
  | none =>
    simp only [hget] at h
    cases h
    rfl
  | some posArgDef =>
    simp only [hget] at h
    cases hpv : parseTokenValue token posArgDef.type with
    | error msg => simp only [hpv] at h; cases h
    | ok parsedValue =>
      simp only [hpv] at h
      by_cases hn : parsedValue.isNone = true
      · simp only [hn, if_true] at h
        cases h
        simp [PState.errResult]
      · simp only [hn, if_false] at h
        by_cases hsing : posArgDef.type = ArgType.SINGLE
        · simp only [hsing, if_true] at h
          cases h
        · simp only [hsing, if_false] at h
          by_cases hmult : posArgDef.type = ArgType.MULTIPLE
          · simp only [hmult, if_true] at h
            by_cases hstr : parsedValue.isString = true
            · simp only [hstr, Bool.not_true, Bool.false_eq_true, if_false] at h
              cases hcs : consumeStrings (tokens.drop (idx + 1)) with
              | error msg => simp only [hcs] at h; cases h
              | ok mk =>
                simp only [hcs] at h
                cases mk with
                | mk more k =>
                  simp only at h
                  cases h
            · simp only [hstr, Bool.not_false, Bool.true_eq_false, if_true] at h
              cases h
              simp [PState.errResult]
          · simp only [hmult, if_false] at h
            cases h

theorem handlePositional_inr_inv {cmd : Command} {tokens : List lexer.Token}
    {idx : Nat} {st : PState} {token : lexer.Token} {st' : PState} {idx' : Nat}
    (h : handlePositional cmd tokens idx st token = .ok (.inr (st', idx')))
    (hinv : StInv cmd st) : StInv cmd st' := by
  obtain ⟨h1, h2, h3⟩ := hinv
  unfold handlePositional at h
  cases hget : cmd.positionalArgs.get? st.posIdx with
  | none => simp only [hget] at h; cases h
  | some posArgDef =>
    have hlt : st.posIdx < cmd.positionalArgs.length := by
      rcases List.get?_eq_some.mp hget with ⟨hl, _⟩
      exact hl
    simp only [hget] at h
    cases hpv : parseTokenValue token posArgDef.type with
    | error msg => simp only [hpv] at h; cases h
    | ok parsedValue =>
      simp only [hpv] at h
      by_cases hn : parsedValue.isNone = true
      · simp only [hn, if_true] at h
        cases h
      · simp only [hn, if_false] at h
        by_cases hsing : posArgDef.type = ArgType.SINGLE
        · simp only [hsing, if_true] at h
          cases h
          refine ⟨h1, ?_, hlt⟩
          simp [h2]
        · simp only [hsing, if_false] at h
          by_cases hmult : posArgDef.type = ArgType.MULTIPLE
          · simp only [hmult, if_true] at h
            by_cases hstr : parsedValue.isString = true
            · simp only [hstr, Bool.not_true, Bool.false_eq_true, if_false] at h
              cases hcs : consumeStrings (tokens.drop (idx + 1)) with
              | error msg => simp only [hcs] at h; cases h
              | ok mk =>
                simp only [hcs] at h
                cases mk with
                | mk more k =>
                  simp only at h
                  cases h
                  refine ⟨h1, ?_, hlt⟩
                  simp [h2]
            · simp only [hstr, Bool.not_false, Bool.true_eq_false, if_true] at h
              cases h
          · simp only [hmult, if_false] at h
            cases h
            exact ⟨h1, h2, h3⟩

end pparser
namespace pparser

theorem finalize_success {cmd : Command} {st : PState}
    (hs : (finalize cmd st).status = .SUCCESS) (hinv : StInv cmd st) :
    kvKeys (finalize cmd st).keywordValues = nonHelpNames cmd.keywordArgs ∧
    (finalize cmd st).positionalValues.length = cmd.positionalArgs.length := by
  obtain ⟨h1, h2, h3⟩ := hinv
  unfold finalize at hs ⊢
  cases hfind : cmd.keywordArgs.find? (fun arg =>
      !arg.isHelpFlag && arg.required && !(st.seen.contains arg.name)) with
  | some arg =>
    simp only [hfind] at hs
    simp [PState.errResult] at hs
  | none =>
    simp only [hfind] at hs ⊢
    cases hfill : fillPositionals (cmd.positionalArgs.drop st.posIdx) st with
    | inl r =>
      simp only [hfill] at hs
      rw [fillPositionals_inl_status _ _ _ hfill] at hs
      cases hs
    | inr st' =>
      obtain ⟨g1, g2, g3⟩ := fillPositionals_inr _ _ _ hfill
      simp only [hfill] at hs ⊢
      have hlen : st'.result.positionalValues.length = cmd.positionalArgs.length := by
        rw [g2, h2, List.length_drop]
        omega
      cases hh : cmd.handler with
      | none =>
        simp only [hh] at hs ⊢
        rw [g1, h1]
        exact ⟨rfl, hlen⟩
      | some hdl =>
        cases hst : st'.result.status with
        | SUCCESS =>
          simp only [hh, hst] at hs ⊢
          refine ⟨?_, hlen⟩
          rw [g1, h1]
        | HELP_REQUESTED =>
          simp only [hh, hst] at hs ⊢
          rw [g1, h1]
          exact ⟨rfl, hlen⟩
        | PARSE_ERROR =>
          simp only [hh, hst] at hs ⊢
          rw [g1, h1]
          exact ⟨rfl, hlen⟩

theorem initState_inv {cmd : Command} (hwf : WFCommand cmd) (p : String) :
    StInv cmd (cmd.initState p) := by
  refine ⟨?_, rfl, Nat.zero_le _⟩
  show kvKeys (initKeywordValues cmd.keywordArgs) = _
  exact initKeywordValues_keys _ hwf.nodupNames

theorem assocFind_mem :
    ∀ (l : List (String × Command)) (k : String) (c : Command),
    assocFind l k = some c → (k, c) ∈ l := by
  intro l
  induction l with
  | nil => intro k c h; cases h
  | cons p rest ih =>
    intro k c h
    by_cases hk : p.1 = k
    · cases p with
      | mk n c' =>
        simp only at hk
        simp only [assocFind, hk, if_true] at h
        cases h
        subst hk
        exact List.mem_cons_self _ _
    · cases p with
      | mk n c' =>
        simp only at hk
        simp only [assocFind, hk, if_false] at h
        exact List.mem_cons_of_mem _ (ih _ _ h)

theorem headOptMem {α : Type} {l : List α} {a : α} (h : l.head? = some a) : a ∈ l := by
  cases l with
  | nil => cases h
  | cons x xs =>
    injection h with h
    rw [← h]
    exact List.mem_cons_self _ _

end pparser
namespace pparser

theorem mapFind_none_not_mem :
    ∀ (m : List (String × ArgValue)) (k : String),
    mapFind m k = Option.none → ¬(k ∈ kvKeys m) := by
  intro m
  induction m with
  | nil => intro k _ h; cases h
  | cons p rest ih =>
    intro k hf hmem
    by_cases hk : p.1 = k
    · cases p with
      | mk k' v' =>
        simp only at hk
        simp only [mapFind, hk, if_true] at hf
        cases hf
    · cases p with
      | mk k' v' =>
        simp only at hk
        simp only [mapFind, hk, if_false] at hf
        rw [kvKeys_cons, List.mem_cons] at hmem
        rcases hmem with h | h
        · exact hk (by simpa using h.symm)
        · exact ih k hf h

/-- The main-loop invariant of `Command::parse`: from any state satisfying
`StInv` for a well-formed command, a run that returns a `SUCCESS` result
produced that result on some command reachable through subcommand
delegation, with the value-map keys exactly that command's non-help keyword
names and one positional value per declared positional argument. -/
theorem parseGo_success_inv :
    ∀ (fuel : Nat) (cmd : Command) (tokens : List lexer.Token) (idx : Nat) (st : PState)
      (res : ParseResult) (i' : Nat),
    WFCommand cmd → StInv cmd st →
    parseGo fuel cmd tokens idx st = .ok (res, i') → res.status = .SUCCESS →
    ∃ m, Reaches cmd m ∧ kvKeys res.keywordValues = nonHelpNames m.keywordArgs ∧
      res.positionalValues.length = m.positionalArgs.length := by
  intro fuel
  induction fuel with
  | zero =>
    intro cmd tokens idx st res i' _ _ hp _
    simp [parseGo] at hp
  | succ fuel ih =>
    intro cmd tokens idx st res i' hwf hinv hp hs
    cases htok : tokens.get? idx with
    | none =>
      rw [parseGo_atEnd fuel cmd tokens idx st htok] at hp
      cases hp
      obtain ⟨g1, g2⟩ := finalize_success hs hinv
      exact ⟨cmd, Reaches.refl cmd, g1, g2⟩
    | some token =>
      simp only [parseGo, htok] at hp
      by_cases hSb : decide (token.getKind = lexer.TokenKind.TOK_FLAG_SHORT) = true
      · -- short-flag token
        simp only [hSb, Bool.true_or, Bool.true_and, if_true] at hp
        cases hid : token.getIdValue with
        | error msg => simp only [hid] at hp; cases hp
        | ok flagNameStr =>
          simp only [hid] at hp
          by_cases hlenb : decide (flagNameStr.data.length > 1) = true
          · rw [if_pos hlenb] at hp
            cases hcl : processCluster cmd flagNameStr.data st with
            | inl r =>
              simp only [hcl] at hp
              cases hp
              exact absurd hs (processCluster_inl_status _ _ _ hcl)
            | inr st2 =>
              simp only [hcl] at hp
              exact ih _ _ _ _ _ _ hwf (processCluster_inr _ _ _ hcl hinv) hp hs
          · rw [if_neg hlenb] at hp
            cases hfind : cmd.findKeywordArg flagNameStr true with
            | none =>
              simp only [hfind] at hp
              cases hp
              simp [PState.errResult] at hs
            | some matchedArg =>
              simp only [hfind] at hp
              by_cases hh : matchedArg.isHelpFlag = true
              · rw [if_pos hh] at hp
                cases hp
                simp [PState.helpResult] at hs
              · rw [if_neg hh] at hp
                have hmem : matchedArg.name ∈ nonHelpNames cmd.keywordArgs :=
                  mem_nonHelpNames (findKeywordArg_mem hfind) (Bool.eq_false_iff.mpr hh)
                by_cases hF : matchedArg.type = ArgType.FLAG
                · rw [if_pos hF] at hp
                  refine ih _ _ _ _ _ _ hwf ?_ hp hs
                  exact ⟨kvKeys_mapSet_of_eq hinv.1 hmem, hinv.2.1, hinv.2.2⟩
                · rw [if_neg hF] at hp
                  cases hval : tokens.get? (idx + 1) with
                  | none =>
                    simp only [hval] at hp
                    cases hp
                    simp [PState.errResult] at hs
                  | some valueToken =>
                    simp only [hval] at hp
                    by_cases hvb : (decide (valueToken.getKind = lexer.TokenKind.TOK_FLAG_SHORT) ||
                        decide (valueToken.getKind = lexer.TokenKind.TOK_FLAG_LONG)) = true
                    · rw [if_pos hvb] at hp
                      cases hp
                      simp [PState.errResult] at hs
                    · rw [if_neg hvb] at hp
                      cases hpv : parseTokenValue valueToken matchedArg.type with
                      | error msg => simp only [hpv] at hp; cases hp
                      | ok parsedValue =>
                        simp only [hpv] at hp
                        by_cases hnone : parsedValue.isNone = true
                        · rw [if_pos hnone] at hp
                          cases hp
                          simp [PState.errResult] at hs
                        · rw [if_neg hnone] at hp
                          by_cases hSing : matchedArg.type = ArgType.SINGLE
                          · rw [if_pos hSing] at hp
                            refine ih _ _ _ _ _ _ hwf ?_ hp hs
                            exact ⟨kvKeys_mapSet_of_eq hinv.1 hmem, hinv.2.1, hinv.2.2⟩
                          · rw [if_neg hSing] at hp
                            by_cases hMult : matchedArg.type = ArgType.MULTIPLE
                            · rw [if_pos hMult] at hp
                              by_cases hstrb : (!parsedValue.isString) = true
                              · rw [if_pos hstrb] at hp
                                cases hp
                                simp [PState.errResult] at hs
                              · rw [if_neg hstrb] at hp
                                have hkeys0 : matchedArg.name ∈ kvKeys st.result.keywordValues :=
                                  hinv.1.symm ▸ hmem
                                cases hf0 : mapFind st.result.keywordValues matchedArg.name with
                                | none => exact absurd hkeys0 (mapFind_none_not_mem _ _ hf0)
                                | some v0 =>
                                  simp only [hf0] at hp
                                  cases hbv : (!v0.isStringVector || v0.isNone) with
                                  | false =>
                                    simp only [hbv, Bool.false_eq_true, if_false] at hp
                                    cases hf1 : mapFind st.result.keywordValues matchedArg.name with
                                    | none =>
                                      simp only [hf1] at hp; cases hp; simp at hs
                                    | some v1 =>
                                      cases v1 with
                                      | strVec vec =>
                                        simp only [hf1] at hp
                                        cases hcs : consumeStrings (tokens.drop (idx + 1 + 1)) with
                                        | error msg => simp only [hcs] at hp; cases hp
                                        | ok pr =>
                                          cases pr with
                                          | mk more k =>
                                            simp only [hcs] at hp
                                            refine ih _ _ _ _ _ _ hwf ?_ hp hs
                                            exact ⟨kvKeys_mapSet_of_eq hinv.1 hmem, hinv.2.1, hinv.2.2⟩
                                      | none => simp only [hf1] at hp; cases hp; simp at hs
                                      | bool b2 => simp only [hf1] at hp; cases hp; simp at hs
                                      | int n2 => simp only [hf1] at hp; cases hp; simp at hs
                                      | double d2 => simp only [hf1] at hp; cases hp; simp at hs
                                      | str s2 => simp only [hf1] at hp; cases hp; simp at hs
                                  | true =>
                                    simp only [hbv, if_true] at hp
                                    cases hf1 : mapFind (mapSet st.result.keywordValues matchedArg.name (ArgValue.strVec [])) matchedArg.name with
                                    | none =>
                                      simp only [hf1] at hp; cases hp; simp at hs
                                    | some v1 =>
                                      cases v1 with
                                      | strVec vec =>
                                        simp only [hf1] at hp
                                        cases hcs : consumeStrings (tokens.drop (idx + 1 + 1)) with
                                        | error msg => simp only [hcs] at hp; cases hp
                                        | ok pr =>
                                          cases pr with
                                          | mk more k =>
                                            simp only [hcs] at hp
                                            refine ih _ _ _ _ _ _ hwf ?_ hp hs
                                            exact ⟨kvKeys_mapSet_of_eq (kvKeys_mapSet_of_eq hinv.1 hmem) hmem, hinv.2.1, hinv.2.2⟩
                                      | none => simp only [hf1] at hp; cases hp; simp at hs
                                      | bool b2 => simp only [hf1] at hp; cases hp; simp at hs
                                      | int n2 => simp only [hf1] at hp; cases hp; simp at hs
                                      | double d2 => simp only [hf1] at hp; cases hp; simp at hs
                                      | str s2 => simp only [hf1] at hp; cases hp; simp at hs
                            · rw [if_neg hMult] at hp
                              refine ih _ _ _ _ _ _ hwf ?_ hp hs
                              exact ⟨hinv.1, hinv.2.1, hinv.2.2⟩
      · rw [Bool.not_eq_true] at hSb
        simp only [hSb, Bool.false_or, Bool.false_and, Bool.false_eq_true, if_false] at hp
        by_cases hLb : decide (token.getKind = lexer.TokenKind.TOK_FLAG_LONG) = true
        · -- long-flag token
          simp only [hLb, if_true] at hp
          cases hid : token.getIdValue with
          | error msg => simp only [hid] at hp; cases hp
          | ok flagNameStr =>
            simp only [hid] at hp
            cases hfind : cmd.findKeywordArg flagNameStr false with
            | none =>
              simp only [hfind] at hp
              cases hp
              simp [PState.errResult] at hs
            | some matchedArg =>
              simp only [hfind] at hp
              by_cases hh : matchedArg.isHelpFlag = true
              · rw [if_pos hh] at hp
                cases hp
                simp [PState.helpResult] at hs
              · rw [if_neg hh] at hp
                have hmem : matchedArg.name ∈ nonHelpNames cmd.keywordArgs :=
                  mem_nonHelpNames (findKeywordArg_mem hfind) (Bool.eq_false_iff.mpr hh)
                by_cases hF : matchedArg.type = ArgType.FLAG
                · rw [if_pos hF] at hp
                  refine ih _ _ _ _ _ _ hwf ?_ hp hs
                  exact ⟨kvKeys_mapSet_of_eq hinv.1 hmem, hinv.2.1, hinv.2.2⟩
                · rw [if_neg hF] at hp
                  cases hval : tokens.get? (idx + 1) with
                  | none =>
                    simp only [hval] at hp
                    cases hp
                    simp [PState.errResult] at hs
                  | some valueToken =>
                    simp only [hval] at hp
                    by_cases hvb : (decide (valueToken.getKind = lexer.TokenKind.TOK_FLAG_SHORT) ||
                        decide (valueToken.getKind = lexer.TokenKind.TOK_FLAG_LONG)) = true
                    · rw [if_pos hvb] at hp
                      cases hp
                      simp [PState.errResult] at hs
                    · rw [if_neg hvb] at hp
                      cases hpv : parseTokenValue valueToken matchedArg.type with
                      | error msg => simp only [hpv] at hp; cases hp
                      | ok parsedValue =>
                        simp only [hpv] at hp
                        by_cases hnone : parsedValue.isNone = true
                        · rw [if_pos hnone] at hp
                          cases hp
                          simp [PState.errResult] at hs
                        · rw [if_neg hnone] at hp
                          by_cases hSing : matchedArg.type = ArgType.SINGLE
                          · rw [if_pos hSing] at hp
                            refine ih _ _ _ _ _ _ hwf ?_ hp hs
                            exact ⟨kvKeys_mapSet_of_eq hinv.1 hmem, hinv.2.1, hinv.2.2⟩
                          · rw [if_neg hSing] at hp
                            by_cases hMult : matchedArg.type = ArgType.MULTIPLE
                            · rw [if_pos hMult] at hp
                              by_cases hstrb : (!parsedValue.isString) = true
                              · rw [if_pos hstrb] at hp
                                cases hp
                                simp [PState.errResult] at hs
                              · rw [if_neg hstrb] at hp
                                have hkeys0 : matchedArg.name ∈ kvKeys st.result.keywordValues :=
                                  hinv.1.symm ▸ hmem
                                cases hf0 : mapFind st.result.keywordValues matchedArg.name with
                                | none => exact absurd hkeys0 (mapFind_none_not_mem _ _ hf0)
                                | some v0 =>
                                  simp only [hf0] at hp
                                  cases hbv : (!v0.isStringVector || v0.isNone) with
                                  | false =>
                                    simp only [hbv, Bool.false_eq_true, if_false] at hp
                                    cases hf1 : mapFind st.result.keywordValues matchedArg.name with
                                    | none =>
                                      simp only [hf1] at hp; cases hp; simp at hs
                                    | some v1 =>
                                      cases v1 with
                                      | strVec vec =>
                                        simp only [hf1] at hp
                                        cases hcs : consumeStrings (tokens.drop (idx + 1 + 1)) with
                                        | error msg => simp only [hcs] at hp; cases hp
                                        | ok pr =>
                                          cases pr with
                                          | mk more k =>
                                            simp only [hcs] at hp
                                            refine ih _ _ _ _ _ _ hwf ?_ hp hs
                                            exact ⟨kvKeys_mapSet_of_eq hinv.1 hmem, hinv.2.1, hinv.2.2⟩
                                      | none => simp only [hf1] at hp; cases hp; simp at hs
                                      | bool b2 => simp only [hf1] at hp; cases hp; simp at hs
                                      | int n2 => simp only [hf1] at hp; cases hp; simp at hs
                                      | double d2 => simp only [hf1] at hp; cases hp; simp at hs
                                      | str s2 => simp only [hf1] at hp; cases hp; simp at hs
                                  | true =>
                                    simp only [hbv, if_true] at hp
                                    cases hf1 : mapFind (mapSet st.result.keywordValues matchedArg.name (ArgValue.strVec [])) matchedArg.name with
                                    | none =>
                                      simp only [hf1] at hp; cases hp; simp at hs
                                    | some v1 =>
                                      cases v1 with
                                      | strVec vec =>
                                        simp only [hf1] at hp
                                        cases hcs : consumeStrings (tokens.drop (idx + 1 + 1)) with
                                        | error msg => simp only [hcs] at hp; cases hp
                                        | ok pr =>
                                          cases pr with
                                          | mk more k =>
                                            simp only [hcs] at hp
                                            refine ih _ _ _ _ _ _ hwf ?_ hp hs
                                            exact ⟨kvKeys_mapSet_of_eq (kvKeys_mapSet_of_eq hinv.1 hmem) hmem, hinv.2.1, hinv.2.2⟩
                                      | none => simp only [hf1] at hp; cases hp; simp at hs
                                      | bool b2 => simp only [hf1] at hp; cases hp; simp at hs
                                      | int n2 => simp only [hf1] at hp; cases hp; simp at hs
                                      | double d2 => simp only [hf1] at hp; cases hp; simp at hs
                                      | str s2 => simp only [hf1] at hp; cases hp; simp at hs
                            · rw [if_neg hMult] at hp
                              refine ih _ _ _ _ _ _ hwf ?_ hp hs
                              exact ⟨hinv.1, hinv.2.1, hinv.2.2⟩
        · rw [Bool.not_eq_true] at hLb
          simp only [hLb, Bool.false_eq_true, if_false] at hp
          by_cases hID : token.getKind = lexer.TokenKind.TOK_ID
          · rw [if_pos hID, if_pos hID] at hp
            cases hgid : token.getIdValue with
            | error msg =>
              simp only [hgid] at hp
              cases hp
            | ok potential =>
              simp only [hgid] at hp
              cases hsub : assocFind cmd.subcommands potential with
              | some sub =>
                simp only [hsub] at hp
                have hmemS : (potential, sub) ∈ cmd.subcommands := assocFind_mem _ _ _ hsub
                have hwfS : WFCommand sub := hwf.sub _ hmemS
                obtain ⟨m, hr, hm1, hm2⟩ :=
                  ih _ _ _ _ _ _ hwfS (initState_inv hwfS _) hp hs
                exact ⟨m, Reaches.step _ hmemS hr, hm1, hm2⟩
              | none =>
                simp only [hsub] at hp
                by_cases halb : decide
                    ((cmd.subcommands.filter (fun p => p.2.hasAlias potential)).length ≥ 2) = true
                · rw [if_pos halb] at hp
                  cases hp
                  simp [PState.errResult] at hs
                · rw [if_neg halb] at hp
                  cases hhd : (cmd.subcommands.filter (fun p => p.2.hasAlias potential)).head? with
                  | some p =>
                    simp only [hhd] at hp
                    have hmemA : p ∈ cmd.subcommands :=
                      List.mem_of_mem_filter (headOptMem hhd)
                    have hwfA : WFCommand p.2 := hwf.sub _ hmemA
                    obtain ⟨m, hr, hm1, hm2⟩ :=
                      ih _ _ _ _ _ _ hwfA (initState_inv hwfA _) hp hs
                    exact ⟨m, Reaches.step _ hmemA hr, hm1, hm2⟩
                  | none =>
                    simp only [hhd] at hp
                    cases hhp : handlePositional cmd tokens idx st token with
                    | error msg => simp only [hhp] at hp; cases hp
                    | ok s =>
                      cases s with
                      | inl done =>
                        cases done with
                        | mk r i =>
                          simp only [hhp] at hp
                          cases hp
                          rw [handlePositional_inl_status hhp] at hs
                          cases hs
                      | inr pr =>
                        cases pr with
                        | mk st2 idx2 =>
                          simp only [hhp] at hp
                          exact ih _ _ _ _ _ _ hwf (handlePositional_inr_inv hhp hinv) hp hs
          · rw [if_neg hID, if_neg hID] at hp
            simp only [] at hp
            cases hhp : handlePositional cmd tokens idx st token with
            | error msg => simp only [hhp] at hp; cases hp
            | ok s =>
              cases s with
              | inl done =>
                cases done with
                | mk r i =>
                  simp only [hhp] at hp
                  cases hp
                  rw [handlePositional_inl_status hhp] at hs
                  cases hs
              | inr pr =>
                cases pr with
                | mk st2 idx2 =>
                  simp only [hhp] at hp
                  exact ih _ _ _ _ _ _ hwf (handlePositional_inr_inv hhp hinv) hp hs

end pparser
namespace pparser

/-- C2: for every well-formed `Command` (unique keyword-argument names on
every node, as the registration API enforces) and every token sequence, if
`Command::parse` returns a result with status `SUCCESS`, then there is a
command `m` reached through subcommand delegation (the matched command)
such that `keywordValues` holds exactly one entry per non-help keyword
`ArgumentDef` declared on `m`, keyed by its name in declaration order, and
`positionalValues` holds exactly one entry per positional `ArgumentDef`
declared on `m`. -/
theorem claim_C2_success_result_shape (cmd : Command) (tokens : List lexer.Token)
    (idx : Nat) (pathPfx : String) (res : ParseResult) (i' : Nat)
    (hwf : WFCommand cmd)
    (hp : Command.parse cmd tokens idx pathPfx = .ok (res, i'))
    (hs : res.status = .SUCCESS) :
    ∃ m, Reaches cmd m ∧
      kvKeys res.keywordValues = nonHelpNames m.keywordArgs ∧
      res.positionalValues.length = m.positionalArgs.length :=
  parseGo_success_inv (tokens.length - idx + 1) cmd tokens idx (cmd.initState pathPfx)
    res i' hwf (initState_inv hwf pathPfx) hp hs

theorem claim_C2_success_result_shape_witness :
    ∃ m, Reaches (Command.new "app" "demo") m ∧
      kvKeys (((Command.new "app" "demo").initState "").result).keywordValues =
        nonHelpNames m.keywordArgs ∧
      (((Command.new "app" "demo").initState "").result).positionalValues.length =
        m.positionalArgs.length :=
  claim_C2_success_result_shape (Command.new "app" "demo") [] 0 "" _ 0
    (WFCommand.intro _ _ _ _ _ _ _ (by decide) (by simp)) rfl rfl

end pparser
namespace lexer

theorem charAtD_oob {code : List Char} {pos : Nat} (h : code.length ≤ pos) :
    charAtD code pos = '\x00' := by
  simp [charAtD, List.getD_eq_getElem?_getD, List.getElem?_eq_none h]

/-- A non-NUL current character means the iterator is in range. -/
theorem pos_lt_of_current_ne {it : SourceIterator} (h : it.current ≠ '\x00') :
    it.pos < it.code.length := by
  by_contra hge
  exact h (charAtD_oob (Nat.le_of_not_lt hge))

theorem next_code (it : SourceIterator) : it.next.code = it.code := by
  simp only [SourceIterator.next]
  split
  · split
    · rfl
    · split <;> rfl
  · rfl

theorem next_pos_le (it : SourceIterator) : it.pos ≤ it.next.pos := by
  simp only [SourceIterator.next]
  split
  · split
    · exact Nat.le_succ _
    · split <;> exact Nat.le_succ _
  · exact Nat.le_refl _

theorem next_pos_eq {it : SourceIterator} (h : it.pos < it.code.length) :
    it.next.pos = it.pos + 1 := by
  simp only [SourceIterator.next, if_pos h]
  split
  · rfl
  · split <;> rfl

theorem next_current (it : SourceIterator) (h : it.pos < it.code.length) :
    it.next.current = it.peek := by
  show charAtD it.next.code it.next.pos = charAtD it.code (it.pos + 1)
  rw [next_code, next_pos_eq h]

theorem skipWhile_total (p : Char → Bool) (hnul : p '\x00' = false) :
    ∀ (fuel : Nat) (it : SourceIterator),
    it.code.length - it.pos + 1 ≤ fuel →
    ∃ it', skipWhile p fuel it = .ok it' ∧ it'.code = it.code ∧ it.pos ≤ it'.pos ∧
      (p it.current = true → it.pos < it'.pos) := by
  intro fuel
  induction fuel with
  | zero => intro it h; omega
  | succ fuel ih =>
    intro it h
    by_cases hc : p it.current = true
    · have hne : it.current ≠ '\x00' := by
        intro he
        rw [he, hnul] at hc
        cases hc
      have hlt : it.pos < it.code.length := pos_lt_of_current_ne hne
      have hnp : it.next.pos = it.pos + 1 := next_pos_eq hlt
      have hfuel : it.next.code.length - it.next.pos + 1 ≤ fuel := by
        rw [next_code, hnp]
        omega
      obtain ⟨it', he, hcode, hpos, _⟩ := ih it.next hfuel
      refine ⟨it', ?_, by rw [hcode, next_code], by omega, fun _ => by omega⟩
      simp only [skipWhile, hc, if_true]
      exact he
    · refine ⟨it, ?_, rfl, Nat.le_refl _, fun hpc => absurd hpc hc⟩
      simp only [skipWhile, hc, Bool.false_eq_true, if_false]

theorem skipLineComment_total :
    ∀ (fuel : Nat) (it : SourceIterator),
    it.code.length - it.pos + 1 ≤ fuel →
    ∃ it', skipLineComment fuel it = .ok it' ∧ it'.code = it.code ∧ it.pos ≤ it'.pos := by
  intro fuel
  induction fuel with
  | zero => intro it h; omega
  | succ fuel ih =>
    intro it h
    by_cases hc : (it.current = '\n' || it.current = '\x00') = true
    · refine ⟨it, ?_, rfl, Nat.le_refl _⟩
      simp only [skipLineComment, hc, if_true]
    · have hne : it.current ≠ '\x00' := by
        intro he
        rw [he] at hc
        simp at hc
      have hlt : it.pos < it.code.length := pos_lt_of_current_ne hne
      have hnp : it.next.pos = it.pos + 1 := next_pos_eq hlt
      have hfuel : it.next.code.length - it.next.pos + 1 ≤ fuel := by
        rw [next_code, hnp]
        omega
      obtain ⟨it', he, hcode, hpos⟩ := ih it.next hfuel
      refine ⟨it', ?_, by rw [hcode, next_code], by omega⟩
      simp only [skipLineComment, hc, Bool.false_eq_true, if_false]
      exact he

end lexer
namespace lexer

theorem eatW_total :
    ∀ (fuel : Nat) (it : SourceIterator),
    it.code.length - it.pos + 1 ≤ fuel →
    ∃ it', eatWhitespaceAndComments fuel it = .ok it' ∧ it'.code = it.code ∧
      it.pos ≤ it'.pos := by
  intro fuel
  induction fuel with
  | zero => intro it h; omega
  | succ fuel ih =>
    intro it h
    by_cases hws : (it.current = ' ' || it.current = '\t' || it.current = '\n' ||
        it.current = '\r') = true
    · have hne : it.current ≠ '\x00' := by
        intro he
        rw [he] at hws
        simp at hws
      have hlt := pos_lt_of_current_ne hne
      have hnp := next_pos_eq hlt
      have hfe : it.next.code.length - it.next.pos + 1 ≤ fuel := by
        rw [next_code, hnp]
        omega
      obtain ⟨it', he, hcode, hpos⟩ := ih it.next hfe
      refine ⟨it', ?_, by rw [hcode, next_code], by omega⟩
      simp only [eatWhitespaceAndComments, hws, if_true]
      exact he
    · by_cases hsl : it.current = '/'
      · have hne : it.current ≠ '\x00' := by
          rw [hsl]
          decide
        have hlt := pos_lt_of_current_ne hne
        have hnp := next_pos_eq hlt
        by_cases hpk : it.peek = '/'
        · have hne2 : it.next.current ≠ '\x00' := by
            rw [next_current it hlt, hpk]
            decide
          have hlt2 : it.pos + 1 < it.code.length := by
            have := pos_lt_of_current_ne hne2
            rw [hnp, next_code] at this
            exact this
          have hnp2 : it.next.next.pos = it.pos + 1 + 1 := by
            rw [next_pos_eq (by rw [next_code, hnp]; exact hlt2), hnp]
          have hfe : it.next.next.code.length - it.next.next.pos + 1 ≤ fuel := by
            simp only [next_code]
            rw [hnp2]
            omega
          obtain ⟨itc, hec, hcc, hpc⟩ := skipLineComment_total fuel it.next.next hfe
          rw [hnp2] at hpc
          have hcc' : itc.code = it.code := by
            rw [hcc]
            simp only [next_code]
          have hfe2 : itc.code.length - itc.pos + 1 ≤ fuel := by
            rw [hcc']
            omega
          obtain ⟨it', he, hcode, hpos⟩ := ih itc hfe2
          refine ⟨it', ?_, by rw [hcode, hcc'], by omega⟩
          simp only [eatWhitespaceAndComments, hws, Bool.false_eq_true, if_false,
            if_pos hsl, if_pos hpk, SourceIterator.next2, hec, okBind]
          exact he
        · refine ⟨it, ?_, rfl, Nat.le_refl _⟩
          simp only [eatWhitespaceAndComments, hws, Bool.false_eq_true, if_false,
            if_pos hsl, if_neg hpk]
      · refine ⟨it, ?_, rfl, Nat.le_refl _⟩
        simp only [eatWhitespaceAndComments, hws, Bool.false_eq_true, if_false, if_neg hsl]

theorem lexStringLoop_total (sl : Location) :
    ∀ (fuel : Nat) (it : SourceIterator),
    it.code.length - it.pos + 1 ≤ fuel →
    (∃ it', lexStringLoop sl fuel it = .ok it' ∧ it'.code = it.code ∧ it.pos ≤ it'.pos) ∨
    (∃ e, lexStringLoop sl fuel it = .error (.err e)) := by
  intro fuel
  induction fuel with
  | zero => intro it h; omega
  | succ fuel ih =>
    intro it h
    by_cases h0 : it.current = '\x00'
    · right
      have hstep : lexStringLoop sl (fuel + 1) it = throwLex (LexError.unclosedString sl) := by
        simp only [lexStringLoop, if_pos h0]
      exact ⟨_, hstep⟩
    · have hlt := pos_lt_of_current_ne h0
      have hnp := next_pos_eq hlt
      by_cases hn : it.current = '\n'
      · right
        have hstep : lexStringLoop sl (fuel + 1) it =
            throwLex (LexError.unclosedString it.getLocation) := by
          simp only [lexStringLoop, if_neg h0, if_pos hn]
        exact ⟨_, hstep⟩
      · by_cases hq : it.current = '"'
        · left
          refine ⟨it, ?_, rfl, Nat.le_refl _⟩
          simp only [lexStringLoop, if_neg h0, if_neg hn, if_pos hq]
        · by_cases hb : it.current = '\\'
          · by_cases hbad : (it.next.current = '\x00' || it.next.current = '\n') = true
            · right
              have hstep : lexStringLoop sl (fuel + 1) it =
                  throwLex (LexError.unclosedString it.getLocation) := by
                simp only [lexStringLoop, if_neg h0, if_neg hn, if_neg hq, if_pos hb,
                  hbad, if_true]
              exact ⟨_, hstep⟩
            · by_cases hesc : (it.next.current = 'n' || it.next.current = 'r' ||
                  it.next.current = 't' || it.next.current = '\\' ||
                  it.next.current = '"' || it.next.current = '0') = true
              · have hne2 : it.next.current ≠ '\x00' := by
                  intro he
                  rw [he] at hesc
                  simp at hesc
                have hlt2 : it.pos + 1 < it.code.length := by
                  have := pos_lt_of_current_ne hne2
                  rw [hnp, next_code] at this
                  exact this
                have hnp2 : it.next.next.pos = it.pos + 1 + 1 := by
                  rw [next_pos_eq (by rw [next_code, hnp]; exact hlt2), hnp]
                have hfe : it.next.next.code.length - it.next.next.pos + 1 ≤ fuel := by
                  simp only [next_code]
                  rw [hnp2]
                  omega
                rcases ih it.next.next hfe with ⟨it', he, hcode, hpos⟩ | ⟨e, he⟩
                · left
                  rw [hnp2] at hpos
                  refine ⟨it', ?_, by rw [hcode]; simp only [next_code], by omega⟩
                  simp only [lexStringLoop, if_neg h0, if_neg hn, if_neg hq, if_pos hb,
                    hbad, Bool.false_eq_true, if_false, hesc, if_true]
                  exact he
                · right
                  refine ⟨e, ?_⟩
                  simp only [lexStringLoop, if_neg h0, if_neg hn, if_neg hq, if_pos hb,
                    hbad, Bool.false_eq_true, if_false, hesc, if_true]
                  exact he
              · right
                have hstep : lexStringLoop sl (fuel + 1) it =
                    throwLex (LexError.unknownEscape it.next.getLocation) := by
                  simp only [lexStringLoop, if_neg h0, if_neg hn, if_neg hq, if_pos hb,
                    hbad, Bool.false_eq_true, if_false, hesc]
                exact ⟨_, hstep⟩
          · have hfe : it.next.code.length - it.next.pos + 1 ≤ fuel := by
              rw [next_code, hnp]
              omega
            rcases ih it.next hfe with ⟨it', he, hcode, hpos⟩ | ⟨e, he⟩
            · left
              refine ⟨it', ?_, by rw [hcode, next_code], by omega⟩
              simp only [lexStringLoop, if_neg h0, if_neg hn, if_neg hq, if_neg hb]
              exact he
            · right
              refine ⟨e, ?_⟩
              simp only [lexStringLoop, if_neg h0, if_neg hn, if_neg hq, if_neg hb]
              exact he

theorem lexString_total (fuel : Nat) (it : SourceIterator)
    (hq : it.current = '"') (h : it.code.length - it.pos + 1 ≤ fuel) :
    (∃ t it', lexString fuel it = .ok (t, it') ∧ it'.code = it.code ∧ it.pos < it'.pos) ∨
    (∃ e, lexString fuel it = .error (.err e)) := by
  have hne : it.current ≠ '\x00' := by
    rw [hq]
    decide
  have hlt := pos_lt_of_current_ne hne
  have hnp := next_pos_eq hlt
  have hfe : it.next.code.length - it.next.pos + 1 ≤ fuel := by
    rw [next_code, hnp]
    omega
  rcases lexStringLoop_total it.getLocation fuel it.next hfe with ⟨it2, he2, hc2, hp2⟩ | ⟨e, he2⟩
  · left
    rw [hnp] at hp2
    have hple := next_pos_le it2
    have hstep : lexString fuel it = .ok (Token.strLit
        (sliceOf it.code it.next.pos it2.pos) ⟨it.pos, it2.next.pos⟩, it2.next) := by
      simp only [lexString, he2, okBind]
    exact ⟨_, it2.next, hstep, by rw [next_code, hc2, next_code], by omega⟩
  · right
    have hstep : lexString fuel it = .error (.err e) := by
      simp only [lexString, he2, errBind]
    exact ⟨e, hstep⟩

theorem lexIdentOrKeyword_total (fuel : Nat) (it : SourceIterator)
    (hlt : it.pos < it.code.length) (h : it.code.length - it.pos + 1 ≤ fuel) :
    ∃ t it', lexIdentifierOrKeyword fuel it = .ok (t, it') ∧ it'.code = it.code ∧
      it.pos < it'.pos := by
  have hnp := next_pos_eq hlt
  have hfe : it.next.code.length - it.next.pos + 1 ≤ fuel := by
    rw [next_code, hnp]
    omega
  obtain ⟨it2, he2, hc2, hp2, _⟩ := skipWhile_total isIdentCont (by decide) fuel it.next hfe
  rw [hnp] at hp2
  cases hk : keywordTable.find? (fun kw => kw.1.data = sliceOf it.code it.pos it2.pos) with
  | some kw =>
    have hstep : lexIdentifierOrKeyword fuel it =
        .ok (Token.simple kw.2 ⟨it.pos, it2.pos⟩, it2) := by
      simp only [lexIdentifierOrKeyword, he2, okBind, hk]
    exact ⟨_, it2, hstep, by rw [hc2, next_code], by omega⟩
  | none =>
    have hstep : lexIdentifierOrKeyword fuel it =
        .ok (Token.id (sliceOf it.code it.pos it2.pos) ⟨it.pos, it2.pos⟩, it2) := by
      simp only [lexIdentifierOrKeyword, he2, okBind, hk]
    exact ⟨_, it2, hstep, by rw [hc2, next_code], by omega⟩

theorem lexLongFlag_total (fuel sp : Nat) (it : SourceIterator)
    (h : it.code.length - it.pos + 1 ≤ fuel) :
    (∃ t it', lexLongFlag fuel sp it = .ok (t, it') ∧ it'.code = it.code ∧
      it.pos ≤ it'.pos) ∨
    (∃ e, lexLongFlag fuel sp it = .error (.err e)) := by
  obtain ⟨it2, he2, hc2, hp2, _⟩ := skipWhile_total isIdentCont (by decide) fuel it h
  by_cases hz : it2.pos - it.pos = 0
  · right
    have hstep : lexLongFlag fuel sp it = throwLex (LexError.invalidChar it.getLocation) := by
      simp only [lexLongFlag, he2, okBind, if_pos hz]
    exact ⟨_, hstep⟩
  · left
    have hstep : lexLongFlag fuel sp it = .ok (Token.longFlag
        (sliceOf it.code it.pos it2.pos) ⟨sp, it2.pos⟩, it2) := by
      simp only [lexLongFlag, he2, okBind, if_neg hz]
    exact ⟨_, it2, hstep, hc2, hp2⟩

theorem lexShortFlag_total (fuel sp : Nat) (it : SourceIterator)
    (hstart : (isIdentCont it.current || isAsciiDecDigit it.current) = true)
    (h : it.code.length - it.pos + 1 ≤ fuel) :
    ∃ t it', lexShortFlag fuel sp it = .ok (t, it') ∧ it'.code = it.code ∧
      it.pos ≤ it'.pos := by
  obtain ⟨it2, he2, hc2, hp2, hstrict⟩ :=
    skipWhile_total (fun c => isIdentCont c || isAsciiDecDigit c) (by decide) fuel it h
  have hpos : it.pos < it2.pos := hstrict hstart
  have hstep : lexShortFlag fuel sp it = .ok (Token.shortFlag
      (sliceOf it.code it.pos it2.pos) ⟨sp, it2.pos⟩, it2) := by
    simp only [lexShortFlag, he2, okBind, if_neg (by omega : ¬(it2.pos - it.pos = 0))]
  exact ⟨_, it2, hstep, hc2, hp2⟩

end lexer
namespace lexer

theorem digitOrUnderscore_nul (base : Base) : isDigitOrUnderscore '\x00' base = false := by
  cases base <;> decide

theorem takeDigitsMain_total (base : Base) (sp : Nat) :
    ∀ (fuel : Nat) (it : SourceIterator) (buf : List Char),
    it.code.length - it.pos + 1 ≤ fuel →
    ∃ it' buf', takeDigitsMain base sp fuel it buf = .ok (it', buf') ∧
      it'.code = it.code ∧ it.pos ≤ it'.pos ∧
      (isDigitOrUnderscore it.current base = true → it.pos < it'.pos) := by
  intro fuel
  induction fuel with
  | zero => intro it buf h; omega
  | succ fuel ih =>
    intro it buf h
    by_cases hd : isDigitOrUnderscore it.current base = true
    · have hne : it.current ≠ '\x00' := by
        intro he
        rw [he, digitOrUnderscore_nul] at hd
        cases hd
      have hlt := pos_lt_of_current_ne hne
      have hnp := next_pos_eq hlt
      have hfe : it.next.code.length - it.next.pos + 1 ≤ fuel := by
        rw [next_code, hnp]
        omega
      obtain ⟨it', buf', he, hc, hp, _⟩ := ih it.next
        (if it.current ≠ '_' then
          addToBuffer (if buf.isEmpty && sp + 1 == it.pos then
            addToBuffer buf (charAtD it.code sp) else buf) it.current
        else (if buf.isEmpty && sp + 1 == it.pos then
          addToBuffer buf (charAtD it.code sp) else buf)) hfe
      refine ⟨it', buf', ?_, by rw [hc, next_code], by omega, fun _ => by omega⟩
      simp only [takeDigitsMain, hd, if_true]
      exact he
    · refine ⟨it, buf, ?_, rfl, Nat.le_refl _, fun hx => absurd hx hd⟩
      simp only [takeDigitsMain, hd, Bool.false_eq_true, if_false]

theorem takeDigits_total (base : Base) :
    ∀ (fuel : Nat) (it : SourceIterator) (buf : List Char),
    it.code.length - it.pos + 1 ≤ fuel →
    ∃ it' buf', takeDigits base fuel it buf = .ok (it', buf') ∧
      it'.code = it.code ∧ it.pos ≤ it'.pos := by
  intro fuel
  induction fuel with
  | zero => intro it buf h; omega
  | succ fuel ih =>
    intro it buf h
    by_cases hd : isDigitOrUnderscore it.current base = true
    · have hne : it.current ≠ '\x00' := by
        intro he
        rw [he, digitOrUnderscore_nul] at hd
        cases hd
      have hlt := pos_lt_of_current_ne hne
      have hnp := next_pos_eq hlt
      have hfe : it.next.code.length - it.next.pos + 1 ≤ fuel := by
        rw [next_code, hnp]
        omega
      obtain ⟨it', buf', he, hc, hp⟩ := ih it.next
        (if it.current ≠ '_' then addToBuffer buf it.current else buf) hfe
      refine ⟨it', buf', ?_, by rw [hc, next_code], by omega⟩
      simp only [takeDigits, hd, if_true]
      exact he
    · refine ⟨it, buf, ?_, rfl, Nat.le_refl _⟩
      simp only [takeDigits, hd, Bool.false_eq_true, if_false]

theorem lexNumberFloatPart_total (fuel : Nat) (buf : List Char) (it : SourceIterator)
    (h : it.code.length - it.pos + 1 ≤ fuel) :
    ∃ f e buf2 it2, lexNumberFloatPart fuel buf it = .ok (f, e, buf2, it2) ∧
      it2.code = it.code ∧ it.pos ≤ it2.pos := by
  by_cases hdot : (it.current = '.' && isAsciiDecDigit it.peek) = true
  · have hne : it.current ≠ '\x00' := by
      intro hz
      rw [hz] at hdot
      simp at hdot
    have hlt := pos_lt_of_current_ne hne
    have hnp := next_pos_eq hlt
    have hfe : it.next.code.length - it.next.pos + 1 ≤ fuel := by
      rw [next_code, hnp]
      omega
    obtain ⟨itA, bufA, heA, hcA, hpA⟩ := takeDigits_total .DEC fuel it.next
      (addToBuffer buf '.') hfe
    rw [hnp] at hpA
    have hIT1code : itA.code = it.code := by rw [hcA, next_code]
    have hIT1pos : it.pos ≤ itA.pos := by omega
    have hIT1fuel : it.code.length - itA.pos + 1 ≤ fuel := by omega
    by_cases hee : (decide (itA.current = 'e') || decide (itA.current = 'E')) = true
    · by_cases hval : (isAsciiDecDigit itA.peek ||
          (decide (itA.peek = '+') || decide (itA.peek = '-')) &&
          isAsciiDecDigit itA.peek2) = true
      · have hne1 : itA.current ≠ '\x00' := by
          intro hz
          rw [hz] at hee
          simp at hee
        have hlt1 := pos_lt_of_current_ne hne1
        have hnp1 := next_pos_eq hlt1
        by_cases hpm : (decide (itA.next.current = '+') || decide (itA.next.current = '-')) = true
        · have hne2 : itA.next.current ≠ '\x00' := by
            intro hz
            rw [hz] at hpm
            simp at hpm
          have hlt2 := pos_lt_of_current_ne hne2
          have hnp2 : itA.next.next.pos = itA.pos + 1 + 1 := by
            rw [next_pos_eq hlt2, hnp1]
          have hfe2 : itA.next.next.code.length - itA.next.next.pos + 1 ≤ fuel := by
            simp only [next_code]
            rw [hnp2]
            rw [hIT1code]
            rw [next_code, hnp1, hIT1code] at hlt2
            omega
          obtain ⟨it4, buf4, he4, hc4, hp4⟩ := takeDigits_total .DEC fuel itA.next.next
            (addToBuffer (addToBuffer bufA itA.current) itA.next.current) hfe2
          rw [hnp2] at hp4
          refine ⟨true, true, buf4, it4, ?_, ?_, by omega⟩
          · simp only [lexNumberFloatPart, if_pos hdot, heA, okBind, hee, if_true, hval, hpm, he4, okBind]
          · rw [hc4]
            simp only [next_code]
            try exact hIT1code
        · have hfe2 : itA.next.code.length - itA.next.pos + 1 ≤ fuel := by
            rw [next_code, hnp1, hIT1code]
            omega
          obtain ⟨it4, buf4, he4, hc4, hp4⟩ := takeDigits_total .DEC fuel itA.next
            (addToBuffer bufA itA.current) hfe2
          rw [hnp1] at hp4
          refine ⟨true, true, buf4, it4, ?_, by rw [hc4, next_code]; try exact hIT1code, by omega⟩
          simp only [lexNumberFloatPart, if_pos hdot, heA, okBind, hee, if_true, hval, hpm, Bool.false_eq_true, if_false, he4, okBind]
      · refine ⟨true, false, bufA, itA, ?_, hIT1code, hIT1pos⟩
        simp only [lexNumberFloatPart, if_pos hdot, heA, okBind, hee, if_true, hval, Bool.false_eq_true, if_false]
    · refine ⟨true, false, bufA, itA, ?_, hIT1code, hIT1pos⟩
      simp only [lexNumberFloatPart, if_pos hdot, heA, okBind, hee, Bool.false_eq_true, if_false]
  · have hIT1code : it.code = it.code := rfl
    have hIT1pos : it.pos ≤ it.pos := Nat.le_refl _
    have hIT1fuel : it.code.length - it.pos + 1 ≤ fuel := h
    by_cases hee : (decide (it.current = 'e') || decide (it.current = 'E')) = true
    · by_cases hval : (isAsciiDecDigit it.peek ||
          (decide (it.peek = '+') || decide (it.peek = '-')) &&
          isAsciiDecDigit it.peek2) = true
      · have hne1 : it.current ≠ '\x00' := by
          intro hz
          rw [hz] at hee
          simp at hee
        have hlt1 := pos_lt_of_current_ne hne1
        have hnp1 := next_pos_eq hlt1
        by_cases hpm : (decide (it.next.current = '+') || decide (it.next.current = '-')) = true
        · have hne2 : it.next.current ≠ '\x00' := by
            intro hz
            rw [hz] at hpm
            simp at hpm
          have hlt2 := pos_lt_of_current_ne hne2
          have hnp2 : it.next.next.pos = it.pos + 1 + 1 := by
            rw [next_pos_eq hlt2, hnp1]
          have hfe2 : it.next.next.code.length - it.next.next.pos + 1 ≤ fuel := by
            simp only [next_code]
            rw [hnp2]
            rw [hIT1code]
            rw [next_code, hnp1, hIT1code] at hlt2
            omega
          obtain ⟨it4, buf4, he4, hc4, hp4⟩ := takeDigits_total .DEC fuel it.next.next
            (addToBuffer (addToBuffer buf it.current) it.next.current) hfe2
          rw [hnp2] at hp4
          refine ⟨true, true, buf4, it4, ?_, ?_, by omega⟩
          · simp only [lexNumberFloatPart, if_neg hdot, hee, if_true, hval, hpm, he4, okBind]
          · rw [hc4]
            simp only [next_code]
            try exact hIT1code
        · have hfe2 : it.next.code.length - it.next.pos + 1 ≤ fuel := by
            rw [next_code, hnp1, hIT1code]
            omega
          obtain ⟨it4, buf4, he4, hc4, hp4⟩ := takeDigits_total .DEC fuel it.next
            (addToBuffer buf it.current) hfe2
          rw [hnp1] at hp4
          refine ⟨true, true, buf4, it4, ?_, by rw [hc4, next_code]; try exact hIT1code, by omega⟩
          simp only [lexNumberFloatPart, if_neg hdot, hee, if_true, hval, hpm, Bool.false_eq_true, if_false, he4, okBind]
      · refine ⟨false, false, buf, it, ?_, hIT1code, hIT1pos⟩
        simp only [lexNumberFloatPart, if_neg hdot, okBind, hee, if_true, hval, Bool.false_eq_true, if_false]
    · refine ⟨false, false, buf, it, ?_, hIT1code, hIT1pos⟩
      simp only [lexNumberFloatPart, if_neg hdot, okBind, hee, Bool.false_eq_true, if_false]

end lexer
namespace lexer

theorem finishNumber_total (sl : Location) (sp : Nat) (base : Base) (f e : Bool)
    (buf : List Char) (it : SourceIterator) :
    (∃ t, finishNumber sl sp base f e buf it = .ok (t, it)) ∨
    (∃ er, finishNumber sl sp base f e buf it = .error (.err er)) := by
  by_cases h1 : base = Base.HEX ∧ buf.length ≤ 2
  · right
    have hstep : finishNumber sl sp base f e buf it =
        throwLex (LexError.incompleteInt it.getLocation) := by
      simp only [finishNumber, if_pos h1]
    exact ⟨_, hstep⟩
  · by_cases h2 : base = Base.BIN ∧ buf.length ≤ 2
    · right
      have hstep : finishNumber sl sp base f e buf it =
          throwLex (LexError.incompleteInt it.getLocation) := by
        simp only [finishNumber, if_neg h1, if_pos h2]
      exact ⟨_, hstep⟩
    · by_cases hf : f = true
      · rcases hsd : strtodM buf with ⟨v, cns⟩
        by_cases hov : strtodOverflow v = true
        · right
          have hstep : finishNumber sl sp base f e buf it =
              throwLex (LexError.floatOutOfRange it.getLocation) := by
            simp only [finishNumber, if_neg h1, if_neg h2, hf, if_true, hsd, hov]
          exact ⟨_, hstep⟩
        · by_cases hcn : cns = buf.length
          · left
            have hstep : finishNumber sl sp base f e buf it =
                .ok (Token.floatLit v e ⟨sp, it.pos⟩, it) := by
              simp only [finishNumber, if_neg h1, if_neg h2, hf, if_true, hsd, hov,
                Bool.false_eq_true, if_false, ne_eq, hcn, not_true_eq_false]
            exact ⟨_, hstep⟩
          · right
            have hstep : finishNumber sl sp base f e buf it =
                throwLex (LexError.invalidFloat sl) := by
              simp only [finishNumber, if_neg h1, if_neg h2, hf, if_true, hsd, hov,
                Bool.false_eq_true, if_false, ne_eq, hcn, not_false_eq_true]
            exact ⟨_, hstep⟩
      · by_cases hde : (if base = Base.HEX ∨ base = Base.BIN then buf.drop 2
            else buf).isEmpty = true
        · right
          have hstep : finishNumber sl sp base f e buf it =
              throwLex (LexError.incompleteInt sl) := by
            simp only [finishNumber, if_neg h1, if_neg h2, hf, Bool.false_eq_true,
              if_false, hde, if_true]
          exact ⟨_, hstep⟩
        · rcases hsl2 : strtollM (if base = Base.HEX ∨ base = Base.BIN then buf.drop 2
              else buf) base with ⟨v, cns, ovf⟩
          by_cases hov : ovf = true
          · right
            have hstep : finishNumber sl sp base f e buf it =
                throwLex (LexError.intOutOfRange it.getLocation) := by
              simp only [finishNumber, if_neg h1, if_neg h2, hf, Bool.false_eq_true,
                if_false, hde, hsl2, hov, if_true]
            exact ⟨_, hstep⟩
          · by_cases hcn : cns = (if base = Base.HEX ∨ base = Base.BIN then buf.drop 2
                else buf).length
            · left
              have hstep : finishNumber sl sp base f e buf it =
                  .ok (Token.intLit v base ⟨sp, it.pos⟩, it) := by
                simp only [finishNumber, if_neg h1, if_neg h2, hf, Bool.false_eq_true,
                  if_false, hde, hsl2, hov, ne_eq, hcn, not_true_eq_false]
              exact ⟨_, hstep⟩
            · right
              have hstep : finishNumber sl sp base f e buf it =
                  throwLex (LexError.incompleteInt sl) := by
                simp only [finishNumber, if_neg h1, if_neg h2, hf, Bool.false_eq_true,
                  if_false, hde, hsl2, hov, ne_eq, hcn, not_false_eq_true, if_true]
              exact ⟨_, hstep⟩

end lexer
namespace lexer

theorem baseHexDec : (Base.HEX = Base.DEC) = False := by simp

theorem baseBinDec : (Base.BIN = Base.DEC) = False := by simp

theorem baseDecDec : (Base.DEC = Base.DEC) = True := by simp

theorem lexNumber_total (fuel : Nat) (it0 : SourceIterator)
    (hdig : isAsciiDecDigit it0.current = true)
    (h : it0.code.length - it0.pos + 1 ≤ fuel) :
    (∃ t it', lexNumber fuel it0 = .ok (t, it') ∧ it'.code = it0.code ∧
      it0.pos < it'.pos) ∨
    (∃ e, lexNumber fuel it0 = .error (.err e)) := by
  have hne0 : it0.current ≠ '\x00' := by
    intro hz
    rw [hz] at hdig
    exact absurd hdig (by decide)
  have hlt0 := pos_lt_of_current_ne hne0
  have hnp0 := next_pos_eq hlt0
  by_cases h0 : it0.current = '0'
  · by_cases hx : (it0.next.current = 'x' || it0.next.current = 'X') = true
    · -- hexadecimal prefix
      have hneA : it0.next.current ≠ '\x00' := by
        intro hz
        rw [hz] at hx
        simp at hx
      have hltA := pos_lt_of_current_ne hneA
      have hnpA : it0.next.next.pos = it0.pos + 1 + 1 := by
        rw [next_pos_eq hltA, hnp0]
      by_cases hhd : (!isAsciiHexDigit it0.next.next.current) = true
      · right
        have hstep : lexNumber fuel it0 =
            .error (.err (LexError.incompleteInt it0.next.next.getLocation)) := by
          simp only [lexNumber, if_pos h0, hx, if_true, hhd, throwLex, errBind,
            Bool.false_eq_true, if_false]
        exact ⟨_, hstep⟩
      · have hfeB : it0.next.next.code.length - it0.next.next.pos + 1 ≤ fuel := by
          simp only [next_code]
          rw [hnpA]
          omega
        obtain ⟨it2, buf1, heM, hcM, hpM, _⟩ := takeDigitsMain_total Base.HEX it0.pos fuel
          it0.next.next (addToBuffer (addToBuffer [] '0') it0.next.current) hfeB
        rw [hnpA] at hpM
        have hcM' : it2.code = it0.code := by
          rw [hcM]
          simp only [next_code]
        by_cases ht : (it2.current = '.' || it2.current = 'e' || it2.current = 'E') = true
        · right
          have hstep : lexNumber fuel it0 =
              .error (.err (LexError.invalidChar it2.getLocation)) := by
            simp only [lexNumber, if_pos h0, hx, if_true, hhd, Bool.false_eq_true,
              if_false, okBind, heM, ht, throwLex, errBind, if_true, baseHexDec, baseBinDec]
          exact ⟨_, hstep⟩
        · rcases finishNumber_total it0.getLocation it0.pos Base.HEX false false
              (if buf1.isEmpty && it0.pos + 1 == it2.pos then
                addToBuffer buf1 (charAtD it2.code it0.pos) else buf1) it2 with ⟨t, hfin⟩ | ⟨er, hfin⟩
          · left
            have hstep : lexNumber fuel it0 = .ok (t, it2) := by
              simp only [lexNumber, if_pos h0, hx, if_true, hhd, Bool.false_eq_true,
                if_false, okBind, heM, ht, hfin, baseHexDec, baseBinDec, if_true]
            exact ⟨t, it2, hstep, hcM', by omega⟩
          · right
            have hstep : lexNumber fuel it0 = .error (.err er) := by
              simp only [lexNumber, if_pos h0, hx, if_true, hhd, Bool.false_eq_true,
                if_false, okBind, heM, ht, hfin, baseHexDec, baseBinDec, if_true]
            exact ⟨er, hstep⟩
    · by_cases hbb : (it0.next.current = 'b' || it0.next.current = 'B') = true
      · -- binary prefix
        have hneA : it0.next.current ≠ '\x00' := by
          intro hz
          rw [hz] at hbb
          simp at hbb
        have hltA := pos_lt_of_current_ne hneA
        have hnpA : it0.next.next.pos = it0.pos + 1 + 1 := by
          rw [next_pos_eq hltA, hnp0]
        by_cases hhd : (!isAsciiBinDigit it0.next.next.current) = true
        · right
          have hstep : lexNumber fuel it0 =
              .error (.err (LexError.incompleteInt it0.next.next.getLocation)) := by
            simp only [lexNumber, if_pos h0, hx, hbb, if_true, hhd, throwLex, errBind,
              Bool.false_eq_true, if_false]
          exact ⟨_, hstep⟩
        · have hfeB : it0.next.next.code.length - it0.next.next.pos + 1 ≤ fuel := by
            simp only [next_code]
            rw [hnpA]
            omega
          obtain ⟨it2, buf1, heM, hcM, hpM, _⟩ := takeDigitsMain_total Base.BIN it0.pos fuel
            it0.next.next (addToBuffer (addToBuffer [] '0') it0.next.current) hfeB
          rw [hnpA] at hpM
          have hcM' : it2.code = it0.code := by
            rw [hcM]
            simp only [next_code]
          by_cases ht : (it2.current = '.' || it2.current = 'e' || it2.current = 'E') = true
          · right
            have hstep : lexNumber fuel it0 =
                .error (.err (LexError.invalidChar it2.getLocation)) := by
              simp only [lexNumber, if_pos h0, hx, hbb, if_true, hhd, Bool.false_eq_true,
                if_false, okBind, heM, ht, throwLex, errBind, if_true, baseHexDec, baseBinDec]
            exact ⟨_, hstep⟩
          · rcases finishNumber_total it0.getLocation it0.pos Base.BIN false false
                (if buf1.isEmpty && it0.pos + 1 == it2.pos then
                  addToBuffer buf1 (charAtD it2.code it0.pos) else buf1) it2 with ⟨t, hfin⟩ | ⟨er, hfin⟩
            · left
              have hstep : lexNumber fuel it0 = .ok (t, it2) := by
                simp only [lexNumber, if_pos h0, hx, hbb, if_true, hhd, Bool.false_eq_true,
                  if_false, okBind, heM, ht, hfin, baseHexDec, baseBinDec, if_true]
              exact ⟨t, it2, hstep, hcM', by omega⟩
            · right
              have hstep : lexNumber fuel it0 = .error (.err er) := by
                simp only [lexNumber, if_pos h0, hx, hbb, if_true, hhd, Bool.false_eq_true,
                  if_false, okBind, heM, ht, hfin, baseHexDec, baseBinDec, if_true]
              exact ⟨er, hstep⟩
      · by_cases hearly : (!isAsciiDecDigit it0.next.current && it0.next.current ≠ '.' &&
            it0.next.current ≠ 'e' && it0.next.current ≠ 'E') = true
        · left
          have hstep : lexNumber fuel it0 =
              .ok (Token.intLit 0 Base.DEC ⟨it0.pos, it0.next.pos⟩, it0.next) := by
            simp only [lexNumber, if_pos h0, hx, hbb, Bool.false_eq_true, if_false,
              hearly, if_true, okBind]
          exact ⟨_, it0.next, hstep, next_code it0, by omega⟩
        · have hfeM : it0.next.code.length - it0.next.pos + 1 ≤ fuel := by
            rw [next_code, hnp0]
            omega
          obtain ⟨it2, buf1, heM, hcM, hpM, hstrictM⟩ := takeDigitsMain_total Base.DEC it0.pos fuel
            it0.next (addToBuffer [] '0') hfeM
          have hcM' : it2.code = it0.code := by
            rw [hcM]
            simp only [next_code]
          have hlt2 : it0.pos < it2.pos := by
            omega
          have hfeF : it2.code.length - it2.pos + 1 ≤ fuel := by
            rw [hcM']
            omega
          obtain ⟨ff, fe, buf2, it3, heF, hcF, hpF⟩ := lexNumberFloatPart_total fuel
            (if buf1.isEmpty && it0.pos + 1 == it2.pos then
              addToBuffer buf1 (charAtD it2.code it0.pos) else buf1) it2 hfeF
          rcases finishNumber_total it0.getLocation it0.pos Base.DEC ff fe buf2 it3 with
              ⟨t, hfin⟩ | ⟨er, hfin⟩
          · left
            have hstep : lexNumber fuel it0 = .ok (t, it3) := by
              simp only [lexNumber, if_pos h0, hx, hbb, Bool.false_eq_true, if_false, hearly, okBind, heM, heF, hfin, baseDecDec, if_true]
            refine ⟨t, it3, hstep, by rw [hcF, hcM'], by omega⟩
          · right
            have hstep : lexNumber fuel it0 = .error (.err er) := by
              simp only [lexNumber, if_pos h0, hx, hbb, Bool.false_eq_true, if_false, hearly, okBind, heM, heF, hfin, baseDecDec, if_true]
            exact ⟨er, hstep⟩
  · have hfeM : it0.code.length - it0.pos + 1 ≤ fuel := h
    have hdu : isDigitOrUnderscore it0.current Base.DEC = true := by
      simp only [isDigitOrUnderscore]
      split
      · rfl
      · exact hdig
    obtain ⟨it2, buf1, heM, hcM, hpM, hstrictM⟩ := takeDigitsMain_total Base.DEC it0.pos fuel
      it0 [] hfeM
    have hcM' : it2.code = it0.code := hcM
    have hlt2 : it0.pos < it2.pos := by
      exact hstrictM hdu
    have hfeF : it2.code.length - it2.pos + 1 ≤ fuel := by
      rw [hcM']
      omega
    obtain ⟨ff, fe, buf2, it3, heF, hcF, hpF⟩ := lexNumberFloatPart_total fuel
      (if buf1.isEmpty && it0.pos + 1 == it2.pos then
        addToBuffer buf1 (charAtD it2.code it0.pos) else buf1) it2 hfeF
    rcases finishNumber_total it0.getLocation it0.pos Base.DEC ff fe buf2 it3 with
        ⟨t, hfin⟩ | ⟨er, hfin⟩
    · left
      have hstep : lexNumber fuel it0 = .ok (t, it3) := by
        simp only [lexNumber, if_neg h0, okBind, heM, heF, hfin, baseDecDec, if_true, Bool.false_eq_true, if_false]
      refine ⟨t, it3, hstep, by rw [hcF, hcM'], by omega⟩
    · right
      have hstep : lexNumber fuel it0 = .error (.err er) := by
        simp only [lexNumber, if_neg h0, okBind, heM, heF, hfin, baseDecDec, if_true, Bool.false_eq_true, if_false]
      exact ⟨er, hstep⟩
end lexer
namespace lexer

theorem nextToken_total (fuel : Nat) (it : SourceIterator)
    (h : it.code.length - it.pos + 1 ≤ fuel) :
    (∃ t it2, nextToken fuel it = .ok (t, it2) ∧ it2.code = it.code ∧
      ((t.getKind = TokenKind.TOK_EOF ∧ it2.pos = it.pos) ∨
        (it.pos < it2.pos ∧ it.pos < it.code.length))) ∨
    (∃ e, nextToken fuel it = .error (.err e)) := by
  by_cases h00 : it.current = '\x00'
  · left
    have hstep : nextToken fuel it =
        .ok (Token.simple TokenKind.TOK_EOF ⟨it.pos, it.pos⟩, it) := by
      simp only [nextToken, if_pos h00]
    exact ⟨_, it, hstep, rfl, Or.inl ⟨rfl, rfl⟩⟩
  · by_cases hplus : it.current = '+'
    · left
      have hne : it.current ≠ '\x00' := by rw [hplus]; decide
      have hlt := pos_lt_of_current_ne hne
      have hstep : nextToken fuel it =
          .ok (Token.simple TokenKind.TOK_PLUS ⟨it.pos, it.next.pos⟩, it.next) := by
        simp only [nextToken, if_neg h00, if_pos hplus]
      exact ⟨_, it.next, hstep, next_code it,
        Or.inr ⟨by rw [next_pos_eq hlt]; omega, hlt⟩⟩
    · by_cases htimes : it.current = '*'
      · left
        have hne : it.current ≠ '\x00' := by rw [htimes]; decide
        have hlt := pos_lt_of_current_ne hne
        have hstep : nextToken fuel it =
            .ok (Token.simple TokenKind.TOK_TIMES ⟨it.pos, it.next.pos⟩, it.next) := by
          simp only [nextToken, if_neg h00, if_neg hplus, if_pos htimes]
        exact ⟨_, it.next, hstep, next_code it,
          Or.inr ⟨by rw [next_pos_eq hlt]; omega, hlt⟩⟩
      · by_cases hmod : it.current = '%'
        · left
          have hne : it.current ≠ '\x00' := by rw [hmod]; decide
          have hlt := pos_lt_of_current_ne hne
          have hstep : nextToken fuel it =
              .ok (Token.simple TokenKind.TOK_MODULO ⟨it.pos, it.next.pos⟩, it.next) := by
            simp only [nextToken, if_neg h00, if_neg hplus, if_neg htimes, if_pos hmod]
          exact ⟨_, it.next, hstep, next_code it,
            Or.inr ⟨by rw [next_pos_eq hlt]; omega, hlt⟩⟩
        · by_cases hlp : it.current = '('
          · left
            have hne : it.current ≠ '\x00' := by rw [hlp]; decide
            have hlt := pos_lt_of_current_ne hne
            have hstep : nextToken fuel it =
                .ok (Token.simple TokenKind.TOK_LPAREN ⟨it.pos, it.next.pos⟩, it.next) := by
              simp only [nextToken, if_neg h00, if_neg hplus, if_neg htimes, if_neg hmod, if_pos hlp]
            exact ⟨_, it.next, hstep, next_code it,
              Or.inr ⟨by rw [next_pos_eq hlt]; omega, hlt⟩⟩
          · by_cases hrp : it.current = ')'
            · left
              have hne : it.current ≠ '\x00' := by rw [hrp]; decide
              have hlt := pos_lt_of_current_ne hne
              have hstep : nextToken fuel it =
                  .ok (Token.simple TokenKind.TOK_RPAREN ⟨it.pos, it.next.pos⟩, it.next) := by
                simp only [nextToken, if_neg h00, if_neg hplus, if_neg htimes, if_neg hmod, if_neg hlp, if_pos hrp]
              exact ⟨_, it.next, hstep, next_code it,
                Or.inr ⟨by rw [next_pos_eq hlt]; omega, hlt⟩⟩
            · by_cases hlb : it.current = '\x7b'
              · left
                have hne : it.current ≠ '\x00' := by rw [hlb]; decide
                have hlt := pos_lt_of_current_ne hne
                have hstep : nextToken fuel it =
                    .ok (Token.simple TokenKind.TOK_LBRACE ⟨it.pos, it.next.pos⟩, it.next) := by
                  simp only [nextToken, if_neg h00, if_neg hplus, if_neg htimes, if_neg hmod, if_neg hlp, if_neg hrp, if_pos hlb]
                exact ⟨_, it.next, hstep, next_code it,
                  Or.inr ⟨by rw [next_pos_eq hlt]; omega, hlt⟩⟩
              · by_cases hrb : it.current = '\x7d'
                · left
                  have hne : it.current ≠ '\x00' := by rw [hrb]; decide
                  have hlt := pos_lt_of_current_ne hne
                  have hstep : nextToken fuel it =
                      .ok (Token.simple TokenKind.TOK_RBRACE ⟨it.pos, it.next.pos⟩, it.next) := by
                    simp only [nextToken, if_neg h00, if_neg hplus, if_neg htimes, if_neg hmod, if_neg hlp, if_neg hrp, if_neg hlb, if_pos hrb]
                  exact ⟨_, it.next, hstep, next_code it,
                    Or.inr ⟨by rw [next_pos_eq hlt]; omega, hlt⟩⟩
                · by_cases hlk : it.current = '['
                  · left
                    have hne : it.current ≠ '\x00' := by rw [hlk]; decide
                    have hlt := pos_lt_of_current_ne hne
                    have hstep : nextToken fuel it =
                        .ok (Token.simple TokenKind.TOK_LBRACKET ⟨it.pos, it.next.pos⟩, it.next) := by
                      simp only [nextToken, if_neg h00, if_neg hplus, if_neg htimes, if_neg hmod, if_neg hlp, if_neg hrp, if_neg hlb, if_neg hrb, if_pos hlk]
                    exact ⟨_, it.next, hstep, next_code it,
                      Or.inr ⟨by rw [next_pos_eq hlt]; omega, hlt⟩⟩
                  · by_cases hrk : it.current = ']'
                    · left
                      have hne : it.current ≠ '\x00' := by rw [hrk]; decide
                      have hlt := pos_lt_of_current_ne hne
                      have hstep : nextToken fuel it =
                          .ok (Token.simple TokenKind.TOK_RBRACKET ⟨it.pos, it.next.pos⟩, it.next) := by
                        simp only [nextToken, if_neg h00, if_neg hplus, if_neg htimes, if_neg hmod, if_neg hlp, if_neg hrp, if_neg hlb, if_neg hrb, if_neg hlk, if_pos hrk]
                      exact ⟨_, it.next, hstep, next_code it,
                        Or.inr ⟨by rw [next_pos_eq hlt]; omega, hlt⟩⟩
                    · by_cases hsemi : it.current = ';'
                      · left
                        have hne : it.current ≠ '\x00' := by rw [hsemi]; decide
                        have hlt := pos_lt_of_current_ne hne
                        have hstep : nextToken fuel it =
                            .ok (Token.simple TokenKind.TOK_SEMI ⟨it.pos, it.next.pos⟩, it.next) := by
                          simp only [nextToken, if_neg h00, if_neg hplus, if_neg htimes, if_neg hmod, if_neg hlp, if_neg hrp, if_neg hlb, if_neg hrb, if_neg hlk, if_neg hrk, if_pos hsemi]
                        exact ⟨_, it.next, hstep, next_code it,
                          Or.inr ⟨by rw [next_pos_eq hlt]; omega, hlt⟩⟩
                      · by_cases hcolon : it.current = ':'
                        · left
                          have hne : it.current ≠ '\x00' := by rw [hcolon]; decide
                          have hlt := pos_lt_of_current_ne hne
                          have hstep : nextToken fuel it =
                              .ok (Token.simple TokenKind.TOK_COLON ⟨it.pos, it.next.pos⟩, it.next) := by
                            simp only [nextToken, if_neg h00, if_neg hplus, if_neg htimes, if_neg hmod, if_neg hlp, if_neg hrp, if_neg hlb, if_neg hrb, if_neg hlk, if_neg hrk, if_neg hsemi, if_pos hcolon]
                          exact ⟨_, it.next, hstep, next_code it,
                            Or.inr ⟨by rw [next_pos_eq hlt]; omega, hlt⟩⟩
                        · by_cases hcomma : it.current = ','
                          · left
                            have hne : it.current ≠ '\x00' := by rw [hcomma]; decide
                            have hlt := pos_lt_of_current_ne hne
                            have hstep : nextToken fuel it =
                                .ok (Token.simple TokenKind.TOK_COMMA ⟨it.pos, it.next.pos⟩, it.next) := by
                              simp only [nextToken, if_neg h00, if_neg hplus, if_neg htimes, if_neg hmod, if_neg hlp, if_neg hrp, if_neg hlb, if_neg hrb, if_neg hlk, if_neg hrk, if_neg hsemi, if_neg hcolon, if_pos hcomma]
                            exact ⟨_, it.next, hstep, next_code it,
                              Or.inr ⟨by rw [next_pos_eq hlt]; omega, hlt⟩⟩
                          · by_cases hminus : it.current = '-'
                            · have hne : it.current ≠ '\x00' := by rw [hminus]; decide
                              have hlt := pos_lt_of_current_ne hne
                              have hnp := next_pos_eq hlt
                              by_cases hdd : it.next.current = '-'
                              · have hne2 : it.next.current ≠ '\x00' := by rw [hdd]; decide
                                have hlt2 := pos_lt_of_current_ne hne2
                                have hnp2 : it.next.next.pos = it.pos + 1 + 1 := by rw [next_pos_eq hlt2, hnp]
                                by_cases hident : isIdentStart it.next.next.current = true
                                · have hfe : it.next.next.code.length - it.next.next.pos + 1 ≤ fuel := by
                                    simp only [next_code]
                                    rw [hnp2]
                                    omega
                                  rcases lexLongFlag_total fuel it.pos it.next.next hfe with
                                      ⟨t, it3, he3, hc3, hp3⟩ | ⟨e, he3⟩
                                  · left
                                    rw [hnp2] at hp3
                                    have hstep : nextToken fuel it = .ok (t, it3) := by
                                      simp only [nextToken, if_neg h00, if_neg hplus, if_neg htimes, if_neg hmod, if_neg hlp, if_neg hrp, if_neg hlb, if_neg hrb, if_neg hlk, if_neg hrk, if_neg hsemi, if_neg hcolon, if_neg hcomma, if_pos hminus, if_pos hdd, hident, if_true, he3]
                                    exact ⟨t, it3, hstep, by rw [hc3]; simp only [next_code], Or.inr ⟨by omega, hlt⟩⟩
                                  · right
                                    have hstep : nextToken fuel it = .error (.err e) := by
                                      simp only [nextToken, if_neg h00, if_neg hplus, if_neg htimes, if_neg hmod, if_neg hlp, if_neg hrp, if_neg hlb, if_neg hrb, if_neg hlk, if_neg hrk, if_neg hsemi, if_neg hcolon, if_neg hcomma, if_pos hminus, if_pos hdd, hident, if_true, he3]
                                    exact ⟨e, hstep⟩
                                · by_cases hcont : (!isIdentCont it.next.next.current && !isAsciiDecDigit it.next.next.current) = true
                                  · left
                                    have hstep : nextToken fuel it = .ok (Token.simple TokenKind.TOK_DOUBLE_MINUS
                                        ⟨it.pos, it.next.next.pos⟩, it.next.next) := by
                                      simp only [nextToken, if_neg h00, if_neg hplus, if_neg htimes, if_neg hmod, if_neg hlp, if_neg hrp, if_neg hlb, if_neg hrb, if_neg hlk, if_neg hrk, if_neg hsemi, if_neg hcolon, if_neg hcomma, if_pos hminus, if_pos hdd, hident,
                                        Bool.false_eq_true, if_false, hcont, if_true]
                                    exact ⟨_, it.next.next, hstep, by simp only [next_code], Or.inr ⟨by omega, hlt⟩⟩
                                  · right
                                    have hstep : nextToken fuel it = throwLex (LexError.invalidChar
                                        ⟨it.getLocation.filename, it.getLocation.line, it.getLocation.col + 2⟩) := by
                                      simp only [nextToken, if_neg h00, if_neg hplus, if_neg htimes, if_neg hmod, if_neg hlp, if_neg hrp, if_neg hlb, if_neg hrb, if_neg hlk, if_neg hrk, if_neg hsemi, if_neg hcolon, if_neg hcomma, if_pos hminus, if_pos hdd, hident,
                                        Bool.false_eq_true, if_false, hcont]
                                    exact ⟨_, hstep⟩
                              · by_cases hsd : (isIdentStart it.next.current || isAsciiDecDigit it.next.current) = true
                                · have hsd2 : isIdentStart it.next.current = true ∨
                                      isAsciiDecDigit it.next.current = true := by simpa using hsd
                                  have hstart : (isIdentCont it.next.current || isAsciiDecDigit it.next.current) = true := by
                                    rcases hsd2 with hh | hh
                                    · simp [isIdentCont, hh]
                                    · simp [hh]
                                  have hfe : it.next.code.length - it.next.pos + 1 ≤ fuel := by
                                    rw [next_code, hnp]
                                    omega
                                  obtain ⟨t, it3, he3, hc3, hp3⟩ := lexShortFlag_total fuel it.pos it.next hstart hfe
                                  left
                                  rw [hnp] at hp3
                                  have hstep : nextToken fuel it = .ok (t, it3) := by
                                    simp only [nextToken, if_neg h00, if_neg hplus, if_neg htimes, if_neg hmod, if_neg hlp, if_neg hrp, if_neg hlb, if_neg hrb, if_neg hlk, if_neg hrk, if_neg hsemi, if_neg hcolon, if_neg hcomma, if_pos hminus, if_neg hdd, hsd, if_true, he3]
                                  exact ⟨t, it3, hstep, by rw [hc3, next_code], Or.inr ⟨by omega, hlt⟩⟩
                                · left
                                  have hstep : nextToken fuel it = .ok (Token.simple TokenKind.TOK_MINUS
                                      ⟨it.pos, it.next.pos⟩, it.next) := by
                                    simp only [nextToken, if_neg h00, if_neg hplus, if_neg htimes, if_neg hmod, if_neg hlp, if_neg hrp, if_neg hlb, if_neg hrb, if_neg hlk, if_neg hrk, if_neg hsemi, if_neg hcolon, if_neg hcomma, if_pos hminus, if_neg hdd, hsd,
                                      Bool.false_eq_true, if_false]
                                  exact ⟨_, it.next, hstep, next_code it, Or.inr ⟨by omega, hlt⟩⟩
                            · by_cases hdiv : it.current = '/'
                              · have hne : it.current ≠ '\x00' := by rw [hdiv]; decide
                                have hlt := pos_lt_of_current_ne hne
                                by_cases hpk : isIdentCont it.peek = true
                                · obtain ⟨t, it3, he3, hc3, hp3⟩ := lexIdentOrKeyword_total fuel it hlt h
                                  left
                                  have hstep : nextToken fuel it = .ok (t, it3) := by
                                    simp only [nextToken, if_neg h00, if_neg hplus, if_neg htimes, if_neg hmod, if_neg hlp, if_neg hrp, if_neg hlb, if_neg hrb, if_neg hlk, if_neg hrk, if_neg hsemi, if_neg hcolon, if_neg hcomma, if_neg hminus, if_pos hdiv, hpk, if_true, he3]
                                  exact ⟨t, it3, hstep, hc3, Or.inr ⟨hp3, hlt⟩⟩
                                · left
                                  have hstep : nextToken fuel it = .ok (Token.simple TokenKind.TOK_DIVIDE
                                      ⟨it.pos, it.next.pos⟩, it.next) := by
                                    simp only [nextToken, if_neg h00, if_neg hplus, if_neg htimes, if_neg hmod, if_neg hlp, if_neg hrp, if_neg hlb, if_neg hrb, if_neg hlk, if_neg hrk, if_neg hsemi, if_neg hcolon, if_neg hcomma, if_neg hminus, if_pos hdiv, hpk, Bool.false_eq_true, if_false]
                                  exact ⟨_, it.next, hstep, next_code it, Or.inr ⟨by rw [next_pos_eq hlt]; omega, hlt⟩⟩
                              · by_cases hless : it.current = '<'
                                · have hne : it.current ≠ '\x00' := by rw [hless]; decide
                                  have hlt := pos_lt_of_current_ne hne
                                  have hnp := next_pos_eq hlt
                                  have hple := next_pos_le it.next
                                  by_cases hshl : it.next.current = '<'
                                  · left
                                    have hstep : nextToken fuel it = .ok (Token.simple TokenKind.TOK_SHL
                                        ⟨it.pos, it.next.next.pos⟩, it.next.next) := by
                                      simp only [nextToken, if_neg h00, if_neg hplus, if_neg htimes, if_neg hmod, if_neg hlp, if_neg hrp, if_neg hlb, if_neg hrb, if_neg hlk, if_neg hrk, if_neg hsemi, if_neg hcolon, if_neg hcomma, if_neg hminus, if_neg hdiv, if_pos hless, if_pos hshl]
                                    exact ⟨_, it.next.next, hstep, by simp only [next_code], Or.inr ⟨by omega, hlt⟩⟩
                                  · 
                                    by_cases hleq : it.next.current = '='
                                    · left
                                      have hstep : nextToken fuel it = .ok (Token.simple TokenKind.TOK_LESS_EQ
                                          ⟨it.pos, it.next.next.pos⟩, it.next.next) := by
                                        simp only [nextToken, if_neg h00, if_neg hplus, if_neg htimes, if_neg hmod, if_neg hlp, if_neg hrp, if_neg hlb, if_neg hrb, if_neg hlk, if_neg hrk, if_neg hsemi, if_neg hcolon, if_neg hcomma, if_neg hminus, if_neg hdiv, if_pos hless, if_neg hshl, if_pos hleq]
                                      exact ⟨_, it.next.next, hstep, by simp only [next_code], Or.inr ⟨by omega, hlt⟩⟩
                                    · 
                                      left
                                      have hstep : nextToken fuel it = .ok (Token.simple TokenKind.TOK_LESS
                                          ⟨it.pos, it.next.pos⟩, it.next) := by
                                        simp only [nextToken, if_neg h00, if_neg hplus, if_neg htimes, if_neg hmod, if_neg hlp, if_neg hrp, if_neg hlb, if_neg hrb, if_neg hlk, if_neg hrk, if_neg hsemi, if_neg hcolon, if_neg hcomma, if_neg hminus, if_neg hdiv, if_pos hless, if_neg hshl, if_neg hleq]
                                      exact ⟨_, it.next, hstep, next_code it, Or.inr ⟨by omega, hlt⟩⟩
                                · by_cases hgt : it.current = '>'
                                  · have hne : it.current ≠ '\x00' := by rw [hgt]; decide
                                    have hlt := pos_lt_of_current_ne hne
                                    have hnp := next_pos_eq hlt
                                    have hple := next_pos_le it.next
                                    by_cases hshr : it.next.current = '>'
                                    · left
                                      have hstep : nextToken fuel it = .ok (Token.simple TokenKind.TOK_SHR
                                          ⟨it.pos, it.next.next.pos⟩, it.next.next) := by
                                        simp only [nextToken, if_neg h00, if_neg hplus, if_neg htimes, if_neg hmod, if_neg hlp, if_neg hrp, if_neg hlb, if_neg hrb, if_neg hlk, if_neg hrk, if_neg hsemi, if_neg hcolon, if_neg hcomma, if_neg hminus, if_neg hdiv, if_neg hless, if_pos hgt, if_pos hshr]
                                      exact ⟨_, it.next.next, hstep, by simp only [next_code], Or.inr ⟨by omega, hlt⟩⟩
                                    · 
                                      by_cases hgeq : it.next.current = '='
                                      · left
                                        have hstep : nextToken fuel it = .ok (Token.simple TokenKind.TOK_GREATER_EQ
                                            ⟨it.pos, it.next.next.pos⟩, it.next.next) := by
                                          simp only [nextToken, if_neg h00, if_neg hplus, if_neg htimes, if_neg hmod, if_neg hlp, if_neg hrp, if_neg hlb, if_neg hrb, if_neg hlk, if_neg hrk, if_neg hsemi, if_neg hcolon, if_neg hcomma, if_neg hminus, if_neg hdiv, if_neg hless, if_pos hgt, if_neg hshr, if_pos hgeq]
                                        exact ⟨_, it.next.next, hstep, by simp only [next_code], Or.inr ⟨by omega, hlt⟩⟩
                                      · 
                                        left
                                        have hstep : nextToken fuel it = .ok (Token.simple TokenKind.TOK_GREATER
                                            ⟨it.pos, it.next.pos⟩, it.next) := by
                                          simp only [nextToken, if_neg h00, if_neg hplus, if_neg htimes, if_neg hmod, if_neg hlp, if_neg hrp, if_neg hlb, if_neg hrb, if_neg hlk, if_neg hrk, if_neg hsemi, if_neg hcolon, if_neg hcomma, if_neg hminus, if_neg hdiv, if_neg hless, if_pos hgt, if_neg hshr, if_neg hgeq]
                                        exact ⟨_, it.next, hstep, next_code it, Or.inr ⟨by omega, hlt⟩⟩
                                  · by_cases heq2 : it.current = '='
                                    · have hne : it.current ≠ '\x00' := by rw [heq2]; decide
                                      have hlt := pos_lt_of_current_ne hne
                                      have hnp := next_pos_eq hlt
                                      have hple := next_pos_le it.next
                                      by_cases heqq : it.next.current = '='
                                      · left
                                        have hstep : nextToken fuel it = .ok (Token.simple TokenKind.TOK_EQ
                                            ⟨it.pos, it.next.next.pos⟩, it.next.next) := by
                                          simp only [nextToken, if_neg h00, if_neg hplus, if_neg htimes, if_neg hmod, if_neg hlp, if_neg hrp, if_neg hlb, if_neg hrb, if_neg hlk, if_neg hrk, if_neg hsemi, if_neg hcolon, if_neg hcomma, if_neg hminus, if_neg hdiv, if_neg hless, if_neg hgt, if_pos heq2, if_pos heqq]
                                        exact ⟨_, it.next.next, hstep, by simp only [next_code], Or.inr ⟨by omega, hlt⟩⟩
                                      · 
                                        left
                                        have hstep : nextToken fuel it = .ok (Token.simple TokenKind.TOK_ASSIGN
                                            ⟨it.pos, it.next.pos⟩, it.next) := by
                                          simp only [nextToken, if_neg h00, if_neg hplus, if_neg htimes, if_neg hmod, if_neg hlp, if_neg hrp, if_neg hlb, if_neg hrb, if_neg hlk, if_neg hrk, if_neg hsemi, if_neg hcolon, if_neg hcomma, if_neg hminus, if_neg hdiv, if_neg hless, if_neg hgt, if_pos heq2, if_neg heqq]
                                        exact ⟨_, it.next, hstep, next_code it, Or.inr ⟨by omega, hlt⟩⟩
                                    · by_cases hbang : it.current = '!'
                                      · have hne : it.current ≠ '\x00' := by rw [hbang]; decide
                                        have hlt := pos_lt_of_current_ne hne
                                        have hnp := next_pos_eq hlt
                                        have hple := next_pos_le it.next
                                        by_cases hneq : it.next.current = '='
                                        · left
                                          have hstep : nextToken fuel it = .ok (Token.simple TokenKind.TOK_NOT_EQ
                                              ⟨it.pos, it.next.next.pos⟩, it.next.next) := by
                                            simp only [nextToken, if_neg h00, if_neg hplus, if_neg htimes, if_neg hmod, if_neg hlp, if_neg hrp, if_neg hlb, if_neg hrb, if_neg hlk, if_neg hrk, if_neg hsemi, if_neg hcolon, if_neg hcomma, if_neg hminus, if_neg hdiv, if_neg hless, if_neg hgt, if_neg heq2, if_pos hbang, if_pos hneq]
                                          exact ⟨_, it.next.next, hstep, by simp only [next_code], Or.inr ⟨by omega, hlt⟩⟩
                                        · 
                                          left
                                          have hstep : nextToken fuel it = .ok (Token.simple TokenKind.TOK_NOT
                                              ⟨it.pos, it.next.pos⟩, it.next) := by
                                            simp only [nextToken, if_neg h00, if_neg hplus, if_neg htimes, if_neg hmod, if_neg hlp, if_neg hrp, if_neg hlb, if_neg hrb, if_neg hlk, if_neg hrk, if_neg hsemi, if_neg hcolon, if_neg hcomma, if_neg hminus, if_neg hdiv, if_neg hless, if_neg hgt, if_neg heq2, if_pos hbang, if_neg hneq]
                                          exact ⟨_, it.next, hstep, next_code it, Or.inr ⟨by omega, hlt⟩⟩
                                      · by_cases hq : it.current = '\"'
                                        · rcases lexString_total fuel it hq h with ⟨t, it3, he3, hc3, hp3⟩ | ⟨e, he3⟩
                                          · left
                                            have hne : it.current ≠ '\x00' := by rw [hq]; decide
                                            have hstep : nextToken fuel it = .ok (t, it3) := by
                                              simp only [nextToken, if_neg h00, if_neg hplus, if_neg htimes, if_neg hmod, if_neg hlp, if_neg hrp, if_neg hlb, if_neg hrb, if_neg hlk, if_neg hrk, if_neg hsemi, if_neg hcolon, if_neg hcomma, if_neg hminus, if_neg hdiv, if_neg hless, if_neg hgt, if_neg heq2, if_neg hbang, if_pos hq, he3]
                                            exact ⟨t, it3, hstep, hc3, Or.inr ⟨hp3, pos_lt_of_current_ne hne⟩⟩
                                          · right
                                            have hstep : nextToken fuel it = .error (.err e) := by
                                              simp only [nextToken, if_neg h00, if_neg hplus, if_neg htimes, if_neg hmod, if_neg hlp, if_neg hrp, if_neg hlb, if_neg hrb, if_neg hlk, if_neg hrk, if_neg hsemi, if_neg hcolon, if_neg hcomma, if_neg hminus, if_neg hdiv, if_neg hless, if_neg hgt, if_neg heq2, if_neg hbang, if_pos hq, he3]
                                            exact ⟨e, hstep⟩
                                        · by_cases hdg : isAsciiDecDigit it.current = true
                                          · rcases lexNumber_total fuel it hdg h with ⟨t, it3, he3, hc3, hp3⟩ | ⟨e, he3⟩
                                            · left
                                              have hne : it.current ≠ '\x00' := by
                                                intro hz
                                                rw [hz] at hdg
                                                exact absurd hdg (by decide)
                                              have hstep : nextToken fuel it = .ok (t, it3) := by
                                                simp only [nextToken, if_neg h00, if_neg hplus, if_neg htimes, if_neg hmod, if_neg hlp, if_neg hrp, if_neg hlb, if_neg hrb, if_neg hlk, if_neg hrk, if_neg hsemi, if_neg hcolon, if_neg hcomma, if_neg hminus, if_neg hdiv, if_neg hless, if_neg hgt, if_neg heq2, if_neg hbang, if_neg hq, hdg, if_true, he3]
                                              exact ⟨t, it3, hstep, hc3, Or.inr ⟨hp3, pos_lt_of_current_ne hne⟩⟩
                                            · right
                                              have hstep : nextToken fuel it = .error (.err e) := by
                                                simp only [nextToken, if_neg h00, if_neg hplus, if_neg htimes, if_neg hmod, if_neg hlp, if_neg hrp, if_neg hlb, if_neg hrb, if_neg hlk, if_neg hrk, if_neg hsemi, if_neg hcolon, if_neg hcomma, if_neg hminus, if_neg hdiv, if_neg hless, if_neg hgt, if_neg heq2, if_neg hbang, if_neg hq, hdg, if_true, he3]
                                              exact ⟨e, hstep⟩
                                          · by_cases hid : isIdentStart it.current = true
                                            · have hne : it.current ≠ '\x00' := by
                                                intro hz
                                                rw [hz] at hid
                                                exact absurd hid (by decide)
                                              have hlt := pos_lt_of_current_ne hne
                                              obtain ⟨t, it3, he3, hc3, hp3⟩ := lexIdentOrKeyword_total fuel it hlt h
                                              left
                                              have hstep : nextToken fuel it = .ok (t, it3) := by
                                                simp only [nextToken, if_neg h00, if_neg hplus, if_neg htimes, if_neg hmod, if_neg hlp, if_neg hrp, if_neg hlb, if_neg hrb, if_neg hlk, if_neg hrk, if_neg hsemi, if_neg hcolon, if_neg hcomma, if_neg hminus, if_neg hdiv, if_neg hless, if_neg hgt, if_neg heq2, if_neg hbang, if_neg hq, hdg, Bool.false_eq_true, if_false, hid, if_true, he3]
                                              exact ⟨t, it3, hstep, hc3, Or.inr ⟨hp3, hlt⟩⟩
                                            · right
                                              have hstep : nextToken fuel it = throwLex (LexError.invalidChar it.getLocation) := by
                                                simp only [nextToken, if_neg h00, if_neg hplus, if_neg htimes, if_neg hmod, if_neg hlp, if_neg hrp, if_neg hlb, if_neg hrb, if_neg hlk, if_neg hrk, if_neg hsemi, if_neg hcolon, if_neg hcomma, if_neg hminus, if_neg hdiv, if_neg hless, if_neg hgt, if_neg heq2, if_neg hbang, if_neg hq, hdg, Bool.false_eq_true, if_false, hid]
                                              exact ⟨_, hstep⟩

end lexer
namespace lexer

theorem lexAll_total :
    ∀ (fuel : Nat) (it : SourceIterator),
    it.code.length - it.pos + 2 ≤ fuel →
    (∃ ts t, lexAll fuel it = .ok (ts ++ [t]) ∧ t.getKind = TokenKind.TOK_EOF) ∨
    (∃ e, lexAll fuel it = .error (.err e)) := by
  intro fuel
  induction fuel with
  | zero => intro it h; omega
  | succ fuel ih =>
    intro it h
    have hfe : it.code.length - it.pos + 1 ≤ fuel := by omega
    obtain ⟨it1, he1, hc1, hp1⟩ := eatW_total fuel it hfe
    have hfe1 : it1.code.length - it1.pos + 1 ≤ fuel := by
      rw [hc1]
      omega
    rcases nextToken_total fuel it1 hfe1 with ⟨t, it2, he2, hc2, hdisj⟩ | ⟨e, he2⟩
    · by_cases hk : t.getKind = TokenKind.TOK_EOF
      · left
        refine ⟨[], t, ?_, hk⟩
        simp only [lexAll, he1, okBind, he2, if_pos hk, List.nil_append]
      · rcases hdisj with ⟨hkEof, _⟩ | ⟨hlt2, hlt1⟩
        · exact absurd hkEof hk
        · rw [hc1] at hlt1
          have hfe2 : it2.code.length - it2.pos + 2 ≤ fuel := by
            rw [hc2, hc1]
            omega
          rcases ih it2 hfe2 with ⟨ts, tl, he3, hk3⟩ | ⟨e, he3⟩
          · left
            refine ⟨t :: ts, tl, ?_, hk3⟩
            simp only [lexAll, he1, okBind, he2, if_neg hk, he3, List.cons_append]
          · right
            refine ⟨e, ?_⟩
            simp only [lexAll, he1, okBind, he2, if_neg hk, he3, errBind]
    · right
      refine ⟨e, ?_⟩
      simp only [lexAll, he1, okBind, he2, errBind]

/-- C8: `Lexer::tokenize` is total and terminating on every source buffer: it
either returns a finite token sequence whose last element is the end-marker
`TOK_EOF` token, or fails with a thrown `LexError` (which carries the
`Location` of the offending character in its constructor).  In particular the
model's other failure modes — fuel exhaustion (standing for a
non-terminating C++ loop) and the internal `std::runtime_error` of
`lexShortFlag` — are unreachable from the entry point. -/
theorem claim_C8_tokenize_total_eof_or_error (code : List Char) (filename : String) :
    (∃ ts t, tokenizeL code filename = .ok (ts ++ [t]) ∧
      t.getKind = TokenKind.TOK_EOF) ∨
    (∃ e, tokenizeL code filename = .error (.err e)) := by
  have h : (⟨code, filename, 1, 1, 0⟩ : SourceIterator).code.length -
      (⟨code, filename, 1, 1, 0⟩ : SourceIterator).pos + 2 ≤ code.length + 2 := by
    simp
  exact lexAll_total (code.length + 2) ⟨code, filename, 1, 1, 0⟩ h

end lexer
namespace lexer

/-- Lockstep relation between an iterator over `s ++ '\x00' :: t` (a buffer
with an embedded NUL) and one over the truncated buffer `s`: same position
and location, never past the separator. -/
def relIt (s t : List Char) (itB itS : SourceIterator) : Prop :=
  itB.code = s ++ '\x00' :: t ∧ itS.code = s ∧ itB.filename = itS.filename ∧
  itB.line = itS.line ∧ itB.col = itS.col ∧ itB.pos = itS.pos ∧ itS.pos ≤ s.length

theorem charAtD_append_nul (s t : List Char) (p : Nat) (hp : p ≤ s.length) :
    charAtD (s ++ '\x00' :: t) p = charAtD s p := by
  rcases Nat.lt_or_ge p s.length with h | h
  · simp only [charAtD, List.getD_eq_getElem?_getD]
    rw [List.getElem?_append, if_pos h]
  · have hps : p = s.length := Nat.le_antisymm hp h
    subst hps
    rw [charAtD_oob (Nat.le_refl _)]
    simp only [charAtD, List.getD_eq_getElem?_getD]
    rw [List.getElem?_append_right (Nat.le_refl _)]
    simp

theorem relIt_current {s t : List Char} {itB itS : SourceIterator}
    (h : relIt s t itB itS) : itB.current = itS.current := by
  obtain ⟨hB, hS, _, _, _, hpos, hle⟩ := h
  show charAtD itB.code itB.pos = charAtD itS.code itS.pos
  rw [hB, hS, hpos]
  exact charAtD_append_nul s t itS.pos hle

theorem relIt_pos_lt {s t : List Char} {itB itS : SourceIterator}
    (h : relIt s t itB itS) (hne : itB.current ≠ '\x00') : itS.pos < s.length := by
  have hS := @pos_lt_of_current_ne itS (by rw [← relIt_current h]; exact hne)
  rw [h.2.1] at hS
  exact hS

theorem relIt_peek {s t : List Char} {itB itS : SourceIterator}
    (h : relIt s t itB itS) (hlt : itS.pos < s.length) : itB.peek = itS.peek := by
  obtain ⟨hB, hS, _, _, _, hpos, hle⟩ := h
  show charAtD itB.code (itB.pos + 1) = charAtD itS.code (itS.pos + 1)
  rw [hB, hS, hpos]
  exact charAtD_append_nul s t (itS.pos + 1) (by omega)

theorem relIt_peek2 {s t : List Char} {itB itS : SourceIterator}
    (h : relIt s t itB itS) (hlt : itS.pos + 1 < s.length) : itB.peek2 = itS.peek2 := by
  obtain ⟨hB, hS, _, _, _, hpos, hle⟩ := h
  show charAtD itB.code (itB.pos + 2) = charAtD itS.code (itS.pos + 2)
  rw [hB, hS, hpos]
  exact charAtD_append_nul s t (itS.pos + 2) (by omega)

theorem relIt_loc {s t : List Char} {itB itS : SourceIterator}
    (h : relIt s t itB itS) : itB.getLocation = itS.getLocation := by
  obtain ⟨_, _, hf, hl, hc, _, _⟩ := h
  show (⟨itB.filename, itB.line, itB.col⟩ : Location) = ⟨itS.filename, itS.line, itS.col⟩
  rw [hf, hl, hc]

theorem next_fields (it : SourceIterator) (h : it.pos < it.code.length) :
    it.next = ⟨it.code, it.filename,
      (if charAtD it.code it.pos = '\n' then it.line + 1 else it.line),
      (if charAtD it.code it.pos = '\n' then 1
        else if charAtD it.code it.pos = '\t' then it.col + 4 else it.col + 1),
      it.pos + 1⟩ := by
  simp only [SourceIterator.next, if_pos h]
  by_cases h1 : charAtD it.code it.pos = '\n'
  · simp [h1]
  · by_cases h2 : charAtD it.code it.pos = '\t'
    · simp [h1, h2]
    · simp [h1, h2]

theorem relIt_next {s t : List Char} {itB itS : SourceIterator}
    (h : relIt s t itB itS) (hne : itB.current ≠ '\x00') :
    relIt s t itB.next itS.next ∧ itS.next.pos = itS.pos + 1 := by
  have hltS : itS.pos < s.length := relIt_pos_lt h hne
  have hcur : itB.current = itS.current := relIt_current h
  obtain ⟨hB, hS, hf, hl, hc, hpos, hle⟩ := h
  have hltS' : itS.pos < itS.code.length := by
    rw [hS]
    exact hltS
  have hltB' : itB.pos < itB.code.length := by
    rw [hB, hpos]
    simp only [List.length_append, List.length_cons]
    omega
  have hchar : charAtD itB.code itB.pos = charAtD itS.code itS.pos := hcur
  rw [next_fields itB hltB', next_fields itS hltS', hchar]
  refine ⟨⟨hB, hS, hf, ?_, ?_, by rw [hpos], by show itS.pos + 1 ≤ s.length; omega⟩, rfl⟩
  · show (if charAtD itS.code itS.pos = '\n' then itB.line + 1 else itB.line) = _
    rw [hl]
  · show (if charAtD itS.code itS.pos = '\n' then 1
      else if charAtD itS.code itS.pos = '\t' then itB.col + 4 else itB.col + 1) = _
    rw [hc]

end lexer
namespace lexer

theorem sliceOf_append_nul (s t : List Char) (a b : Nat) (hb : b ≤ s.length) :
    sliceOf (s ++ '\x00' :: t) a b = sliceOf s a b := by
  unfold sliceOf
  rcases Nat.lt_or_ge s.length a with ha | ha
  · have h0 : b - a = 0 := by omega
    rw [h0]
    simp
  · rw [List.drop_append_eq_append_drop]
    have h0 : a - s.length = 0 := by omega
    rw [h0]
    rw [List.take_append_eq_append_take]
    have h1 : (b - a) - (s.drop a).length = 0 := by
      rw [List.length_drop]
      omega
    rw [h1]
    simp

theorem skipWhile_rel (s t : List Char) (p : Char → Bool) (hnul : p '\x00' = false) :
    ∀ (fuelB : Nat) (fuelS : Nat) (itB itS : SourceIterator), relIt s t itB itS →
    s.length - itS.pos + 1 ≤ fuelB → s.length - itS.pos + 1 ≤ fuelS →
    ∃ itB' itS', skipWhile p fuelB itB = .ok itB' ∧ skipWhile p fuelS itS = .ok itS' ∧
      relIt s t itB' itS' ∧ itS.pos ≤ itS'.pos ∧
      (p itS.current = true → itS.pos < itS'.pos) := by
  intro fuelB
  induction fuelB with
  | zero => intro fuelS itB itS h hB hS; omega
  | succ fuelB ih =>
    intro fuelS itB itS h hB hS
    cases fuelS with
    | zero => omega
    | succ fuelS =>
      have hcur := relIt_current h
      by_cases hc : p itB.current = true
      · have hne : itB.current ≠ '\x00' := by
          intro hz
          rw [hz, hnul] at hc
          cases hc
        have hltS := relIt_pos_lt h hne
        obtain ⟨hrel', hnpS⟩ := relIt_next h hne
        have hfB : s.length - itS.next.pos + 1 ≤ fuelB := by
          rw [hnpS]
          omega
        have hfS : s.length - itS.next.pos + 1 ≤ fuelS := by
          rw [hnpS]
          omega
        obtain ⟨itB', itS', heB, heS, hrel2, hpos2, _⟩ :=
          ih fuelS itB.next itS.next hrel' hfB hfS
        have hcS : p itS.current = true := by
          rw [← hcur]
          exact hc
        refine ⟨itB', itS', ?_, ?_, hrel2, by omega, fun _ => by omega⟩
        · simp only [skipWhile, hc, if_true]
          exact heB
        · simp only [skipWhile, hcS, if_true]
          exact heS
      · have hcS : ¬(p itS.current = true) := by
          rw [← hcur]
          exact hc
        refine ⟨itB, itS, ?_, ?_, h, Nat.le_refl _, fun hx => absurd hx hcS⟩
        · simp only [skipWhile, hc, Bool.false_eq_true, if_false]
        · simp only [skipWhile, hcS, Bool.false_eq_true, if_false]

theorem skipLineComment_rel (s t : List Char) :
    ∀ (fuelB : Nat) (fuelS : Nat) (itB itS : SourceIterator), relIt s t itB itS →
    s.length - itS.pos + 1 ≤ fuelB → s.length - itS.pos + 1 ≤ fuelS →
    ∃ itB' itS', skipLineComment fuelB itB = .ok itB' ∧
      skipLineComment fuelS itS = .ok itS' ∧ relIt s t itB' itS' ∧ itS.pos ≤ itS'.pos := by
  intro fuelB
  induction fuelB with
  | zero => intro fuelS itB itS h hB hS; omega
  | succ fuelB ih =>
    intro fuelS itB itS h hB hS
    cases fuelS with
    | zero => omega
    | succ fuelS =>
      have hcur := relIt_current h
      by_cases hc : (itB.current = '\n' || itB.current = '\x00') = true
      · have hcS : (itS.current = '\n' || itS.current = '\x00') = true := by
          rw [← hcur]
          exact hc
        refine ⟨itB, itS, ?_, ?_, h, Nat.le_refl _⟩
        · simp only [skipLineComment, hc, if_true]
        · simp only [skipLineComment, hcS, if_true]
      · have hne : itB.current ≠ '\x00' := by
          intro hz
          rw [hz] at hc
          simp at hc
        have hltS := relIt_pos_lt h hne
        obtain ⟨hrel', hnpS⟩ := relIt_next h hne
        have hfB : s.length - itS.next.pos + 1 ≤ fuelB := by
          rw [hnpS]
          omega
        have hfS : s.length - itS.next.pos + 1 ≤ fuelS := by
          rw [hnpS]
          omega
        obtain ⟨itB', itS', heB, heS, hrel2, hpos2⟩ :=
          ih fuelS itB.next itS.next hrel' hfB hfS
        have hcS : ¬((itS.current = '\n' || itS.current = '\x00') = true) := by
          rw [← hcur]
          exact hc
        refine ⟨itB', itS', ?_, ?_, hrel2, by omega⟩
        · simp only [skipLineComment, hc, Bool.false_eq_true, if_false]
          exact heB
        · simp only [skipLineComment, hcS, Bool.false_eq_true, if_false]
          exact heS

theorem relIt_posB {s t : List Char} {itB itS : SourceIterator}
    (h : relIt s t itB itS) : itB.pos < itB.code.length := by
  obtain ⟨hB, _, _, _, _, hpos, hle⟩ := h
  rw [hB, hpos]
  simp only [List.length_append, List.length_cons]
  omega

theorem eatW_rel (s t : List Char) :
    ∀ (fuelB : Nat) (fuelS : Nat) (itB itS : SourceIterator), relIt s t itB itS →
    s.length - itS.pos + 1 ≤ fuelB → s.length - itS.pos + 1 ≤ fuelS →
    ∃ itB' itS', eatWhitespaceAndComments fuelB itB = .ok itB' ∧
      eatWhitespaceAndComments fuelS itS = .ok itS' ∧ relIt s t itB' itS' ∧
      itS.pos ≤ itS'.pos := by
  intro fuelB
  induction fuelB with
  | zero => intro fuelS itB itS h hB hS; omega
  | succ fuelB ih =>
    intro fuelS itB itS h hB hS
    cases fuelS with
    | zero => omega
    | succ fuelS =>
      have hcur := relIt_current h
      by_cases hws : (itB.current = ' ' || itB.current = '\t' || itB.current = '\n' ||
          itB.current = '\r') = true
      · have hne : itB.current ≠ '\x00' := by
          intro hz
          rw [hz] at hws
          simp at hws
        have hltS := relIt_pos_lt h hne
        obtain ⟨hrel1, hnp1⟩ := relIt_next h hne
        have hfB : s.length - itS.next.pos + 1 ≤ fuelB := by
          rw [hnp1]
          omega
        have hfS : s.length - itS.next.pos + 1 ≤ fuelS := by
          rw [hnp1]
          omega
        obtain ⟨itB', itS', heB, heS, hrel2, hpos2⟩ :=
          ih fuelS itB.next itS.next hrel1 hfB hfS
        have hwsS : (itS.current = ' ' || itS.current = '\t' || itS.current = '\n' ||
            itS.current = '\r') = true := by
          rw [← hcur]
          exact hws
        refine ⟨itB', itS', ?_, ?_, hrel2, by omega⟩
        · simp only [eatWhitespaceAndComments, hws, if_true]
          exact heB
        · simp only [eatWhitespaceAndComments, hwsS, if_true]
          exact heS
      · have hwsS : ¬((itS.current = ' ' || itS.current = '\t' || itS.current = '\n' ||
            itS.current = '\r') = true) := by
          rw [← hcur]
          exact hws
        by_cases hsl : itB.current = '/'
        · have hslS : itS.current = '/' := by
            rw [← hcur]
            exact hsl
          have hne : itB.current ≠ '\x00' := by
            rw [hsl]
            decide
          have hltS := relIt_pos_lt h hne
          have hpeek : itB.peek = itS.peek := relIt_peek h hltS
          by_cases hpk : itB.peek = '/'
          · have hpkS : itS.peek = '/' := by
              rw [← hpeek]
              exact hpk
            obtain ⟨hrel1, hnp1⟩ := relIt_next h hne
            have hne2 : itB.next.current ≠ '\x00' := by
              rw [next_current itB (relIt_posB h), hpk]
              decide
            have hltS2 := relIt_pos_lt hrel1 hne2
            obtain ⟨hrel2, hnp2⟩ := relIt_next hrel1 hne2
            have hfB2 : s.length - itS.next.next.pos + 1 ≤ fuelB := by
              rw [hnp2, hnp1]
              omega
            have hfS2 : s.length - itS.next.next.pos + 1 ≤ fuelS := by
              rw [hnp2, hnp1]
              omega
            obtain ⟨itcB, itcS, hecB, hecS, hrelc, hposc⟩ :=
              skipLineComment_rel s t fuelB fuelS itB.next.next itS.next.next hrel2 hfB2 hfS2
            rw [hnp2, hnp1] at hposc
            have hfB3 : s.length - itcS.pos + 1 ≤ fuelB := by omega
            have hfS3 : s.length - itcS.pos + 1 ≤ fuelS := by omega
            obtain ⟨itB', itS', heB, heS, hrel3, hpos3⟩ := ih fuelS itcB itcS hrelc hfB3 hfS3
            refine ⟨itB', itS', ?_, ?_, hrel3, by omega⟩
            · simp only [eatWhitespaceAndComments, hws, Bool.false_eq_true, if_false,
                if_pos hsl, if_pos hpk, SourceIterator.next2, hecB, okBind]
              exact heB
            · simp only [eatWhitespaceAndComments, hwsS, Bool.false_eq_true, if_false,
                if_pos hslS, if_pos hpkS, SourceIterator.next2, hecS, okBind]
              exact heS
          · have hpkS : ¬(itS.peek = '/') := by
              rw [← hpeek]
              exact hpk
            refine ⟨itB, itS, ?_, ?_, h, Nat.le_refl _⟩
            · simp only [eatWhitespaceAndComments, hws, Bool.false_eq_true, if_false,
                if_pos hsl, if_neg hpk]
            · simp only [eatWhitespaceAndComments, hwsS, Bool.false_eq_true, if_false,
                if_pos hslS, if_neg hpkS]
        · have hslS : ¬(itS.current = '/') := by
            rw [← hcur]
            exact hsl
          refine ⟨itB, itS, ?_, ?_, h, Nat.le_refl _⟩
          · simp only [eatWhitespaceAndComments, hws, Bool.false_eq_true, if_false,
              if_neg hsl]
          · simp only [eatWhitespaceAndComments, hwsS, Bool.false_eq_true, if_false,
              if_neg hslS]

end lexer
namespace lexer

theorem lexStringLoop_rel (s t : List Char) (sl : Location) :
    ∀ (fuelB fuelS : Nat) (itB itS : SourceIterator), relIt s t itB itS →
    s.length - itS.pos + 1 ≤ fuelB → s.length - itS.pos + 1 ≤ fuelS →
    (∃ itB' itS', lexStringLoop sl fuelB itB = .ok itB' ∧
      lexStringLoop sl fuelS itS = .ok itS' ∧ relIt s t itB' itS' ∧
      itS.pos ≤ itS'.pos ∧ itB'.current = '"') ∨
    (∃ e, lexStringLoop sl fuelB itB = .error (.err e) ∧
      lexStringLoop sl fuelS itS = .error (.err e)) := by
  intro fuelB
  induction fuelB with
  | zero => intro fuelS itB itS h hB hS; omega
  | succ fuelB ih =>
    intro fuelS itB itS h hB hS
    cases fuelS with
    | zero => omega
    | succ fuelS =>
      have hcur := relIt_current h
      by_cases h0 : itB.current = '\x00'
      · have h0S : itS.current = '\x00' := by rw [← hcur]; exact h0
        right
        refine ⟨LexError.unclosedString sl, ?_, ?_⟩
        · simp only [lexStringLoop, if_pos h0]
          rfl
        · simp only [lexStringLoop, if_pos h0S]
          rfl
      · have h0S : ¬(itS.current = '\x00') := by rw [← hcur]; exact h0
        by_cases hn : itB.current = '\n'
        · have hnS : itS.current = '\n' := by rw [← hcur]; exact hn
          right
          refine ⟨LexError.unclosedString itS.getLocation, ?_, ?_⟩
          · simp only [lexStringLoop, if_neg h0, if_pos hn]
            rw [relIt_loc h]
            rfl
          · simp only [lexStringLoop, if_neg h0S, if_pos hnS]
            rfl
        · have hnS : ¬(itS.current = '\n') := by rw [← hcur]; exact hn
          by_cases hq : itB.current = '"'
          · have hqS : itS.current = '"' := by rw [← hcur]; exact hq
            left
            refine ⟨itB, itS, ?_, ?_, h, Nat.le_refl _, hq⟩
            · simp only [lexStringLoop, if_neg h0, if_neg hn, if_pos hq]
            · simp only [lexStringLoop, if_neg h0S, if_neg hnS, if_pos hqS]
          · have hqS : ¬(itS.current = '"') := by rw [← hcur]; exact hq
            by_cases hb : itB.current = '\\'
            · have hbS : itS.current = '\\' := by rw [← hcur]; exact hb
              obtain ⟨hrel1, hnp1⟩ := relIt_next h h0
              have hcur1 := relIt_current hrel1
              by_cases hbad : (itB.next.current = '\x00' || itB.next.current = '\n') = true
              · have hbadS : (itS.next.current = '\x00' || itS.next.current = '\n') = true := by
                  rw [← hcur1]
                  exact hbad
                right
                refine ⟨LexError.unclosedString itS.getLocation, ?_, ?_⟩
                · simp only [lexStringLoop, if_neg h0, if_neg hn, if_neg hq, if_pos hb,
                    hbad, if_true]
                  rw [relIt_loc h]
                  rfl
                · simp only [lexStringLoop, if_neg h0S, if_neg hnS, if_neg hqS, if_pos hbS,
                    hbadS, if_true]
                  rfl
              · have hbadS : ¬((itS.next.current = '\x00' || itS.next.current = '\n') = true) := by
                  rw [← hcur1]
                  exact hbad
                have hne2 : itB.next.current ≠ '\x00' := by
                  intro hz
                  rw [hz] at hbad
                  simp at hbad
                by_cases hesc : (itB.next.current = 'n' || itB.next.current = 'r' ||
                    itB.next.current = 't' || itB.next.current = '\\' ||
                    itB.next.current = '"' || itB.next.current = '0') = true
                · have hescS : (itS.next.current = 'n' || itS.next.current = 'r' ||
                      itS.next.current = 't' || itS.next.current = '\\' ||
                      itS.next.current = '"' || itS.next.current = '0') = true := by
                    rw [← hcur1]
                    exact hesc
                  obtain ⟨hrel2, hnp2⟩ := relIt_next hrel1 hne2
                  have hltS2 := relIt_pos_lt hrel1 hne2
                  have hfB : s.length - itS.next.next.pos + 1 ≤ fuelB := by
                    rw [hnp2, hnp1]
                    omega
                  have hfS : s.length - itS.next.next.pos + 1 ≤ fuelS := by
                    rw [hnp2, hnp1]
                    omega
                  rcases ih fuelS itB.next.next itS.next.next hrel2 hfB hfS with
                      ⟨itB', itS', heB, heS, hrel3, hpos3, hcur3⟩ | ⟨e, heB, heS⟩
                  · left
                    rw [hnp2, hnp1] at hpos3
                    refine ⟨itB', itS', ?_, ?_, hrel3, by omega, hcur3⟩
                    · simp only [lexStringLoop, if_neg h0, if_neg hn, if_neg hq, if_pos hb,
                        hbad, Bool.false_eq_true, if_false, hesc, if_true]
                      exact heB
                    · simp only [lexStringLoop, if_neg h0S, if_neg hnS, if_neg hqS,
                        if_pos hbS, hbadS, Bool.false_eq_true, if_false, hescS, if_true]
                      exact heS
                  · right
                    refine ⟨e, ?_, ?_⟩
                    · simp only [lexStringLoop, if_neg h0, if_neg hn, if_neg hq, if_pos hb,
                        hbad, Bool.false_eq_true, if_false, hesc, if_true]
                      exact heB
                    · simp only [lexStringLoop, if_neg h0S, if_neg hnS, if_neg hqS,
                        if_pos hbS, hbadS, Bool.false_eq_true, if_false, hescS, if_true]
                      exact heS
                · have hescS : ¬((itS.next.current = 'n' || itS.next.current = 'r' ||
                      itS.next.current = 't' || itS.next.current = '\\' ||
                      itS.next.current = '"' || itS.next.current = '0') = true) := by
                    rw [← hcur1]
                    exact hesc
                  right
                  refine ⟨LexError.unknownEscape itS.next.getLocation, ?_, ?_⟩
                  · simp only [lexStringLoop, if_neg h0, if_neg hn, if_neg hq, if_pos hb,
                      hbad, Bool.false_eq_true, if_false, hesc]
                    rw [relIt_loc hrel1]
                    rfl
                  · simp only [lexStringLoop, if_neg h0S, if_neg hnS, if_neg hqS,
                      if_pos hbS, hbadS, Bool.false_eq_true, if_false, hescS]
                    rfl
            · have hbS : ¬(itS.current = '\\') := by rw [← hcur]; exact hb
              obtain ⟨hrel1, hnp1⟩ := relIt_next h h0
              have hltS1 := relIt_pos_lt h h0
              have hfB : s.length - itS.next.pos + 1 ≤ fuelB := by
                rw [hnp1]
                omega
              have hfS : s.length - itS.next.pos + 1 ≤ fuelS := by
                rw [hnp1]
                omega
              rcases ih fuelS itB.next itS.next hrel1 hfB hfS with
                  ⟨itB', itS', heB, heS, hrel3, hpos3, hcur3⟩ | ⟨e, heB, heS⟩
              · left
                rw [hnp1] at hpos3
                refine ⟨itB', itS', ?_, ?_, hrel3, by omega, hcur3⟩
                · simp only [lexStringLoop, if_neg h0, if_neg hn, if_neg hq, if_neg hb]
                  exact heB
                · simp only [lexStringLoop, if_neg h0S, if_neg hnS, if_neg hqS, if_neg hbS]
                  exact heS
              · right
                refine ⟨e, ?_, ?_⟩
                · simp only [lexStringLoop, if_neg h0, if_neg hn, if_neg hq, if_neg hb]
                  exact heB
                · simp only [lexStringLoop, if_neg h0S, if_neg hnS, if_neg hqS, if_neg hbS]
                  exact heS

end lexer
namespace lexer

theorem relIt_pos {s t : List Char} {itB itS : SourceIterator}
    (h : relIt s t itB itS) : itB.pos = itS.pos := h.2.2.2.2.2.1

theorem relIt_le {s t : List Char} {itB itS : SourceIterator}
    (h : relIt s t itB itS) : itS.pos ≤ s.length := h.2.2.2.2.2.2

theorem relIt_codeB {s t : List Char} {itB itS : SourceIterator}
    (h : relIt s t itB itS) : itB.code = s ++ '\x00' :: t := h.1

theorem lexString_rel (s t : List Char) (fuelB fuelS : Nat) (itB itS : SourceIterator)
    (h : relIt s t itB itS) (hq : itB.current = '"')
    (hfB : s.length - itS.pos + 1 ≤ fuelB) (hfS : s.length - itS.pos + 1 ≤ fuelS) :
    (∃ tok itB' itS', lexString fuelB itB = .ok (tok, itB') ∧
      lexString fuelS itS = .ok (tok, itS') ∧ relIt s t itB' itS' ∧ itS.pos < itS'.pos ∧
      tok.getKind ≠ TokenKind.TOK_EOF) ∨
    (∃ e, lexString fuelB itB = .error (.err e) ∧ lexString fuelS itS = .error (.err e)) := by
  have hne : itB.current ≠ '\x00' := by
    rw [hq]
    decide
  have hqS : itS.current = '"' := by
    rw [← relIt_current h]
    exact hq
  have hltS := relIt_pos_lt h hne
  obtain ⟨hrel1, hnp1⟩ := relIt_next h hne
  have hloc : itB.getLocation = itS.getLocation := relIt_loc h
  have hfB1 : s.length - itS.next.pos + 1 ≤ fuelB := by
    rw [hnp1]
    omega
  have hfS1 : s.length - itS.next.pos + 1 ≤ fuelS := by
    rw [hnp1]
    omega
  rcases lexStringLoop_rel s t itS.getLocation fuelB fuelS itB.next itS.next hrel1 hfB1 hfS1
      with ⟨it2B, it2S, heB, heS, hrel2, hpos2, hcur2⟩ | ⟨e, heB, heS⟩
  · left
    have hne2 : it2B.current ≠ '\x00' := by
      rw [hcur2]
      decide
    obtain ⟨hrel3, hnp3⟩ := relIt_next hrel2 hne2
    rw [hnp1] at hpos2
    have hstepB : lexString fuelB itB = .ok (Token.strLit
        (sliceOf s itS.next.pos it2S.pos) ⟨itS.pos, it2S.next.pos⟩, it2B.next) := by
      simp only [lexString, hloc, heB, okBind]
      rw [relIt_pos h, relIt_pos hrel1, relIt_pos hrel2, relIt_pos hrel3,
        relIt_codeB h, sliceOf_append_nul s t _ _ (relIt_le hrel2)]
    have hstepS : lexString fuelS itS = .ok (Token.strLit
        (sliceOf s itS.next.pos it2S.pos) ⟨itS.pos, it2S.next.pos⟩, it2S.next) := by
      simp only [lexString, heS, okBind, h.2.1]
    refine ⟨_, it2B.next, it2S.next, hstepB, hstepS, hrel3, ?_, by intro hz; cases hz⟩
    have := next_pos_le it2S
    omega
  · right
    refine ⟨e, ?_, ?_⟩
    · simp only [lexString, hloc, heB, errBind]
    · simp only [lexString, heS, errBind]

theorem lexIdentOrKeyword_rel (s t : List Char) (fuelB fuelS : Nat)
    (itB itS : SourceIterator) (h : relIt s t itB itS) (hne : itB.current ≠ '\x00')
    (hfB : s.length - itS.pos + 1 ≤ fuelB) (hfS : s.length - itS.pos + 1 ≤ fuelS) :
    ∃ tok itB' itS', lexIdentifierOrKeyword fuelB itB = .ok (tok, itB') ∧
      lexIdentifierOrKeyword fuelS itS = .ok (tok, itS') ∧ relIt s t itB' itS' ∧
      itS.pos < itS'.pos ∧ tok.getKind ≠ TokenKind.TOK_EOF := by
  have hltS := relIt_pos_lt h hne
  obtain ⟨hrel1, hnp1⟩ := relIt_next h hne
  have hfB1 : s.length - itS.next.pos + 1 ≤ fuelB := by
    rw [hnp1]
    omega
  have hfS1 : s.length - itS.next.pos + 1 ≤ fuelS := by
    rw [hnp1]
    omega
  obtain ⟨it2B, it2S, heB, heS, hrel2, hpos2, _⟩ :=
    skipWhile_rel s t isIdentCont (by decide) fuelB fuelS itB.next itS.next hrel1 hfB1 hfS1
  rw [hnp1] at hpos2
  have hsl : sliceOf itB.code itB.pos it2B.pos = sliceOf s itS.pos it2S.pos := by
    rw [relIt_pos h, relIt_pos hrel2, relIt_codeB h,
      sliceOf_append_nul s t _ _ (relIt_le hrel2)]
  cases hk : keywordTable.find? (fun kw => kw.1.data = sliceOf s itS.pos it2S.pos) with
  | some kw =>
    have hkind : kw.2 ≠ TokenKind.TOK_EOF := by
      have hmem := List.mem_of_find?_eq_some hk
      have hall : ∀ p ∈ keywordTable, p.2 ≠ TokenKind.TOK_EOF := by decide
      exact hall kw hmem
    have hstepB : lexIdentifierOrKeyword fuelB itB =
        .ok (Token.simple kw.2 ⟨itS.pos, it2S.pos⟩, it2B) := by
      simp only [lexIdentifierOrKeyword, heB, okBind, hsl, hk]
      rw [relIt_pos h, relIt_pos hrel2]
    have hstepS : lexIdentifierOrKeyword fuelS itS =
        .ok (Token.simple kw.2 ⟨itS.pos, it2S.pos⟩, it2S) := by
      simp only [lexIdentifierOrKeyword, heS, okBind, h.2.1, hk]
    exact ⟨_, it2B, it2S, hstepB, hstepS, hrel2, by omega, hkind⟩
  | none =>
    have hstepB : lexIdentifierOrKeyword fuelB itB =
        .ok (Token.id (sliceOf s itS.pos it2S.pos) ⟨itS.pos, it2S.pos⟩, it2B) := by
      simp only [lexIdentifierOrKeyword, heB, okBind, hsl, hk]
      rw [relIt_pos h, relIt_pos hrel2]
    have hstepS : lexIdentifierOrKeyword fuelS itS =
        .ok (Token.id (sliceOf s itS.pos it2S.pos) ⟨itS.pos, it2S.pos⟩, it2S) := by
      simp only [lexIdentifierOrKeyword, heS, okBind, h.2.1, hk]
    exact ⟨_, it2B, it2S, hstepB, hstepS, hrel2, by omega, by intro hz; cases hz⟩

theorem lexLongFlag_rel (s t : List Char) (fuelB fuelS sp : Nat)
    (itB itS : SourceIterator) (h : relIt s t itB itS)
    (hfB : s.length - itS.pos + 1 ≤ fuelB) (hfS : s.length - itS.pos + 1 ≤ fuelS) :
    (∃ tok itB' itS', lexLongFlag fuelB sp itB = .ok (tok, itB') ∧
      lexLongFlag fuelS sp itS = .ok (tok, itS') ∧ relIt s t itB' itS' ∧
      itS.pos ≤ itS'.pos ∧ tok.getKind ≠ TokenKind.TOK_EOF) ∨
    (∃ e, lexLongFlag fuelB sp itB = .error (.err e) ∧
      lexLongFlag fuelS sp itS = .error (.err e)) := by
  obtain ⟨it2B, it2S, heB, heS, hrel2, hpos2, _⟩ :=
    skipWhile_rel s t isIdentCont (by decide) fuelB fuelS itB itS h hfB hfS
  have hposs : it2B.pos - itB.pos = it2S.pos - itS.pos := by
    rw [relIt_pos h, relIt_pos hrel2]
  by_cases hz : it2S.pos - itS.pos = 0
  · right
    have hzB : it2B.pos - itB.pos = 0 := by
      rw [hposs]
      exact hz
    refine ⟨LexError.invalidChar itS.getLocation, ?_, ?_⟩
    · simp only [lexLongFlag, heB, okBind, if_pos hzB]
      rw [relIt_loc h]
      rfl
    · simp only [lexLongFlag, heS, okBind, if_pos hz]
      rfl
  · left
    have hzB : ¬(it2B.pos - itB.pos = 0) := by
      rw [hposs]
      exact hz
    have hstepB : lexLongFlag fuelB sp itB = .ok (Token.longFlag
        (sliceOf s itS.pos it2S.pos) ⟨sp, it2S.pos⟩, it2B) := by
      simp only [lexLongFlag, heB, okBind, if_neg hzB]
      rw [relIt_pos h, relIt_pos hrel2, relIt_codeB h,
        sliceOf_append_nul s t _ _ (relIt_le hrel2)]
    have hstepS : lexLongFlag fuelS sp itS = .ok (Token.longFlag
        (sliceOf s itS.pos it2S.pos) ⟨sp, it2S.pos⟩, it2S) := by
      simp only [lexLongFlag, heS, okBind, if_neg hz, h.2.1]
    exact ⟨_, it2B, it2S, hstepB, hstepS, hrel2, hpos2, by intro hzz; cases hzz⟩

theorem lexShortFlag_rel (s t : List Char) (fuelB fuelS sp : Nat)
    (itB itS : SourceIterator) (h : relIt s t itB itS)
    (hstart : (isIdentCont itB.current || isAsciiDecDigit itB.current) = true)
    (hfB : s.length - itS.pos + 1 ≤ fuelB) (hfS : s.length - itS.pos + 1 ≤ fuelS) :
    ∃ tok itB' itS', lexShortFlag fuelB sp itB = .ok (tok, itB') ∧
      lexShortFlag fuelS sp itS = .ok (tok, itS') ∧ relIt s t itB' itS' ∧
      itS.pos ≤ itS'.pos ∧ tok.getKind ≠ TokenKind.TOK_EOF := by
  obtain ⟨it2B, it2S, heB, heS, hrel2, hpos2, hstrict⟩ :=
    skipWhile_rel s t (fun c => isIdentCont c || isAsciiDecDigit c) (by decide)
      fuelB fuelS itB itS h hfB hfS
  have hstartS : (isIdentCont itS.current || isAsciiDecDigit itS.current) = true := by
    rw [← relIt_current h]
    exact hstart
  have hlt := hstrict hstartS
  have hzB : ¬(it2B.pos - itB.pos = 0) := by
    rw [relIt_pos h, relIt_pos hrel2]
    omega
  have hzS : ¬(it2S.pos - itS.pos = 0) := by omega
  have hstepB : lexShortFlag fuelB sp itB = .ok (Token.shortFlag
      (sliceOf s itS.pos it2S.pos) ⟨sp, it2S.pos⟩, it2B) := by
    simp only [lexShortFlag, heB, okBind, if_neg hzB]
    rw [relIt_pos h, relIt_pos hrel2, relIt_codeB h,
      sliceOf_append_nul s t _ _ (relIt_le hrel2)]
  have hstepS : lexShortFlag fuelS sp itS = .ok (Token.shortFlag
      (sliceOf s itS.pos it2S.pos) ⟨sp, it2S.pos⟩, it2S) := by
    simp only [lexShortFlag, heS, okBind, if_neg hzS, h.2.1]
  exact ⟨_, it2B, it2S, hstepB, hstepS, hrel2, hpos2, by intro hz; cases hz⟩

end lexer
namespace lexer

theorem takeDigitsMain_rel (s t : List Char) (base : Base) (sp : Nat) (hsp : sp ≤ s.length) :
    ∀ (fuelB fuelS : Nat) (itB itS : SourceIterator) (buf : List Char),
    relIt s t itB itS →
    s.length - itS.pos + 1 ≤ fuelB → s.length - itS.pos + 1 ≤ fuelS →
    ∃ itB' itS' buf', takeDigitsMain base sp fuelB itB buf = .ok (itB', buf') ∧
      takeDigitsMain base sp fuelS itS buf = .ok (itS', buf') ∧ relIt s t itB' itS' ∧
      itS.pos ≤ itS'.pos ∧
      (isDigitOrUnderscore itS.current base = true → itS.pos < itS'.pos) := by
  intro fuelB
  induction fuelB with
  | zero => intro fuelS itB itS buf h hB hS; omega
  | succ fuelB ih =>
    intro fuelS itB itS buf h hB hS
    cases fuelS with
    | zero => omega
    | succ fuelS =>
      have hcur := relIt_current h
      have hposeq := relIt_pos h
      have hch : charAtD itB.code sp = charAtD s sp := by
        rw [relIt_codeB h]
        exact charAtD_append_nul s t sp hsp
      by_cases hd : isDigitOrUnderscore itB.current base = true
      · have hdS : isDigitOrUnderscore itS.current base = true := by
          rw [← hcur]
          exact hd
        have hne : itB.current ≠ '\x00' := by
          intro hz
          rw [hz, digitOrUnderscore_nul] at hd
          cases hd
        have hltS := relIt_pos_lt h hne
        obtain ⟨hrel1, hnp1⟩ := relIt_next h hne
        have hfB1 : s.length - itS.next.pos + 1 ≤ fuelB := by
          rw [hnp1]
          omega
        have hfS1 : s.length - itS.next.pos + 1 ≤ fuelS := by
          rw [hnp1]
          omega
        obtain ⟨itB', itS', buf', heB, heS, hrel2, hpos2, _⟩ := ih fuelS itB.next itS.next
          (if itS.current ≠ '_' then
            addToBuffer (if buf.isEmpty && sp + 1 == itS.pos then
              addToBuffer buf (charAtD s sp) else buf) itS.current
          else (if buf.isEmpty && sp + 1 == itS.pos then
            addToBuffer buf (charAtD s sp) else buf)) hrel1 hfB1 hfS1
        rw [hnp1] at hpos2
        refine ⟨itB', itS', buf', ?_, ?_, hrel2, by omega, fun _ => by omega⟩
        · simp only [takeDigitsMain, hcur, hposeq, relIt_codeB h,
            charAtD_append_nul s t sp hsp, hdS, if_true]
          exact heB
        · simp only [takeDigitsMain, hdS, if_true, h.2.1]
          exact heS
      · have hdS : ¬(isDigitOrUnderscore itS.current base = true) := by
          rw [← hcur]
          exact hd
        refine ⟨itB, itS, buf, ?_, ?_, h, Nat.le_refl _, fun hx => absurd hx hdS⟩
        · simp only [takeDigitsMain, hd, Bool.false_eq_true, if_false]
        · simp only [takeDigitsMain, hdS, Bool.false_eq_true, if_false]

theorem takeDigits_rel (s t : List Char) (base : Base) :
    ∀ (fuelB fuelS : Nat) (itB itS : SourceIterator) (buf : List Char),
    relIt s t itB itS →
    s.length - itS.pos + 1 ≤ fuelB → s.length - itS.pos + 1 ≤ fuelS →
    ∃ itB' itS' buf', takeDigits base fuelB itB buf = .ok (itB', buf') ∧
      takeDigits base fuelS itS buf = .ok (itS', buf') ∧ relIt s t itB' itS' ∧
      itS.pos ≤ itS'.pos := by
  intro fuelB
  induction fuelB with
  | zero => intro fuelS itB itS buf h hB hS; omega
  | succ fuelB ih =>
    intro fuelS itB itS buf h hB hS
    cases fuelS with
    | zero => omega
    | succ fuelS =>
      have hcur := relIt_current h
      by_cases hd : isDigitOrUnderscore itB.current base = true
      · have hdS : isDigitOrUnderscore itS.current base = true := by
          rw [← hcur]
          exact hd
        have hne : itB.current ≠ '\x00' := by
          intro hz
          rw [hz, digitOrUnderscore_nul] at hd
          cases hd
        have hltS := relIt_pos_lt h hne
        obtain ⟨hrel1, hnp1⟩ := relIt_next h hne
        have hfB1 : s.length - itS.next.pos + 1 ≤ fuelB := by
          rw [hnp1]
          omega
        have hfS1 : s.length - itS.next.pos + 1 ≤ fuelS := by
          rw [hnp1]
          omega
        obtain ⟨itB', itS', buf', heB, heS, hrel2, hpos2⟩ := ih fuelS itB.next itS.next
          (if itS.current ≠ '_' then addToBuffer buf itS.current else buf) hrel1 hfB1 hfS1
        rw [hnp1] at hpos2
        refine ⟨itB', itS', buf', ?_, ?_, hrel2, by omega⟩
        · simp only [takeDigits, hcur, hdS, if_true]
          exact heB
        · simp only [takeDigits, hdS, if_true]
          exact heS
      · have hdS : ¬(isDigitOrUnderscore itS.current base = true) := by
          rw [← hcur]
          exact hd
        refine ⟨itB, itS, buf, ?_, ?_, h, Nat.le_refl _⟩
        · simp only [takeDigits, hd, Bool.false_eq_true, if_false]
        · simp only [takeDigits, hdS, Bool.false_eq_true, if_false]

end lexer
namespace lexer

theorem lexNumberFloatPart_rel (s t : List Char) (fuelB fuelS : Nat) (buf : List Char)
    (itB itS : SourceIterator) (h : relIt s t itB itS)
    (hfB : s.length - itS.pos + 1 ≤ fuelB) (hfS : s.length - itS.pos + 1 ≤ fuelS) :
    ∃ f e buf2 itB' itS', lexNumberFloatPart fuelB buf itB = .ok (f, e, buf2, itB') ∧
      lexNumberFloatPart fuelS buf itS = .ok (f, e, buf2, itS') ∧ relIt s t itB' itS' ∧
      itS.pos ≤ itS'.pos := by
  have hcur := relIt_current h
  have hdoteq : (decide (itB.current = '.') && isAsciiDecDigit itB.peek) =
      (decide (itS.current = '.') && isAsciiDecDigit itS.peek) := by
    rw [hcur]
    by_cases hd0 : itS.current = '.'
    · rw [relIt_peek h (relIt_pos_lt h (by rw [relIt_current h, hd0]; decide))]
    · simp [hd0]
  by_cases hdot : (decide (itS.current = '.') && isAsciiDecDigit itS.peek) = true
  · have hdot2 : itS.current = '.' ∧ isAsciiDecDigit itS.peek = true := by simpa using hdot
    have hneB : itB.current ≠ '\x00' := by
      rw [relIt_current h, hdot2.1]
      decide
    obtain ⟨hrel1, hnp1⟩ := relIt_next h hneB
    have hltS := relIt_pos_lt h hneB
    have hfB1 : s.length - itS.next.pos + 1 ≤ fuelB := by
      rw [hnp1]
      omega
    have hfS1 : s.length - itS.next.pos + 1 ≤ fuelS := by
      rw [hnp1]
      omega
    obtain ⟨it1B, it1S, buf1, heTB, heTS, hrelA, hposA⟩ := takeDigits_rel s t .DEC
      fuelB fuelS itB.next itS.next (addToBuffer buf '.') hrel1 hfB1 hfS1
    rw [hnp1] at hposA
    have hIT1pos : itS.pos ≤ it1S.pos := by omega
    have hcur1 := relIt_current hrelA
    by_cases hee : (decide (it1S.current = 'e') || decide (it1S.current = 'E')) = true
    · have hneE : it1B.current ≠ '\x00' := by
        intro hz
        rw [hcur1] at hz
        rw [hz] at hee
        simp at hee
      have hltE := relIt_pos_lt hrelA hneE
      have hpk : it1B.peek = it1S.peek := relIt_peek hrelA hltE
      obtain ⟨hrelE, hnpE⟩ := relIt_next hrelA hneE
      have hcur2 := relIt_current hrelE
      by_cases hpm : (decide (it1S.next.current = '+') || decide (it1S.next.current = '-')) = true
      · have hnz : it1S.next.current ≠ '\x00' := by
          intro hz
          rw [hz] at hpm
          simp at hpm
        have hne2 : it1B.next.current ≠ '\x00' := by
          rw [hcur2]
          exact hnz
        have hltS2 := relIt_pos_lt hrelE hne2
        rw [hnpE] at hltS2
        have hpk2 : it1B.peek2 = it1S.peek2 := relIt_peek2 hrelA (by omega)
        obtain ⟨hrel2, hnp2⟩ := relIt_next hrelE hne2
        have hfB2 : s.length - it1S.next.next.pos + 1 ≤ fuelB := by
          rw [hnp2, hnpE]
          omega
        have hfS2 : s.length - it1S.next.next.pos + 1 ≤ fuelS := by
          rw [hnp2, hnpE]
          omega
        by_cases hval : (isAsciiDecDigit it1S.peek ||
            (decide (it1S.peek = '+') || decide (it1S.peek = '-')) &&
            isAsciiDecDigit it1S.peek2) = true
        · obtain ⟨it4B, it4S, buf4, he4B, he4S, hrel4, hpos4⟩ := takeDigits_rel s t .DEC
            fuelB fuelS it1B.next.next it1S.next.next
            (addToBuffer (addToBuffer buf1 it1S.current) it1S.next.current) hrel2 hfB2 hfS2
          rw [hnp2, hnpE] at hpos4
          refine ⟨true, true, buf4, it4B, it4S, ?_, ?_, hrel4, by omega⟩
          · simp only [lexNumberFloatPart, hdoteq, if_pos hdot, heTB, okBind, hcur1, hpk, hpk2, hcur2, hee, if_true, hval, hpm, he4B, okBind, Bool.true_or, Bool.or_true, Bool.false_or, Bool.or_false, Bool.true_and, Bool.and_true, Bool.false_and, Bool.and_false]
          · simp only [lexNumberFloatPart, if_pos hdot, heTS, okBind, hee, if_true, hval, hpm, he4S, okBind, Bool.true_or, Bool.or_true, Bool.false_or, Bool.or_false, Bool.true_and, Bool.and_true, Bool.false_and, Bool.and_false]
        · refine ⟨true, false, buf1, it1B, it1S, ?_, ?_, hrelA, hIT1pos⟩
          · simp only [lexNumberFloatPart, hdoteq, if_pos hdot, heTB, okBind, hcur1, hpk, hpk2, hee, if_true, hval, Bool.false_eq_true, if_false, Bool.true_or, Bool.or_true, Bool.false_or, Bool.or_false, Bool.true_and, Bool.and_true, Bool.false_and, Bool.and_false]
          · simp only [lexNumberFloatPart, if_pos hdot, heTS, okBind, hee, if_true, hval, Bool.false_eq_true, if_false, Bool.true_or, Bool.or_true, Bool.false_or, Bool.or_false, Bool.true_and, Bool.and_true, Bool.false_and, Bool.and_false]
      · rw [Bool.not_eq_true] at hpm
        have hpkc : it1S.next.current = it1S.peek := next_current it1S (by
          rw [hrelA.2.1]
          exact hltE)
        have hpm2 : (decide (it1S.peek = '+') || decide (it1S.peek = '-')) = false := by
          rw [← hpkc]
          exact hpm
        by_cases hval : isAsciiDecDigit it1S.peek = true
        · have hfB2 : s.length - it1S.next.pos + 1 ≤ fuelB := by
            rw [hnpE]
            omega
          have hfS2 : s.length - it1S.next.pos + 1 ≤ fuelS := by
            rw [hnpE]
            omega
          obtain ⟨it4B, it4S, buf4, he4B, he4S, hrel4, hpos4⟩ := takeDigits_rel s t .DEC
            fuelB fuelS it1B.next it1S.next (addToBuffer buf1 it1S.current) hrelE hfB2 hfS2
          rw [hnpE] at hpos4
          refine ⟨true, true, buf4, it4B, it4S, ?_, ?_, hrel4, by omega⟩
          · simp only [lexNumberFloatPart, hdoteq, if_pos hdot, heTB, okBind, hcur1, hpk, hcur2, hpm, hpm2, hee, if_true,
              hval, Bool.false_eq_true, if_false, he4B, okBind, Bool.true_or, Bool.or_true, Bool.false_or, Bool.or_false, Bool.true_and, Bool.and_true, Bool.false_and, Bool.and_false]
          · simp only [lexNumberFloatPart, if_pos hdot, heTS, okBind, hee, if_true, hpm, hpm2, hval,
              Bool.false_eq_true, if_false, he4S, okBind, Bool.true_or, Bool.or_true, Bool.false_or, Bool.or_false, Bool.true_and, Bool.and_true, Bool.false_and, Bool.and_false]
        · rw [Bool.not_eq_true] at hval
          refine ⟨true, false, buf1, it1B, it1S, ?_, ?_, hrelA, hIT1pos⟩
          · simp only [lexNumberFloatPart, hdoteq, if_pos hdot, heTB, okBind, hcur1, hpk, hee, if_true, hpm, hpm2,
              hval, Bool.false_eq_true, if_false, Bool.true_or, Bool.or_true, Bool.false_or, Bool.or_false, Bool.true_and, Bool.and_true, Bool.false_and, Bool.and_false]
          · simp only [lexNumberFloatPart, if_pos hdot, heTS, okBind, hee, if_true, hpm, hpm2, hval,
              Bool.false_eq_true, if_false, Bool.true_or, Bool.or_true, Bool.false_or, Bool.or_false, Bool.true_and, Bool.and_true, Bool.false_and, Bool.and_false]
    · refine ⟨true, false, buf1, it1B, it1S, ?_, ?_, hrelA, hIT1pos⟩
      · simp only [lexNumberFloatPart, hdoteq, if_pos hdot, heTB, okBind, hcur1, hee, Bool.false_eq_true, if_false, Bool.true_or, Bool.or_true, Bool.false_or, Bool.or_false, Bool.true_and, Bool.and_true, Bool.false_and, Bool.and_false]
      · simp only [lexNumberFloatPart, if_pos hdot, heTS, okBind, hee, Bool.false_eq_true, if_false, Bool.true_or, Bool.or_true, Bool.false_or, Bool.or_false, Bool.true_and, Bool.and_true, Bool.false_and, Bool.and_false]
  · have hIT1pos : itS.pos ≤ itS.pos := Nat.le_refl _
    have hcur1 := relIt_current h
    by_cases hee : (decide (itS.current = 'e') || decide (itS.current = 'E')) = true
    · have hneE : itB.current ≠ '\x00' := by
        intro hz
        rw [hcur1] at hz
        rw [hz] at hee
        simp at hee
      have hltE := relIt_pos_lt h hneE
      have hpk : itB.peek = itS.peek := relIt_peek h hltE
      obtain ⟨hrelE, hnpE⟩ := relIt_next h hneE
      have hcur2 := relIt_current hrelE
      by_cases hpm : (decide (itS.next.current = '+') || decide (itS.next.current = '-')) = true
      · have hnz : itS.next.current ≠ '\x00' := by
          intro hz
          rw [hz] at hpm
          simp at hpm
        have hne2 : itB.next.current ≠ '\x00' := by
          rw [hcur2]
          exact hnz
        have hltS2 := relIt_pos_lt hrelE hne2
        rw [hnpE] at hltS2
        have hpk2 : itB.peek2 = itS.peek2 := relIt_peek2 h (by omega)
        obtain ⟨hrel2, hnp2⟩ := relIt_next hrelE hne2
        have hfB2 : s.length - itS.next.next.pos + 1 ≤ fuelB := by
          rw [hnp2, hnpE]
          omega
        have hfS2 : s.length - itS.next.next.pos + 1 ≤ fuelS := by
          rw [hnp2, hnpE]
          omega
        by_cases hval : (isAsciiDecDigit itS.peek ||
            (decide (itS.peek = '+') || decide (itS.peek = '-')) &&
            isAsciiDecDigit itS.peek2) = true
        · obtain ⟨it4B, it4S, buf4, he4B, he4S, hrel4, hpos4⟩ := takeDigits_rel s t .DEC
            fuelB fuelS itB.next.next itS.next.next
            (addToBuffer (addToBuffer buf itS.current) itS.next.current) hrel2 hfB2 hfS2
          rw [hnp2, hnpE] at hpos4
          refine ⟨true, true, buf4, it4B, it4S, ?_, ?_, hrel4, by omega⟩
          · simp only [lexNumberFloatPart, hdoteq, if_neg hdot, okBind]
            simp only [hcur1, hpk, hpk2, hcur2, hee, if_true, hval, hpm, he4B, okBind, Bool.true_or, Bool.or_true, Bool.false_or, Bool.or_false, Bool.true_and, Bool.and_true, Bool.false_and, Bool.and_false]
          · simp only [lexNumberFloatPart, if_neg hdot, okBind]
            simp only [hee, if_true, hval, hpm, he4S, okBind, Bool.true_or, Bool.or_true, Bool.false_or, Bool.or_false, Bool.true_and, Bool.and_true, Bool.false_and, Bool.and_false]
        · refine ⟨false, false, buf, itB, itS, ?_, ?_, h, hIT1pos⟩
          · simp only [lexNumberFloatPart, hdoteq, if_neg hdot, okBind]
            simp only [hcur1, hpk, hpk2, hee, if_true, hval, Bool.false_eq_true, if_false, Bool.true_or, Bool.or_true, Bool.false_or, Bool.or_false, Bool.true_and, Bool.and_true, Bool.false_and, Bool.and_false]
          · simp only [lexNumberFloatPart, if_neg hdot, okBind]
            simp only [hee, if_true, hval, Bool.false_eq_true, if_false, Bool.true_or, Bool.or_true, Bool.false_or, Bool.or_false, Bool.true_and, Bool.and_true, Bool.false_and, Bool.and_false]
      · rw [Bool.not_eq_true] at hpm
        have hpkc : itS.next.current = itS.peek := next_current itS (by
          rw [h.2.1]
          exact hltE)
        have hpm2 : (decide (itS.peek = '+') || decide (itS.peek = '-')) = false := by
          rw [← hpkc]
          exact hpm
        by_cases hval : isAsciiDecDigit itS.peek = true
        · have hfB2 : s.length - itS.next.pos + 1 ≤ fuelB := by
            rw [hnpE]
            omega
          have hfS2 : s.length - itS.next.pos + 1 ≤ fuelS := by
            rw [hnpE]
            omega
          obtain ⟨it4B, it4S, buf4, he4B, he4S, hrel4, hpos4⟩ := takeDigits_rel s t .DEC
            fuelB fuelS itB.next itS.next (addToBuffer buf itS.current) hrelE hfB2 hfS2
          rw [hnpE] at hpos4
          refine ⟨true, true, buf4, it4B, it4S, ?_, ?_, hrel4, by omega⟩
          · simp only [lexNumberFloatPart, hdoteq, if_neg hdot, okBind]
            simp only [hcur1, hpk, hcur2, hpm, hpm2, hee, if_true,
              hval, Bool.false_eq_true, if_false, he4B, okBind, Bool.true_or, Bool.or_true, Bool.false_or, Bool.or_false, Bool.true_and, Bool.and_true, Bool.false_and, Bool.and_false]
          · simp only [lexNumberFloatPart, if_neg hdot, okBind]
            simp only [hee, if_true, hpm, hpm2, hval,
              Bool.false_eq_true, if_false, he4S, okBind, Bool.true_or, Bool.or_true, Bool.false_or, Bool.or_false, Bool.true_and, Bool.and_true, Bool.false_and, Bool.and_false]
        · refine ⟨false, false, buf, itB, itS, ?_, ?_, h, hIT1pos⟩
          · simp only [lexNumberFloatPart, hdoteq, if_neg hdot, okBind]
            simp only [hcur1, hpk, hee, if_true, hpm, hpm2,
              hval, Bool.false_eq_true, if_false, Bool.true_or, Bool.or_true, Bool.false_or, Bool.or_false, Bool.true_and, Bool.and_true, Bool.false_and, Bool.and_false]
          · simp only [lexNumberFloatPart, if_neg hdot, okBind]
            simp only [hee, if_true, hpm, hpm2, hval,
              Bool.false_eq_true, if_false, Bool.true_or, Bool.or_true, Bool.false_or, Bool.or_false, Bool.true_and, Bool.and_true, Bool.false_and, Bool.and_false]
    · refine ⟨false, false, buf, itB, itS, ?_, ?_, h, hIT1pos⟩
      · simp only [lexNumberFloatPart, hdoteq, if_neg hdot, okBind]
        simp only [hcur1, hee, Bool.false_eq_true, if_false, Bool.true_or, Bool.or_true, Bool.false_or, Bool.or_false, Bool.true_and, Bool.and_true, Bool.false_and, Bool.and_false]
      · simp only [lexNumberFloatPart, if_neg hdot, okBind]
        simp only [hee, Bool.false_eq_true, if_false, Bool.true_or, Bool.or_true, Bool.false_or, Bool.or_false, Bool.true_and, Bool.and_true, Bool.false_and, Bool.and_false]

end lexer
namespace lexer

theorem finishNumber_rel (s t : List Char) (sl : Location) (sp : Nat) (base : Base)
    (f e : Bool) (buf : List Char) (itB itS : SourceIterator) (h : relIt s t itB itS) :
    (∃ tok, finishNumber sl sp base f e buf itB = .ok (tok, itB) ∧
      finishNumber sl sp base f e buf itS = .ok (tok, itS) ∧
      tok.getKind ≠ TokenKind.TOK_EOF) ∨
    (∃ er, finishNumber sl sp base f e buf itB = .error (.err er) ∧
      finishNumber sl sp base f e buf itS = .error (.err er)) := by
  have hloc : itB.getLocation = itS.getLocation := relIt_loc h
  have hpos : itB.pos = itS.pos := relIt_pos h
  by_cases h1 : base = Base.HEX ∧ buf.length ≤ 2
  · right
    refine ⟨LexError.incompleteInt itS.getLocation, ?_, ?_⟩
    · simp only [finishNumber, if_pos h1, hloc]
      rfl
    · simp only [finishNumber, if_pos h1]
      rfl
  · by_cases h2 : base = Base.BIN ∧ buf.length ≤ 2
    · right
      refine ⟨LexError.incompleteInt itS.getLocation, ?_, ?_⟩
      · simp only [finishNumber, if_neg h1, if_pos h2, hloc]
        rfl
      · simp only [finishNumber, if_neg h1, if_pos h2]
        rfl
    · by_cases hf : f = true
      · rcases hsd : strtodM buf with ⟨v, cns⟩
        by_cases hov : strtodOverflow v = true
        · right
          refine ⟨LexError.floatOutOfRange itS.getLocation, ?_, ?_⟩
          · simp only [finishNumber, if_neg h1, if_neg h2, hf, if_true, hsd, hov, hloc]
            rfl
          · simp only [finishNumber, if_neg h1, if_neg h2, hf, if_true, hsd, hov]
            rfl
        · by_cases hcn : cns = buf.length
          · left
            refine ⟨Token.floatLit v e ⟨sp, itS.pos⟩, ?_, ?_, by intro hz; cases hz⟩
            · simp only [finishNumber, if_neg h1, if_neg h2, hf, if_true, hsd, hov,
                Bool.false_eq_true, if_false, ne_eq, hcn, not_true_eq_false, hpos]
            · simp only [finishNumber, if_neg h1, if_neg h2, hf, if_true, hsd, hov,
                Bool.false_eq_true, if_false, ne_eq, hcn, not_true_eq_false]
          · right
            refine ⟨LexError.invalidFloat sl, ?_, ?_⟩
            · simp only [finishNumber, if_neg h1, if_neg h2, hf, if_true, hsd, hov,
                Bool.false_eq_true, if_false, ne_eq, hcn, not_false_eq_true]
              rfl
            · simp only [finishNumber, if_neg h1, if_neg h2, hf, if_true, hsd, hov,
                Bool.false_eq_true, if_false, ne_eq, hcn, not_false_eq_true]
              rfl
      · by_cases hde : (if base = Base.HEX ∨ base = Base.BIN then buf.drop 2
            else buf).isEmpty = true
        · right
          refine ⟨LexError.incompleteInt sl, ?_, ?_⟩
          · simp only [finishNumber, if_neg h1, if_neg h2, hf, Bool.false_eq_true,
              if_false, hde, if_true]
            rfl
          · simp only [finishNumber, if_neg h1, if_neg h2, hf, Bool.false_eq_true,
              if_false, hde, if_true]
            rfl
        · rcases hsl2 : strtollM (if base = Base.HEX ∨ base = Base.BIN then buf.drop 2
              else buf) base with ⟨v, cns, ovf⟩
          by_cases hov : ovf = true
          · right
            refine ⟨LexError.intOutOfRange itS.getLocation, ?_, ?_⟩
            · simp only [finishNumber, if_neg h1, if_neg h2, hf, Bool.false_eq_true,
                if_false, hde, hsl2, hov, if_true, hloc]
              rfl
            · simp only [finishNumber, if_neg h1, if_neg h2, hf, Bool.false_eq_true,
                if_false, hde, hsl2, hov, if_true]
              rfl
          · by_cases hcn : cns = (if base = Base.HEX ∨ base = Base.BIN then buf.drop 2
                else buf).length
            · left
              refine ⟨Token.intLit v base ⟨sp, itS.pos⟩, ?_, ?_, by intro hz; cases hz⟩
              · simp only [finishNumber, if_neg h1, if_neg h2, hf, Bool.false_eq_true,
                  if_false, hde, hsl2, hov, ne_eq, hcn, not_true_eq_false, hpos]
              · simp only [finishNumber, if_neg h1, if_neg h2, hf, Bool.false_eq_true,
                  if_false, hde, hsl2, hov, ne_eq, hcn, not_true_eq_false]
            · right
              refine ⟨LexError.incompleteInt sl, ?_, ?_⟩
              · simp only [finishNumber, if_neg h1, if_neg h2, hf, Bool.false_eq_true,
                  if_false, hde, hsl2, hov, ne_eq, hcn, not_false_eq_true, if_true]
                rfl
              · simp only [finishNumber, if_neg h1, if_neg h2, hf, Bool.false_eq_true,
                  if_false, hde, hsl2, hov, ne_eq, hcn, not_false_eq_true, if_true]
                rfl

end lexer
namespace lexer

theorem lexNumber_rel (s t : List Char) (fuelB fuelS : Nat) (itB itS : SourceIterator)
    (h : relIt s t itB itS) (hdig : isAsciiDecDigit itB.current = true)
    (hfB : s.length - itS.pos + 1 ≤ fuelB) (hfS : s.length - itS.pos + 1 ≤ fuelS) :
    (∃ tok itB' itS', lexNumber fuelB itB = .ok (tok, itB') ∧
      lexNumber fuelS itS = .ok (tok, itS') ∧ relIt s t itB' itS' ∧
      itS.pos < itS'.pos ∧ tok.getKind ≠ TokenKind.TOK_EOF) ∨
    (∃ e, lexNumber fuelB itB = .error (.err e) ∧ lexNumber fuelS itS = .error (.err e)) := by
  have hcur := relIt_current h
  have hne0 : itB.current ≠ '\x00' := by
    intro hz
    rw [hz] at hdig
    exact absurd hdig (by decide)
  have hltS := relIt_pos_lt h hne0
  obtain ⟨hrelA, hnpA⟩ := relIt_next h hne0
  have hcurA := relIt_current hrelA
  by_cases h0 : itS.current = '0'
  · have h0B : itB.current = '0' := by
      rw [hcur]
      exact h0
    have h0S : itS.current = '0' := h0
    by_cases hx : (itS.next.current = 'x' || itS.next.current = 'X') = true
    · -- hexadecimal prefix
      have hneA : itB.next.current ≠ '\x00' := by
        rw [hcurA]
        intro hz
        rw [hz] at hx
        simp at hx
      have hltA := relIt_pos_lt hrelA hneA
      obtain ⟨hrelB2, hnpB2⟩ := relIt_next hrelA hneA
      have hcurB2 := relIt_current hrelB2
      by_cases hhd : (!isAsciiHexDigit itS.next.next.current) = true
      · right
        refine ⟨LexError.incompleteInt itS.next.next.getLocation, ?_, ?_⟩
        · simp only [lexNumber, if_pos h0B, hcurA, hx, if_true, hcurB2, hhd,
            relIt_loc hrelB2, throwLex, errBind, Bool.false_eq_true, if_false]
        · simp only [lexNumber, if_pos h0S, hx, if_true, hhd, throwLex, errBind,
            Bool.false_eq_true, if_false]
      · have hfB2 : s.length - itS.next.next.pos + 1 ≤ fuelB := by
          rw [hnpB2, hnpA]
          omega
        have hfS2 : s.length - itS.next.next.pos + 1 ≤ fuelS := by
          rw [hnpB2, hnpA]
          omega
        obtain ⟨it2B, it2S, buf1, heMB, heMS, hrel2, hpM, _⟩ := takeDigitsMain_rel s t
          Base.HEX itS.pos (relIt_le h) fuelB fuelS itB.next.next itS.next.next
          (addToBuffer (addToBuffer [] '0') itS.next.current) hrelB2 hfB2 hfS2
        rw [hnpB2, hnpA] at hpM
        have hcur2 := relIt_current hrel2
        by_cases ht : (it2S.current = '.' || it2S.current = 'e' || it2S.current = 'E') = true
        · right
          refine ⟨LexError.invalidChar it2S.getLocation, ?_, ?_⟩
          · simp only [lexNumber, if_pos h0B, hcurA, hx, if_true, hcurB2, hhd,
              Bool.false_eq_true, if_false, relIt_pos h, heMB, okBind, hcur2, ht,
              relIt_loc hrel2, throwLex, errBind, if_true, baseHexDec, baseBinDec]
          · simp only [lexNumber, if_pos h0S, hx, if_true, hhd, Bool.false_eq_true,
              if_false, heMS, okBind, ht, throwLex, errBind, if_true, baseHexDec, baseBinDec]
        · rcases finishNumber_rel s t itS.getLocation itS.pos Base.HEX false false
              (if buf1.isEmpty && itS.pos + 1 == it2S.pos then
                addToBuffer buf1 (charAtD s itS.pos) else buf1) it2B it2S hrel2 with
              ⟨tok, hfinB, hfinS, hkind⟩ | ⟨er, hfinB, hfinS⟩
          · left
            refine ⟨tok, it2B, it2S, ?_, ?_, hrel2, by omega, hkind⟩
            · simp only [lexNumber, if_pos h0B, hcurA, hx, if_true, hcurB2, hhd,
                Bool.false_eq_true, if_false, relIt_pos h, heMB, okBind, hcur2, ht,
                relIt_loc h, relIt_pos hrel2, relIt_codeB hrel2,
                charAtD_append_nul s t itS.pos (relIt_le h), hfinB, baseHexDec, baseBinDec]
            · simp only [lexNumber, if_pos h0S, hx, if_true, hhd, Bool.false_eq_true,
                if_false, heMS, okBind, ht, hrel2.2.1, hfinS, baseHexDec, baseBinDec]
          · right
            refine ⟨er, ?_, ?_⟩
            · simp only [lexNumber, if_pos h0B, hcurA, hx, if_true, hcurB2, hhd,
                Bool.false_eq_true, if_false, relIt_pos h, heMB, okBind, hcur2, ht,
                relIt_loc h, relIt_pos hrel2, relIt_codeB hrel2,
                charAtD_append_nul s t itS.pos (relIt_le h), hfinB, baseHexDec, baseBinDec]
            · simp only [lexNumber, if_pos h0S, hx, if_true, hhd, Bool.false_eq_true,
                if_false, heMS, okBind, ht, hrel2.2.1, hfinS, baseHexDec, baseBinDec]
    · by_cases hbb : (itS.next.current = 'b' || itS.next.current = 'B') = true
      · -- binary prefix
        have hneA : itB.next.current ≠ '\x00' := by
          rw [hcurA]
          intro hz
          rw [hz] at hbb
          simp at hbb
        have hltA := relIt_pos_lt hrelA hneA
        obtain ⟨hrelB2, hnpB2⟩ := relIt_next hrelA hneA
        have hcurB2 := relIt_current hrelB2
        by_cases hhd : (!isAsciiBinDigit itS.next.next.current) = true
        · right
          refine ⟨LexError.incompleteInt itS.next.next.getLocation, ?_, ?_⟩
          · simp only [lexNumber, if_pos h0B, hcurA, hx, hbb, if_true, hcurB2, hhd,
              relIt_loc hrelB2, throwLex, errBind, Bool.false_eq_true, if_false]
          · simp only [lexNumber, if_pos h0S, hx, hbb, if_true, hhd, throwLex, errBind,
              Bool.false_eq_true, if_false]
        · have hfB2 : s.length - itS.next.next.pos + 1 ≤ fuelB := by
            rw [hnpB2, hnpA]
            omega
          have hfS2 : s.length - itS.next.next.pos + 1 ≤ fuelS := by
            rw [hnpB2, hnpA]
            omega
          obtain ⟨it2B, it2S, buf1, heMB, heMS, hrel2, hpM, _⟩ := takeDigitsMain_rel s t
            Base.BIN itS.pos (relIt_le h) fuelB fuelS itB.next.next itS.next.next
            (addToBuffer (addToBuffer [] '0') itS.next.current) hrelB2 hfB2 hfS2
          rw [hnpB2, hnpA] at hpM
          have hcur2 := relIt_current hrel2
          by_cases ht : (it2S.current = '.' || it2S.current = 'e' || it2S.current = 'E') = true
          · right
            refine ⟨LexError.invalidChar it2S.getLocation, ?_, ?_⟩
            · simp only [lexNumber, if_pos h0B, hcurA, hx, hbb, if_true, hcurB2, hhd,
                Bool.false_eq_true, if_false, relIt_pos h, heMB, okBind, hcur2, ht,
                relIt_loc hrel2, throwLex, errBind, if_true, baseHexDec, baseBinDec]
            · simp only [lexNumber, if_pos h0S, hx, hbb, if_true, hhd, Bool.false_eq_true,
                if_false, heMS, okBind, ht, throwLex, errBind, if_true, baseHexDec, baseBinDec]
          · rcases finishNumber_rel s t itS.getLocation itS.pos Base.BIN false false
                (if buf1.isEmpty && itS.pos + 1 == it2S.pos then
                  addToBuffer buf1 (charAtD s itS.pos) else buf1) it2B it2S hrel2 with
                ⟨tok, hfinB, hfinS, hkind⟩ | ⟨er, hfinB, hfinS⟩
            · left
              refine ⟨tok, it2B, it2S, ?_, ?_, hrel2, by omega, hkind⟩
              · simp only [lexNumber, if_pos h0B, hcurA, hx, hbb, if_true, hcurB2, hhd,
                  Bool.false_eq_true, if_false, relIt_pos h, heMB, okBind, hcur2, ht,
                  relIt_loc h, relIt_pos hrel2, relIt_codeB hrel2,
                  charAtD_append_nul s t itS.pos (relIt_le h), hfinB, baseHexDec, baseBinDec]
              · simp only [lexNumber, if_pos h0S, hx, hbb, if_true, hhd, Bool.false_eq_true,
                  if_false, heMS, okBind, ht, hrel2.2.1, hfinS, baseHexDec, baseBinDec]
            · right
              refine ⟨er, ?_, ?_⟩
              · simp only [lexNumber, if_pos h0B, hcurA, hx, hbb, if_true, hcurB2, hhd,
                  Bool.false_eq_true, if_false, relIt_pos h, heMB, okBind, hcur2, ht,
                  relIt_loc h, relIt_pos hrel2, relIt_codeB hrel2,
                  charAtD_append_nul s t itS.pos (relIt_le h), hfinB, baseHexDec, baseBinDec]
              · simp only [lexNumber, if_pos h0S, hx, hbb, if_true, hhd, Bool.false_eq_true,
                  if_false, heMS, okBind, ht, hrel2.2.1, hfinS, baseHexDec, baseBinDec]
      · by_cases hearly : (!isAsciiDecDigit itS.next.current && itS.next.current ≠ '.' &&
            itS.next.current ≠ 'e' && itS.next.current ≠ 'E') = true
        · left
          refine ⟨Token.intLit 0 Base.DEC ⟨itS.pos, itS.next.pos⟩, itB.next, itS.next,
            ?_, ?_, hrelA, by omega, by intro hz; cases hz⟩
          · simp only [lexNumber, if_pos h0B, hcurA, hx, hbb, Bool.false_eq_true, if_false,
              hearly, if_true, okBind, relIt_pos h, relIt_pos hrelA]
          · simp only [lexNumber, if_pos h0S, hx, hbb, Bool.false_eq_true, if_false,
              hearly, if_true, okBind]
        · have hrelM := hrelA
          have hfBM : s.length - itS.next.pos + 1 ≤ fuelB := by
            rw [hnpA]
            omega
          have hfSM : s.length - itS.next.pos + 1 ≤ fuelS := by
            rw [hnpA]
            omega
          obtain ⟨it2B, it2S, buf1, heMB, heMS, hrel2, hpM, hstrictM⟩ := takeDigitsMain_rel s t
            Base.DEC itS.pos (relIt_le h) fuelB fuelS itB.next itS.next (addToBuffer [] '0') hrelM hfBM hfSM
          have hcur2 := relIt_current hrel2
          have hlt2 : itS.pos < it2S.pos := by
            have hx2 := hpM
            rw [hnpA] at hx2
            omega
          have hfBF : s.length - it2S.pos + 1 ≤ fuelB := by omega
          have hfSF : s.length - it2S.pos + 1 ≤ fuelS := by omega
          obtain ⟨ff, fe, buf2, it3B, it3S, heFB, heFS, hrel3, hpF⟩ := lexNumberFloatPart_rel s t
            fuelB fuelS
            (if buf1.isEmpty && itS.pos + 1 == it2S.pos then
              addToBuffer buf1 (charAtD s itS.pos) else buf1) it2B it2S hrel2 hfBF hfSF
          rcases finishNumber_rel s t itS.getLocation itS.pos Base.DEC ff fe buf2 it3B it3S hrel3 with
              ⟨tok, hfinB, hfinS, hkind⟩ | ⟨er, hfinB, hfinS⟩
          · left
            refine ⟨tok, it3B, it3S, ?_, ?_, hrel3, by omega, hkind⟩
            · simp only [lexNumber, if_pos h0B, hcurA, hx, hbb, Bool.false_eq_true, if_false, hearly, relIt_pos h, heMB, okBind, relIt_loc h, relIt_pos hrel2,
                relIt_codeB hrel2, charAtD_append_nul s t itS.pos (relIt_le h), heFB, hfinB,
                baseDecDec, if_true]
            · simp only [lexNumber, if_pos h0S, hx, hbb, Bool.false_eq_true, if_false, hearly, heMS, okBind, hrel2.2.1, heFS, hfinS, baseDecDec, if_true]
          · right
            refine ⟨er, ?_, ?_⟩
            · simp only [lexNumber, if_pos h0B, hcurA, hx, hbb, Bool.false_eq_true, if_false, hearly, relIt_pos h, heMB, okBind, relIt_loc h, relIt_pos hrel2,
                relIt_codeB hrel2, charAtD_append_nul s t itS.pos (relIt_le h), heFB, hfinB,
                baseDecDec, if_true]
            · simp only [lexNumber, if_pos h0S, hx, hbb, Bool.false_eq_true, if_false, hearly, heMS, okBind, hrel2.2.1, heFS, hfinS, baseDecDec, if_true]
  · have h0B : ¬(itB.current = '0') := by
      rw [hcur]
      exact h0
    have hrelM := h
    have hfBM : s.length - itS.pos + 1 ≤ fuelB := hfB
    have hfSM : s.length - itS.pos + 1 ≤ fuelS := hfS
    have hdu : isDigitOrUnderscore itS.current Base.DEC = true := by
      simp only [isDigitOrUnderscore]
      split
      · rfl
      · rw [← hcur]
        exact hdig
    obtain ⟨it2B, it2S, buf1, heMB, heMS, hrel2, hpM, hstrictM⟩ := takeDigitsMain_rel s t
      Base.DEC itS.pos (relIt_le h) fuelB fuelS itB itS [] hrelM hfBM hfSM
    have hcur2 := relIt_current hrel2
    have hlt2 : itS.pos < it2S.pos := by
      exact hstrictM hdu
    have hfBF : s.length - it2S.pos + 1 ≤ fuelB := by omega
    have hfSF : s.length - it2S.pos + 1 ≤ fuelS := by omega
    obtain ⟨ff, fe, buf2, it3B, it3S, heFB, heFS, hrel3, hpF⟩ := lexNumberFloatPart_rel s t
      fuelB fuelS
      (if buf1.isEmpty && itS.pos + 1 == it2S.pos then
        addToBuffer buf1 (charAtD s itS.pos) else buf1) it2B it2S hrel2 hfBF hfSF
    rcases finishNumber_rel s t itS.getLocation itS.pos Base.DEC ff fe buf2 it3B it3S hrel3 with
        ⟨tok, hfinB, hfinS, hkind⟩ | ⟨er, hfinB, hfinS⟩
    · left
      refine ⟨tok, it3B, it3S, ?_, ?_, hrel3, by omega, hkind⟩
      · simp only [lexNumber, if_neg h0B, Bool.false_eq_true, if_false, relIt_pos h, heMB, okBind, relIt_loc h, relIt_pos hrel2,
          relIt_codeB hrel2, charAtD_append_nul s t itS.pos (relIt_le h), heFB, hfinB,
          baseDecDec, if_true]
      · simp only [lexNumber, if_neg h0, Bool.false_eq_true, if_false, heMS, okBind, hrel2.2.1, heFS, hfinS, baseDecDec, if_true]
    · right
      refine ⟨er, ?_, ?_⟩
      · simp only [lexNumber, if_neg h0B, Bool.false_eq_true, if_false, relIt_pos h, heMB, okBind, relIt_loc h, relIt_pos hrel2,
          relIt_codeB hrel2, charAtD_append_nul s t itS.pos (relIt_le h), heFB, hfinB,
          baseDecDec, if_true]
      · simp only [lexNumber, if_neg h0, Bool.false_eq_true, if_false, heMS, okBind, hrel2.2.1, heFS, hfinS, baseDecDec, if_true]

end lexer
namespace lexer

theorem nextToken_rel (s t : List Char) (fuelB fuelS : Nat) (itB itS : SourceIterator)
    (h : relIt s t itB itS)
    (hfB : s.length - itS.pos + 1 ≤ fuelB) (hfS : s.length - itS.pos + 1 ≤ fuelS) :
    (∃ tok itB2 itS2, nextToken fuelB itB = .ok (tok, itB2) ∧
      nextToken fuelS itS = .ok (tok, itS2) ∧ relIt s t itB2 itS2 ∧
      ((tok = Token.simple TokenKind.TOK_EOF ⟨itS.pos, itS.pos⟩ ∧ itB2 = itB ∧
          itS2 = itS ∧ itS.current = '\x00') ∨
        (tok.getKind ≠ TokenKind.TOK_EOF ∧ itS.pos < itS2.pos ∧ itS.pos < s.length))) ∨
    (∃ e, nextToken fuelB itB = .error (.err e) ∧ nextToken fuelS itS = .error (.err e)) := by
  have hcur := relIt_current h
  by_cases h00 : itS.current = '\x00'
  · have h00B : itB.current = '\x00' := by rw [hcur]; exact h00
    left
    refine ⟨Token.simple TokenKind.TOK_EOF ⟨itS.pos, itS.pos⟩, itB, itS, ?_, ?_, h,
      Or.inl ⟨rfl, rfl, rfl, h00⟩⟩
    · simp only [nextToken, if_pos h00B, relIt_pos h]
    · simp only [nextToken, if_pos h00]
  · have h00B : ¬(itB.current = '\x00') := by rw [hcur]; exact h00
    have hne : itB.current ≠ '\x00' := h00B
    have hltS := relIt_pos_lt h hne
    obtain ⟨hrelN, hnpN⟩ := relIt_next h hne
    have hcurN := relIt_current hrelN
    by_cases hplus : itS.current = '+'
    · have hplusB : itB.current = '+' := by rw [hcur]; exact hplus
      left
      refine ⟨Token.simple TokenKind.TOK_PLUS ⟨itS.pos, itS.next.pos⟩, itB.next, itS.next,
        ?_, ?_, hrelN, Or.inr ⟨(by intro hz; cases hz), by omega, hltS⟩⟩
      · simp only [nextToken, if_neg h00B, if_pos hplusB, relIt_pos h, relIt_pos hrelN]
      · simp only [nextToken, if_neg h00, if_pos hplus]
    · have hplusB : ¬(itB.current = '+') := by rw [hcur]; exact hplus
      by_cases htimes : itS.current = '*'
      · have htimesB : itB.current = '*' := by rw [hcur]; exact htimes
        left
        refine ⟨Token.simple TokenKind.TOK_TIMES ⟨itS.pos, itS.next.pos⟩, itB.next, itS.next,
          ?_, ?_, hrelN, Or.inr ⟨(by intro hz; cases hz), by omega, hltS⟩⟩
        · simp only [nextToken, if_neg h00B, if_neg hplusB, if_pos htimesB, relIt_pos h, relIt_pos hrelN]
        · simp only [nextToken, if_neg h00, if_neg hplus, if_pos htimes]
      · have htimesB : ¬(itB.current = '*') := by rw [hcur]; exact htimes
        by_cases hmod : itS.current = '%'
        · have hmodB : itB.current = '%' := by rw [hcur]; exact hmod
          left
          refine ⟨Token.simple TokenKind.TOK_MODULO ⟨itS.pos, itS.next.pos⟩, itB.next, itS.next,
            ?_, ?_, hrelN, Or.inr ⟨(by intro hz; cases hz), by omega, hltS⟩⟩
          · simp only [nextToken, if_neg h00B, if_neg hplusB, if_neg htimesB, if_pos hmodB, relIt_pos h, relIt_pos hrelN]
          · simp only [nextToken, if_neg h00, if_neg hplus, if_neg htimes, if_pos hmod]
        · have hmodB : ¬(itB.current = '%') := by rw [hcur]; exact hmod
          by_cases hlp : itS.current = '('
          · have hlpB : itB.current = '(' := by rw [hcur]; exact hlp
            left
            refine ⟨Token.simple TokenKind.TOK_LPAREN ⟨itS.pos, itS.next.pos⟩, itB.next, itS.next,
              ?_, ?_, hrelN, Or.inr ⟨(by intro hz; cases hz), by omega, hltS⟩⟩
            · simp only [nextToken, if_neg h00B, if_neg hplusB, if_neg htimesB, if_neg hmodB, if_pos hlpB, relIt_pos h, relIt_pos hrelN]
            · simp only [nextToken, if_neg h00, if_neg hplus, if_neg htimes, if_neg hmod, if_pos hlp]
          · have hlpB : ¬(itB.current = '(') := by rw [hcur]; exact hlp
            by_cases hrp : itS.current = ')'
            · have hrpB : itB.current = ')' := by rw [hcur]; exact hrp
              left
              refine ⟨Token.simple TokenKind.TOK_RPAREN ⟨itS.pos, itS.next.pos⟩, itB.next, itS.next,
                ?_, ?_, hrelN, Or.inr ⟨(by intro hz; cases hz), by omega, hltS⟩⟩
              · simp only [nextToken, if_neg h00B, if_neg hplusB, if_neg htimesB, if_neg hmodB, if_neg hlpB, if_pos hrpB, relIt_pos h, relIt_pos hrelN]
              · simp only [nextToken, if_neg h00, if_neg hplus, if_neg htimes, if_neg hmod, if_neg hlp, if_pos hrp]
            · have hrpB : ¬(itB.current = ')') := by rw [hcur]; exact hrp
              by_cases hlb : itS.current = '\x7b'
              · have hlbB : itB.current = '\x7b' := by rw [hcur]; exact hlb
                left
                refine ⟨Token.simple TokenKind.TOK_LBRACE ⟨itS.pos, itS.next.pos⟩, itB.next, itS.next,
                  ?_, ?_, hrelN, Or.inr ⟨(by intro hz; cases hz), by omega, hltS⟩⟩
                · simp only [nextToken, if_neg h00B, if_neg hplusB, if_neg htimesB, if_neg hmodB, if_neg hlpB, if_neg hrpB, if_pos hlbB, relIt_pos h, relIt_pos hrelN]
                · simp only [nextToken, if_neg h00, if_neg hplus, if_neg htimes, if_neg hmod, if_neg hlp, if_neg hrp, if_pos hlb]
              · have hlbB : ¬(itB.current = '\x7b') := by rw [hcur]; exact hlb
                by_cases hrb : itS.current = '\x7d'
                · have hrbB : itB.current = '\x7d' := by rw [hcur]; exact hrb
                  left
                  refine ⟨Token.simple TokenKind.TOK_RBRACE ⟨itS.pos, itS.next.pos⟩, itB.next, itS.next,
                    ?_, ?_, hrelN, Or.inr ⟨(by intro hz; cases hz), by omega, hltS⟩⟩
                  · simp only [nextToken, if_neg h00B, if_neg hplusB, if_neg htimesB, if_neg hmodB, if_neg hlpB, if_neg hrpB, if_neg hlbB, if_pos hrbB, relIt_pos h, relIt_pos hrelN]
                  · simp only [nextToken, if_neg h00, if_neg hplus, if_neg htimes, if_neg hmod, if_neg hlp, if_neg hrp, if_neg hlb, if_pos hrb]
                · have hrbB : ¬(itB.current = '\x7d') := by rw [hcur]; exact hrb
                  by_cases hlk : itS.current = '['
                  · have hlkB : itB.current = '[' := by rw [hcur]; exact hlk
                    left
                    refine ⟨Token.simple TokenKind.TOK_LBRACKET ⟨itS.pos, itS.next.pos⟩, itB.next, itS.next,
                      ?_, ?_, hrelN, Or.inr ⟨(by intro hz; cases hz), by omega, hltS⟩⟩
                    · simp only [nextToken, if_neg h00B, if_neg hplusB, if_neg htimesB, if_neg hmodB, if_neg hlpB, if_neg hrpB, if_neg hlbB, if_neg hrbB, if_pos hlkB, relIt_pos h, relIt_pos hrelN]
                    · simp only [nextToken, if_neg h00, if_neg hplus, if_neg htimes, if_neg hmod, if_neg hlp, if_neg hrp, if_neg hlb, if_neg hrb, if_pos hlk]
                  · have hlkB : ¬(itB.current = '[') := by rw [hcur]; exact hlk
                    by_cases hrk : itS.current = ']'
                    · have hrkB : itB.current = ']' := by rw [hcur]; exact hrk
                      left
                      refine ⟨Token.simple TokenKind.TOK_RBRACKET ⟨itS.pos, itS.next.pos⟩, itB.next, itS.next,
                        ?_, ?_, hrelN, Or.inr ⟨(by intro hz; cases hz), by omega, hltS⟩⟩
                      · simp only [nextToken, if_neg h00B, if_neg hplusB, if_neg htimesB, if_neg hmodB, if_neg hlpB, if_neg hrpB, if_neg hlbB, if_neg hrbB, if_neg hlkB, if_pos hrkB, relIt_pos h, relIt_pos hrelN]
                      · simp only [nextToken, if_neg h00, if_neg hplus, if_neg htimes, if_neg hmod, if_neg hlp, if_neg hrp, if_neg hlb, if_neg hrb, if_neg hlk, if_pos hrk]
                    · have hrkB : ¬(itB.current = ']') := by rw [hcur]; exact hrk
                      by_cases hsemi : itS.current = ';'
                      · have hsemiB : itB.current = ';' := by rw [hcur]; exact hsemi
                        left
                        refine ⟨Token.simple TokenKind.TOK_SEMI ⟨itS.pos, itS.next.pos⟩, itB.next, itS.next,
                          ?_, ?_, hrelN, Or.inr ⟨(by intro hz; cases hz), by omega, hltS⟩⟩
                        · simp only [nextToken, if_neg h00B, if_neg hplusB, if_neg htimesB, if_neg hmodB, if_neg hlpB, if_neg hrpB, if_neg hlbB, if_neg hrbB, if_neg hlkB, if_neg hrkB, if_pos hsemiB, relIt_pos h, relIt_pos hrelN]
                        · simp only [nextToken, if_neg h00, if_neg hplus, if_neg htimes, if_neg hmod, if_neg hlp, if_neg hrp, if_neg hlb, if_neg hrb, if_neg hlk, if_neg hrk, if_pos hsemi]
                      · have hsemiB : ¬(itB.current = ';') := by rw [hcur]; exact hsemi
                        by_cases hcolon : itS.current = ':'
                        · have hcolonB : itB.current = ':' := by rw [hcur]; exact hcolon
                          left
                          refine ⟨Token.simple TokenKind.TOK_COLON ⟨itS.pos, itS.next.pos⟩, itB.next, itS.next,
                            ?_, ?_, hrelN, Or.inr ⟨(by intro hz; cases hz), by omega, hltS⟩⟩
                          · simp only [nextToken, if_neg h00B, if_neg hplusB, if_neg htimesB, if_neg hmodB, if_neg hlpB, if_neg hrpB, if_neg hlbB, if_neg hrbB, if_neg hlkB, if_neg hrkB, if_neg hsemiB, if_pos hcolonB, relIt_pos h, relIt_pos hrelN]
                          · simp only [nextToken, if_neg h00, if_neg hplus, if_neg htimes, if_neg hmod, if_neg hlp, if_neg hrp, if_neg hlb, if_neg hrb, if_neg hlk, if_neg hrk, if_neg hsemi, if_pos hcolon]
                        · have hcolonB : ¬(itB.current = ':') := by rw [hcur]; exact hcolon
                          by_cases hcomma : itS.current = ','
                          · have hcommaB : itB.current = ',' := by rw [hcur]; exact hcomma
                            left
                            refine ⟨Token.simple TokenKind.TOK_COMMA ⟨itS.pos, itS.next.pos⟩, itB.next, itS.next,
                              ?_, ?_, hrelN, Or.inr ⟨(by intro hz; cases hz), by omega, hltS⟩⟩
                            · simp only [nextToken, if_neg h00B, if_neg hplusB, if_neg htimesB, if_neg hmodB, if_neg hlpB, if_neg hrpB, if_neg hlbB, if_neg hrbB, if_neg hlkB, if_neg hrkB, if_neg hsemiB, if_neg hcolonB, if_pos hcommaB, relIt_pos h, relIt_pos hrelN]
                            · simp only [nextToken, if_neg h00, if_neg hplus, if_neg htimes, if_neg hmod, if_neg hlp, if_neg hrp, if_neg hlb, if_neg hrb, if_neg hlk, if_neg hrk, if_neg hsemi, if_neg hcolon, if_pos hcomma]
                          · have hcommaB : ¬(itB.current = ',') := by rw [hcur]; exact hcomma
                            by_cases hminus : itS.current = '-'
                            · have hminusB : itB.current = '-' := by rw [hcur]; exact hminus
                              by_cases hdd : itS.next.current = '-'
                              · have hddB : itB.next.current = '-' := by rw [hcurN]; exact hdd
                                have hne2 : itB.next.current ≠ '\x00' := by rw [hddB]; decide
                                have hltS2 := relIt_pos_lt hrelN hne2
                                obtain ⟨hrelNN, hnpNN⟩ := relIt_next hrelN hne2
                                have hcurNN := relIt_current hrelNN
                                by_cases hident : isIdentStart itS.next.next.current = true
                                · have hidentB : isIdentStart itB.next.next.current = true := by
                                    rw [hcurNN]
                                    exact hident
                                  have hfB2 : s.length - itS.next.next.pos + 1 ≤ fuelB := by
                                    rw [hnpNN, hnpN]
                                    omega
                                  have hfS2 : s.length - itS.next.next.pos + 1 ≤ fuelS := by
                                    rw [hnpNN, hnpN]
                                    omega
                                  rcases lexLongFlag_rel s t fuelB fuelS itS.pos itB.next.next itS.next.next hrelNN hfB2 hfS2 with
                                      ⟨tok, it3B, it3S, heB, heS, hrel3, hp3, hkind⟩ | ⟨e, heB, heS⟩
                                  · left
                                    rw [hnpNN, hnpN] at hp3
                                    refine ⟨tok, it3B, it3S, ?_, ?_, hrel3, Or.inr ⟨hkind, by omega, hltS⟩⟩
                                    · simp only [nextToken, if_neg h00B, if_neg hplusB, if_neg htimesB, if_neg hmodB, if_neg hlpB, if_neg hrpB, if_neg hlbB, if_neg hrbB, if_neg hlkB, if_neg hrkB, if_neg hsemiB, if_neg hcolonB, if_neg hcommaB, if_pos hminusB, if_pos hddB, hidentB, if_true, relIt_pos h, heB]
                                    · simp only [nextToken, if_neg h00, if_neg hplus, if_neg htimes, if_neg hmod, if_neg hlp, if_neg hrp, if_neg hlb, if_neg hrb, if_neg hlk, if_neg hrk, if_neg hsemi, if_neg hcolon, if_neg hcomma, if_pos hminus, if_pos hdd, hident, if_true, heS]
                                  · right
                                    refine ⟨e, ?_, ?_⟩
                                    · simp only [nextToken, if_neg h00B, if_neg hplusB, if_neg htimesB, if_neg hmodB, if_neg hlpB, if_neg hrpB, if_neg hlbB, if_neg hrbB, if_neg hlkB, if_neg hrkB, if_neg hsemiB, if_neg hcolonB, if_neg hcommaB, if_pos hminusB, if_pos hddB, hidentB, if_true, relIt_pos h, heB]
                                    · simp only [nextToken, if_neg h00, if_neg hplus, if_neg htimes, if_neg hmod, if_neg hlp, if_neg hrp, if_neg hlb, if_neg hrb, if_neg hlk, if_neg hrk, if_neg hsemi, if_neg hcolon, if_neg hcomma, if_pos hminus, if_pos hdd, hident, if_true, heS]
                                · have hidentB : ¬(isIdentStart itB.next.next.current = true) := by
                                    rw [hcurNN]
                                    exact hident
                                  by_cases hcont : (!isIdentCont itS.next.next.current && !isAsciiDecDigit itS.next.next.current) = true
                                  · have hcontB : (!isIdentCont itB.next.next.current && !isAsciiDecDigit itB.next.next.current) = true := by
                                      rw [hcurNN]
                                      exact hcont
                                    left
                                    refine ⟨Token.simple TokenKind.TOK_DOUBLE_MINUS ⟨itS.pos, itS.next.next.pos⟩,
                                      itB.next.next, itS.next.next, ?_, ?_, hrelNN,
                                      Or.inr ⟨(by intro hz; cases hz), by omega, hltS⟩⟩
                                    · simp only [nextToken, if_neg h00B, if_neg hplusB, if_neg htimesB, if_neg hmodB, if_neg hlpB, if_neg hrpB, if_neg hlbB, if_neg hrbB, if_neg hlkB, if_neg hrkB, if_neg hsemiB, if_neg hcolonB, if_neg hcommaB, if_pos hminusB, if_pos hddB, hidentB,
                                        Bool.false_eq_true, if_false, hcontB, if_true, relIt_pos h, relIt_pos hrelNN]
                                    · simp only [nextToken, if_neg h00, if_neg hplus, if_neg htimes, if_neg hmod, if_neg hlp, if_neg hrp, if_neg hlb, if_neg hrb, if_neg hlk, if_neg hrk, if_neg hsemi, if_neg hcolon, if_neg hcomma, if_pos hminus, if_pos hdd, hident,
                                        Bool.false_eq_true, if_false, hcont, if_true]
                                  · have hcontB : ¬((!isIdentCont itB.next.next.current && !isAsciiDecDigit itB.next.next.current) = true) := by
                                      rw [hcurNN]
                                      exact hcont
                                    right
                                    refine ⟨LexError.invalidChar ⟨itS.getLocation.filename, itS.getLocation.line,
                                      itS.getLocation.col + 2⟩, ?_, ?_⟩
                                    · simp only [nextToken, if_neg h00B, if_neg hplusB, if_neg htimesB, if_neg hmodB, if_neg hlpB, if_neg hrpB, if_neg hlbB, if_neg hrbB, if_neg hlkB, if_neg hrkB, if_neg hsemiB, if_neg hcolonB, if_neg hcommaB, if_pos hminusB, if_pos hddB, hidentB,
                                        Bool.false_eq_true, if_false, hcontB, relIt_loc h]
                                      rfl
                                    · simp only [nextToken, if_neg h00, if_neg hplus, if_neg htimes, if_neg hmod, if_neg hlp, if_neg hrp, if_neg hlb, if_neg hrb, if_neg hlk, if_neg hrk, if_neg hsemi, if_neg hcolon, if_neg hcomma, if_pos hminus, if_pos hdd, hident,
                                        Bool.false_eq_true, if_false, hcont]
                                      rfl
                              · have hddB : ¬(itB.next.current = '-') := by rw [hcurN]; exact hdd
                                by_cases hsd : (isIdentStart itS.next.current || isAsciiDecDigit itS.next.current) = true
                                · have hsd2 : isIdentStart itS.next.current = true ∨
                                      isAsciiDecDigit itS.next.current = true := by simpa using hsd
                                  have hstart : (isIdentCont itS.next.current || isAsciiDecDigit itS.next.current) = true := by
                                    rcases hsd2 with hh | hh
                                    · simp [isIdentCont, hh]
                                    · simp [hh]
                                  have hstartB : (isIdentCont itB.next.current || isAsciiDecDigit itB.next.current) = true := by
                                    rw [hcurN]
                                    exact hstart
                                  have hsdB : (isIdentStart itB.next.current || isAsciiDecDigit itB.next.current) = true := by
                                    rw [hcurN]
                                    exact hsd
                                  have hfB2 : s.length - itS.next.pos + 1 ≤ fuelB := by
                                    rw [hnpN]
                                    omega
                                  have hfS2 : s.length - itS.next.pos + 1 ≤ fuelS := by
                                    rw [hnpN]
                                    omega
                                  obtain ⟨tok, it3B, it3S, heB, heS, hrel3, hp3, hkind⟩ :=
                                    lexShortFlag_rel s t fuelB fuelS itS.pos itB.next itS.next hrelN hstartB hfB2 hfS2
                                  left
                                  rw [hnpN] at hp3
                                  refine ⟨tok, it3B, it3S, ?_, ?_, hrel3, Or.inr ⟨hkind, by omega, hltS⟩⟩
                                  · simp only [nextToken, if_neg h00B, if_neg hplusB, if_neg htimesB, if_neg hmodB, if_neg hlpB, if_neg hrpB, if_neg hlbB, if_neg hrbB, if_neg hlkB, if_neg hrkB, if_neg hsemiB, if_neg hcolonB, if_neg hcommaB, if_pos hminusB, if_neg hddB, hsdB, if_true, relIt_pos h, heB]
                                  · simp only [nextToken, if_neg h00, if_neg hplus, if_neg htimes, if_neg hmod, if_neg hlp, if_neg hrp, if_neg hlb, if_neg hrb, if_neg hlk, if_neg hrk, if_neg hsemi, if_neg hcolon, if_neg hcomma, if_pos hminus, if_neg hdd, hsd, if_true, heS]
                                · have hsdB : ¬((isIdentStart itB.next.current || isAsciiDecDigit itB.next.current) = true) := by
                                    rw [hcurN]
                                    exact hsd
                                  left
                                  refine ⟨Token.simple TokenKind.TOK_MINUS ⟨itS.pos, itS.next.pos⟩, itB.next, itS.next,
                                    ?_, ?_, hrelN, Or.inr ⟨(by intro hz; cases hz), by omega, hltS⟩⟩
                                  · simp only [nextToken, if_neg h00B, if_neg hplusB, if_neg htimesB, if_neg hmodB, if_neg hlpB, if_neg hrpB, if_neg hlbB, if_neg hrbB, if_neg hlkB, if_neg hrkB, if_neg hsemiB, if_neg hcolonB, if_neg hcommaB, if_pos hminusB, if_neg hddB, hsdB,
                                      Bool.false_eq_true, if_false, relIt_pos h, relIt_pos hrelN]
                                  · simp only [nextToken, if_neg h00, if_neg hplus, if_neg htimes, if_neg hmod, if_neg hlp, if_neg hrp, if_neg hlb, if_neg hrb, if_neg hlk, if_neg hrk, if_neg hsemi, if_neg hcolon, if_neg hcomma, if_pos hminus, if_neg hdd, hsd,
                                      Bool.false_eq_true, if_false]
                            · have hminusB : ¬(itB.current = '-') := by rw [hcur]; exact hminus
                              by_cases hdiv : itS.current = '/'
                              · have hdivB : itB.current = '/' := by rw [hcur]; exact hdiv
                                have hpeek : itB.peek = itS.peek := relIt_peek h hltS
                                by_cases hpk : isIdentCont itS.peek = true
                                · have hpkB : isIdentCont itB.peek = true := by rw [hpeek]; exact hpk
                                  obtain ⟨tok, it3B, it3S, heB, heS, hrel3, hp3, hkind⟩ :=
                                    lexIdentOrKeyword_rel s t fuelB fuelS itB itS h hne hfB hfS
                                  left
                                  refine ⟨tok, it3B, it3S, ?_, ?_, hrel3, Or.inr ⟨hkind, hp3, hltS⟩⟩
                                  · simp only [nextToken, if_neg h00B, if_neg hplusB, if_neg htimesB, if_neg hmodB, if_neg hlpB, if_neg hrpB, if_neg hlbB, if_neg hrbB, if_neg hlkB, if_neg hrkB, if_neg hsemiB, if_neg hcolonB, if_neg hcommaB, if_neg hminusB, if_pos hdivB, hpkB, if_true, heB]
                                  · simp only [nextToken, if_neg h00, if_neg hplus, if_neg htimes, if_neg hmod, if_neg hlp, if_neg hrp, if_neg hlb, if_neg hrb, if_neg hlk, if_neg hrk, if_neg hsemi, if_neg hcolon, if_neg hcomma, if_neg hminus, if_pos hdiv, hpk, if_true, heS]
                                · have hpkB : ¬(isIdentCont itB.peek = true) := by rw [hpeek]; exact hpk
                                  left
                                  refine ⟨Token.simple TokenKind.TOK_DIVIDE ⟨itS.pos, itS.next.pos⟩, itB.next, itS.next,
                                    ?_, ?_, hrelN, Or.inr ⟨(by intro hz; cases hz), by omega, hltS⟩⟩
                                  · simp only [nextToken, if_neg h00B, if_neg hplusB, if_neg htimesB, if_neg hmodB, if_neg hlpB, if_neg hrpB, if_neg hlbB, if_neg hrbB, if_neg hlkB, if_neg hrkB, if_neg hsemiB, if_neg hcolonB, if_neg hcommaB, if_neg hminusB, if_pos hdivB, hpkB, Bool.false_eq_true, if_false,
                                      relIt_pos h, relIt_pos hrelN]
                                  · simp only [nextToken, if_neg h00, if_neg hplus, if_neg htimes, if_neg hmod, if_neg hlp, if_neg hrp, if_neg hlb, if_neg hrb, if_neg hlk, if_neg hrk, if_neg hsemi, if_neg hcolon, if_neg hcomma, if_neg hminus, if_pos hdiv, hpk, Bool.false_eq_true, if_false]
                              · have hdivB : ¬(itB.current = '/') := by rw [hcur]; exact hdiv
                                by_cases hless : itS.current = '<'
                                · have hlessB : itB.current = '<' := by rw [hcur]; exact hless
                                  by_cases hshl : itS.next.current = '<'
                                  · have hshlB : itB.next.current = '<' := by rw [hcurN]; exact hshl
                                    have hne2 : itB.next.current ≠ '\x00' := by rw [hshlB]; decide
                                    obtain ⟨hrelNN, hnpNN⟩ := relIt_next hrelN hne2
                                    left
                                    refine ⟨Token.simple TokenKind.TOK_SHL ⟨itS.pos, itS.next.next.pos⟩,
                                      itB.next.next, itS.next.next, ?_, ?_, hrelNN,
                                      Or.inr ⟨(by intro hz; cases hz), by omega, hltS⟩⟩
                                    · simp only [nextToken, if_neg h00B, if_neg hplusB, if_neg htimesB, if_neg hmodB, if_neg hlpB, if_neg hrpB, if_neg hlbB, if_neg hrbB, if_neg hlkB, if_neg hrkB, if_neg hsemiB, if_neg hcolonB, if_neg hcommaB, if_neg hminusB, if_neg hdivB, if_pos hlessB, if_pos hshlB,
                                        relIt_pos h, relIt_pos hrelNN]
                                    · simp only [nextToken, if_neg h00, if_neg hplus, if_neg htimes, if_neg hmod, if_neg hlp, if_neg hrp, if_neg hlb, if_neg hrb, if_neg hlk, if_neg hrk, if_neg hsemi, if_neg hcolon, if_neg hcomma, if_neg hminus, if_neg hdiv, if_pos hless, if_pos hshl]
                                  · have hshlB : ¬(itB.next.current = '<') := by rw [hcurN]; exact hshl
                                    by_cases hleq : itS.next.current = '='
                                    · have hleqB : itB.next.current = '=' := by rw [hcurN]; exact hleq
                                      have hne2 : itB.next.current ≠ '\x00' := by rw [hleqB]; decide
                                      obtain ⟨hrelNN, hnpNN⟩ := relIt_next hrelN hne2
                                      left
                                      refine ⟨Token.simple TokenKind.TOK_LESS_EQ ⟨itS.pos, itS.next.next.pos⟩,
                                        itB.next.next, itS.next.next, ?_, ?_, hrelNN,
                                        Or.inr ⟨(by intro hz; cases hz), by omega, hltS⟩⟩
                                      · simp only [nextToken, if_neg h00B, if_neg hplusB, if_neg htimesB, if_neg hmodB, if_neg hlpB, if_neg hrpB, if_neg hlbB, if_neg hrbB, if_neg hlkB, if_neg hrkB, if_neg hsemiB, if_neg hcolonB, if_neg hcommaB, if_neg hminusB, if_neg hdivB, if_pos hlessB, if_neg hshlB, if_pos hleqB,
                                          relIt_pos h, relIt_pos hrelNN]
                                      · simp only [nextToken, if_neg h00, if_neg hplus, if_neg htimes, if_neg hmod, if_neg hlp, if_neg hrp, if_neg hlb, if_neg hrb, if_neg hlk, if_neg hrk, if_neg hsemi, if_neg hcolon, if_neg hcomma, if_neg hminus, if_neg hdiv, if_pos hless, if_neg hshl, if_pos hleq]
                                    · have hleqB : ¬(itB.next.current = '=') := by rw [hcurN]; exact hleq
                                      left
                                      refine ⟨Token.simple TokenKind.TOK_LESS ⟨itS.pos, itS.next.pos⟩, itB.next, itS.next,
                                        ?_, ?_, hrelN, Or.inr ⟨(by intro hz; cases hz), by omega, hltS⟩⟩
                                      · simp only [nextToken, if_neg h00B, if_neg hplusB, if_neg htimesB, if_neg hmodB, if_neg hlpB, if_neg hrpB, if_neg hlbB, if_neg hrbB, if_neg hlkB, if_neg hrkB, if_neg hsemiB, if_neg hcolonB, if_neg hcommaB, if_neg hminusB, if_neg hdivB, if_pos hlessB, if_neg hshlB, if_neg hleqB,
                                          relIt_pos h, relIt_pos hrelN]
                                      · simp only [nextToken, if_neg h00, if_neg hplus, if_neg htimes, if_neg hmod, if_neg hlp, if_neg hrp, if_neg hlb, if_neg hrb, if_neg hlk, if_neg hrk, if_neg hsemi, if_neg hcolon, if_neg hcomma, if_neg hminus, if_neg hdiv, if_pos hless, if_neg hshl, if_neg hleq]
                                · have hlessB : ¬(itB.current = '<') := by rw [hcur]; exact hless
                                  by_cases hgt : itS.current = '>'
                                  · have hgtB : itB.current = '>' := by rw [hcur]; exact hgt
                                    by_cases hshr : itS.next.current = '>'
                                    · have hshrB : itB.next.current = '>' := by rw [hcurN]; exact hshr
                                      have hne2 : itB.next.current ≠ '\x00' := by rw [hshrB]; decide
                                      obtain ⟨hrelNN, hnpNN⟩ := relIt_next hrelN hne2
                                      left
                                      refine ⟨Token.simple TokenKind.TOK_SHR ⟨itS.pos, itS.next.next.pos⟩,
                                        itB.next.next, itS.next.next, ?_, ?_, hrelNN,
                                        Or.inr ⟨(by intro hz; cases hz), by omega, hltS⟩⟩
                                      · simp only [nextToken, if_neg h00B, if_neg hplusB, if_neg htimesB, if_neg hmodB, if_neg hlpB, if_neg hrpB, if_neg hlbB, if_neg hrbB, if_neg hlkB, if_neg hrkB, if_neg hsemiB, if_neg hcolonB, if_neg hcommaB, if_neg hminusB, if_neg hdivB, if_neg hlessB, if_pos hgtB, if_pos hshrB,
                                          relIt_pos h, relIt_pos hrelNN]
                                      · simp only [nextToken, if_neg h00, if_neg hplus, if_neg htimes, if_neg hmod, if_neg hlp, if_neg hrp, if_neg hlb, if_neg hrb, if_neg hlk, if_neg hrk, if_neg hsemi, if_neg hcolon, if_neg hcomma, if_neg hminus, if_neg hdiv, if_neg hless, if_pos hgt, if_pos hshr]
                                    · have hshrB : ¬(itB.next.current = '>') := by rw [hcurN]; exact hshr
                                      by_cases hgeq : itS.next.current = '='
                                      · have hgeqB : itB.next.current = '=' := by rw [hcurN]; exact hgeq
                                        have hne2 : itB.next.current ≠ '\x00' := by rw [hgeqB]; decide
                                        obtain ⟨hrelNN, hnpNN⟩ := relIt_next hrelN hne2
                                        left
                                        refine ⟨Token.simple TokenKind.TOK_GREATER_EQ ⟨itS.pos, itS.next.next.pos⟩,
                                          itB.next.next, itS.next.next, ?_, ?_, hrelNN,
                                          Or.inr ⟨(by intro hz; cases hz), by omega, hltS⟩⟩
                                        · simp only [nextToken, if_neg h00B, if_neg hplusB, if_neg htimesB, if_neg hmodB, if_neg hlpB, if_neg hrpB, if_neg hlbB, if_neg hrbB, if_neg hlkB, if_neg hrkB, if_neg hsemiB, if_neg hcolonB, if_neg hcommaB, if_neg hminusB, if_neg hdivB, if_neg hlessB, if_pos hgtB, if_neg hshrB, if_pos hgeqB,
                                            relIt_pos h, relIt_pos hrelNN]
                                        · simp only [nextToken, if_neg h00, if_neg hplus, if_neg htimes, if_neg hmod, if_neg hlp, if_neg hrp, if_neg hlb, if_neg hrb, if_neg hlk, if_neg hrk, if_neg hsemi, if_neg hcolon, if_neg hcomma, if_neg hminus, if_neg hdiv, if_neg hless, if_pos hgt, if_neg hshr, if_pos hgeq]
                                      · have hgeqB : ¬(itB.next.current = '=') := by rw [hcurN]; exact hgeq
                                        left
                                        refine ⟨Token.simple TokenKind.TOK_GREATER ⟨itS.pos, itS.next.pos⟩, itB.next, itS.next,
                                          ?_, ?_, hrelN, Or.inr ⟨(by intro hz; cases hz), by omega, hltS⟩⟩
                                        · simp only [nextToken, if_neg h00B, if_neg hplusB, if_neg htimesB, if_neg hmodB, if_neg hlpB, if_neg hrpB, if_neg hlbB, if_neg hrbB, if_neg hlkB, if_neg hrkB, if_neg hsemiB, if_neg hcolonB, if_neg hcommaB, if_neg hminusB, if_neg hdivB, if_neg hlessB, if_pos hgtB, if_neg hshrB, if_neg hgeqB,
                                            relIt_pos h, relIt_pos hrelN]
                                        · simp only [nextToken, if_neg h00, if_neg hplus, if_neg htimes, if_neg hmod, if_neg hlp, if_neg hrp, if_neg hlb, if_neg hrb, if_neg hlk, if_neg hrk, if_neg hsemi, if_neg hcolon, if_neg hcomma, if_neg hminus, if_neg hdiv, if_neg hless, if_pos hgt, if_neg hshr, if_neg hgeq]
                                  · have hgtB : ¬(itB.current = '>') := by rw [hcur]; exact hgt
                                    by_cases heq2 : itS.current = '='
                                    · have heq2B : itB.current = '=' := by rw [hcur]; exact heq2
                                      by_cases heqq : itS.next.current = '='
                                      · have heqqB : itB.next.current = '=' := by rw [hcurN]; exact heqq
                                        have hne2 : itB.next.current ≠ '\x00' := by rw [heqqB]; decide
                                        obtain ⟨hrelNN, hnpNN⟩ := relIt_next hrelN hne2
                                        left
                                        refine ⟨Token.simple TokenKind.TOK_EQ ⟨itS.pos, itS.next.next.pos⟩,
                                          itB.next.next, itS.next.next, ?_, ?_, hrelNN,
                                          Or.inr ⟨(by intro hz; cases hz), by omega, hltS⟩⟩
                                        · simp only [nextToken, if_neg h00B, if_neg hplusB, if_neg htimesB, if_neg hmodB, if_neg hlpB, if_neg hrpB, if_neg hlbB, if_neg hrbB, if_neg hlkB, if_neg hrkB, if_neg hsemiB, if_neg hcolonB, if_neg hcommaB, if_neg hminusB, if_neg hdivB, if_neg hlessB, if_neg hgtB, if_pos heq2B, if_pos heqqB,
                                            relIt_pos h, relIt_pos hrelNN]
                                        · simp only [nextToken, if_neg h00, if_neg hplus, if_neg htimes, if_neg hmod, if_neg hlp, if_neg hrp, if_neg hlb, if_neg hrb, if_neg hlk, if_neg hrk, if_neg hsemi, if_neg hcolon, if_neg hcomma, if_neg hminus, if_neg hdiv, if_neg hless, if_neg hgt, if_pos heq2, if_pos heqq]
                                      · have heqqB : ¬(itB.next.current = '=') := by rw [hcurN]; exact heqq
                                        left
                                        refine ⟨Token.simple TokenKind.TOK_ASSIGN ⟨itS.pos, itS.next.pos⟩, itB.next, itS.next,
                                          ?_, ?_, hrelN, Or.inr ⟨(by intro hz; cases hz), by omega, hltS⟩⟩
                                        · simp only [nextToken, if_neg h00B, if_neg hplusB, if_neg htimesB, if_neg hmodB, if_neg hlpB, if_neg hrpB, if_neg hlbB, if_neg hrbB, if_neg hlkB, if_neg hrkB, if_neg hsemiB, if_neg hcolonB, if_neg hcommaB, if_neg hminusB, if_neg hdivB, if_neg hlessB, if_neg hgtB, if_pos heq2B, if_neg heqqB,
                                            relIt_pos h, relIt_pos hrelN]
                                        · simp only [nextToken, if_neg h00, if_neg hplus, if_neg htimes, if_neg hmod, if_neg hlp, if_neg hrp, if_neg hlb, if_neg hrb, if_neg hlk, if_neg hrk, if_neg hsemi, if_neg hcolon, if_neg hcomma, if_neg hminus, if_neg hdiv, if_neg hless, if_neg hgt, if_pos heq2, if_neg heqq]
                                    · have heq2B : ¬(itB.current = '=') := by rw [hcur]; exact heq2
                                      by_cases hbang : itS.current = '!'
                                      · have hbangB : itB.current = '!' := by rw [hcur]; exact hbang
                                        by_cases hneq : itS.next.current = '='
                                        · have hneqB : itB.next.current = '=' := by rw [hcurN]; exact hneq
                                          have hne2 : itB.next.current ≠ '\x00' := by rw [hneqB]; decide
                                          obtain ⟨hrelNN, hnpNN⟩ := relIt_next hrelN hne2
                                          left
                                          refine ⟨Token.simple TokenKind.TOK_NOT_EQ ⟨itS.pos, itS.next.next.pos⟩,
                                            itB.next.next, itS.next.next, ?_, ?_, hrelNN,
                                            Or.inr ⟨(by intro hz; cases hz), by omega, hltS⟩⟩
                                          · simp only [nextToken, if_neg h00B, if_neg hplusB, if_neg htimesB, if_neg hmodB, if_neg hlpB, if_neg hrpB, if_neg hlbB, if_neg hrbB, if_neg hlkB, if_neg hrkB, if_neg hsemiB, if_neg hcolonB, if_neg hcommaB, if_neg hminusB, if_neg hdivB, if_neg hlessB, if_neg hgtB, if_neg heq2B, if_pos hbangB, if_pos hneqB,
                                              relIt_pos h, relIt_pos hrelNN]
                                          · simp only [nextToken, if_neg h00, if_neg hplus, if_neg htimes, if_neg hmod, if_neg hlp, if_neg hrp, if_neg hlb, if_neg hrb, if_neg hlk, if_neg hrk, if_neg hsemi, if_neg hcolon, if_neg hcomma, if_neg hminus, if_neg hdiv, if_neg hless, if_neg hgt, if_neg heq2, if_pos hbang, if_pos hneq]
                                        · have hneqB : ¬(itB.next.current = '=') := by rw [hcurN]; exact hneq
                                          left
                                          refine ⟨Token.simple TokenKind.TOK_NOT ⟨itS.pos, itS.next.pos⟩, itB.next, itS.next,
                                            ?_, ?_, hrelN, Or.inr ⟨(by intro hz; cases hz), by omega, hltS⟩⟩
                                          · simp only [nextToken, if_neg h00B, if_neg hplusB, if_neg htimesB, if_neg hmodB, if_neg hlpB, if_neg hrpB, if_neg hlbB, if_neg hrbB, if_neg hlkB, if_neg hrkB, if_neg hsemiB, if_neg hcolonB, if_neg hcommaB, if_neg hminusB, if_neg hdivB, if_neg hlessB, if_neg hgtB, if_neg heq2B, if_pos hbangB, if_neg hneqB,
                                              relIt_pos h, relIt_pos hrelN]
                                          · simp only [nextToken, if_neg h00, if_neg hplus, if_neg htimes, if_neg hmod, if_neg hlp, if_neg hrp, if_neg hlb, if_neg hrb, if_neg hlk, if_neg hrk, if_neg hsemi, if_neg hcolon, if_neg hcomma, if_neg hminus, if_neg hdiv, if_neg hless, if_neg hgt, if_neg heq2, if_pos hbang, if_neg hneq]
                                      · have hbangB : ¬(itB.current = '!') := by rw [hcur]; exact hbang
                                        by_cases hq : itS.current = '\"'
                                        · have hqB : itB.current = '\"' := by rw [hcur]; exact hq
                                          rcases lexString_rel s t fuelB fuelS itB itS h hqB hfB hfS with
                                              ⟨tok, it3B, it3S, heB, heS, hrel3, hp3, hkind⟩ | ⟨e, heB, heS⟩
                                          · left
                                            refine ⟨tok, it3B, it3S, ?_, ?_, hrel3, Or.inr ⟨hkind, hp3, hltS⟩⟩
                                            · simp only [nextToken, if_neg h00B, if_neg hplusB, if_neg htimesB, if_neg hmodB, if_neg hlpB, if_neg hrpB, if_neg hlbB, if_neg hrbB, if_neg hlkB, if_neg hrkB, if_neg hsemiB, if_neg hcolonB, if_neg hcommaB, if_neg hminusB, if_neg hdivB, if_neg hlessB, if_neg hgtB, if_neg heq2B, if_neg hbangB, if_pos hqB, heB]
                                            · simp only [nextToken, if_neg h00, if_neg hplus, if_neg htimes, if_neg hmod, if_neg hlp, if_neg hrp, if_neg hlb, if_neg hrb, if_neg hlk, if_neg hrk, if_neg hsemi, if_neg hcolon, if_neg hcomma, if_neg hminus, if_neg hdiv, if_neg hless, if_neg hgt, if_neg heq2, if_neg hbang, if_pos hq, heS]
                                          · right
                                            refine ⟨e, ?_, ?_⟩
                                            · simp only [nextToken, if_neg h00B, if_neg hplusB, if_neg htimesB, if_neg hmodB, if_neg hlpB, if_neg hrpB, if_neg hlbB, if_neg hrbB, if_neg hlkB, if_neg hrkB, if_neg hsemiB, if_neg hcolonB, if_neg hcommaB, if_neg hminusB, if_neg hdivB, if_neg hlessB, if_neg hgtB, if_neg heq2B, if_neg hbangB, if_pos hqB, heB]
                                            · simp only [nextToken, if_neg h00, if_neg hplus, if_neg htimes, if_neg hmod, if_neg hlp, if_neg hrp, if_neg hlb, if_neg hrb, if_neg hlk, if_neg hrk, if_neg hsemi, if_neg hcolon, if_neg hcomma, if_neg hminus, if_neg hdiv, if_neg hless, if_neg hgt, if_neg heq2, if_neg hbang, if_pos hq, heS]
                                        · have hqB : ¬(itB.current = '\"') := by rw [hcur]; exact hq
                                          by_cases hdg : isAsciiDecDigit itS.current = true
                                          · have hdgB : isAsciiDecDigit itB.current = true := by rw [hcur]; exact hdg
                                            rcases lexNumber_rel s t fuelB fuelS itB itS h hdgB hfB hfS with
                                                ⟨tok, it3B, it3S, heB, heS, hrel3, hp3, hkind⟩ | ⟨e, heB, heS⟩
                                            · left
                                              refine ⟨tok, it3B, it3S, ?_, ?_, hrel3, Or.inr ⟨hkind, hp3, hltS⟩⟩
                                              · simp only [nextToken, if_neg h00B, if_neg hplusB, if_neg htimesB, if_neg hmodB, if_neg hlpB, if_neg hrpB, if_neg hlbB, if_neg hrbB, if_neg hlkB, if_neg hrkB, if_neg hsemiB, if_neg hcolonB, if_neg hcommaB, if_neg hminusB, if_neg hdivB, if_neg hlessB, if_neg hgtB, if_neg heq2B, if_neg hbangB, if_neg hqB, hdgB, if_true, heB]
                                              · simp only [nextToken, if_neg h00, if_neg hplus, if_neg htimes, if_neg hmod, if_neg hlp, if_neg hrp, if_neg hlb, if_neg hrb, if_neg hlk, if_neg hrk, if_neg hsemi, if_neg hcolon, if_neg hcomma, if_neg hminus, if_neg hdiv, if_neg hless, if_neg hgt, if_neg heq2, if_neg hbang, if_neg hq, hdg, if_true, heS]
                                            · right
                                              refine ⟨e, ?_, ?_⟩
                                              · simp only [nextToken, if_neg h00B, if_neg hplusB, if_neg htimesB, if_neg hmodB, if_neg hlpB, if_neg hrpB, if_neg hlbB, if_neg hrbB, if_neg hlkB, if_neg hrkB, if_neg hsemiB, if_neg hcolonB, if_neg hcommaB, if_neg hminusB, if_neg hdivB, if_neg hlessB, if_neg hgtB, if_neg heq2B, if_neg hbangB, if_neg hqB, hdgB, if_true, heB]
                                              · simp only [nextToken, if_neg h00, if_neg hplus, if_neg htimes, if_neg hmod, if_neg hlp, if_neg hrp, if_neg hlb, if_neg hrb, if_neg hlk, if_neg hrk, if_neg hsemi, if_neg hcolon, if_neg hcomma, if_neg hminus, if_neg hdiv, if_neg hless, if_neg hgt, if_neg heq2, if_neg hbang, if_neg hq, hdg, if_true, heS]
                                          · have hdgB : ¬(isAsciiDecDigit itB.current = true) := by rw [hcur]; exact hdg
                                            by_cases hid : isIdentStart itS.current = true
                                            · have hidB : isIdentStart itB.current = true := by rw [hcur]; exact hid
                                              obtain ⟨tok, it3B, it3S, heB, heS, hrel3, hp3, hkind⟩ :=
                                                lexIdentOrKeyword_rel s t fuelB fuelS itB itS h hne hfB hfS
                                              left
                                              refine ⟨tok, it3B, it3S, ?_, ?_, hrel3, Or.inr ⟨hkind, hp3, hltS⟩⟩
                                              · simp only [nextToken, if_neg h00B, if_neg hplusB, if_neg htimesB, if_neg hmodB, if_neg hlpB, if_neg hrpB, if_neg hlbB, if_neg hrbB, if_neg hlkB, if_neg hrkB, if_neg hsemiB, if_neg hcolonB, if_neg hcommaB, if_neg hminusB, if_neg hdivB, if_neg hlessB, if_neg hgtB, if_neg heq2B, if_neg hbangB, if_neg hqB, if_neg hdgB, hidB, if_true, heB]
                                              · simp only [nextToken, if_neg h00, if_neg hplus, if_neg htimes, if_neg hmod, if_neg hlp, if_neg hrp, if_neg hlb, if_neg hrb, if_neg hlk, if_neg hrk, if_neg hsemi, if_neg hcolon, if_neg hcomma, if_neg hminus, if_neg hdiv, if_neg hless, if_neg hgt, if_neg heq2, if_neg hbang, if_neg hq, if_neg hdg, hid, if_true, heS]
                                            · have hidB : ¬(isIdentStart itB.current = true) := by rw [hcur]; exact hid
                                              right
                                              refine ⟨LexError.invalidChar itS.getLocation, ?_, ?_⟩
                                              · simp only [nextToken, if_neg h00B, if_neg hplusB, if_neg htimesB, if_neg hmodB, if_neg hlpB, if_neg hrpB, if_neg hlbB, if_neg hrbB, if_neg hlkB, if_neg hrkB, if_neg hsemiB, if_neg hcolonB, if_neg hcommaB, if_neg hminusB, if_neg hdivB, if_neg hlessB, if_neg hgtB, if_neg heq2B, if_neg hbangB, if_neg hqB, if_neg hdgB, hidB, hdgB, relIt_loc h]
                                                rfl
                                              · simp only [nextToken, if_neg h00, if_neg hplus, if_neg htimes, if_neg hmod, if_neg hlp, if_neg hrp, if_neg hlb, if_neg hrb, if_neg hlk, if_neg hrk, if_neg hsemi, if_neg hcolon, if_neg hcomma, if_neg hminus, if_neg hdiv, if_neg hless, if_neg hgt, if_neg heq2, if_neg hbang, if_neg hq, if_neg hdg, hid, hdg]
                                                rfl

end lexer
namespace lexer

theorem lexAll_rel (s t : List Char) :
    ∀ (fuelB : Nat) (fuelS : Nat) (itB itS : SourceIterator), relIt s t itB itS →
    s.length - itS.pos + 2 ≤ fuelB → s.length - itS.pos + 2 ≤ fuelS →
    (∃ ts q, lexAll fuelB itB = .ok (ts ++ [Token.simple TokenKind.TOK_EOF ⟨q, q⟩]) ∧
      lexAll fuelS itS = .ok (ts ++ [Token.simple TokenKind.TOK_EOF ⟨q, q⟩]) ∧
      q ≤ s.length ∧ charAtD s q = '\x00') ∨
    (∃ e, lexAll fuelB itB = .error (.err e) ∧ lexAll fuelS itS = .error (.err e)) := by
  intro fuelB
  induction fuelB with
  | zero => intro fuelS itB itS h hB hS; omega
  | succ fuelB ih =>
    intro fuelS itB itS h hB hS
    cases fuelS with
    | zero => omega
    | succ fuelS =>
      have hfeB : s.length - itS.pos + 1 ≤ fuelB := by omega
      have hfeS : s.length - itS.pos + 1 ≤ fuelS := by omega
      obtain ⟨it1B, it1S, he1B, he1S, hrel1, hp1⟩ :=
        eatW_rel s t fuelB fuelS itB itS h hfeB hfeS
      have hle1 := relIt_le hrel1
      have hfe1B : s.length - it1S.pos + 1 ≤ fuelB := by omega
      have hfe1S : s.length - it1S.pos + 1 ≤ fuelS := by omega
      rcases nextToken_rel s t fuelB fuelS it1B it1S hrel1 hfe1B hfe1S with
          ⟨tok, it2B, it2S, he2B, he2S, hrel2, hdisj⟩ | ⟨e, he2B, he2S⟩
      · rcases hdisj with ⟨htok, _, _, hnul⟩ | ⟨hkind, hlt2, hlt1⟩
        · left
          subst htok
          have hk : (Token.simple TokenKind.TOK_EOF ⟨it1S.pos, it1S.pos⟩).getKind =
              TokenKind.TOK_EOF := rfl
          have hnul' : charAtD s it1S.pos = '\x00' := by
            have := hnul
            simp only [SourceIterator.current, hrel1.2.1] at this
            exact this
          refine ⟨[], it1S.pos, ?_, ?_, hle1, hnul'⟩
          · simp only [lexAll, he1B, okBind, he2B, if_pos hk, List.nil_append]
          · simp only [lexAll, he1S, okBind, he2S, if_pos hk, List.nil_append]
        · have hfe2B : s.length - it2S.pos + 2 ≤ fuelB := by omega
          have hfe2S : s.length - it2S.pos + 2 ≤ fuelS := by omega
          rcases ih fuelS it2B it2S hrel2 hfe2B hfe2S with
              ⟨ts, q, he3B, he3S, hq1, hq2⟩ | ⟨e, he3B, he3S⟩
          · left
            refine ⟨tok :: ts, q, ?_, ?_, hq1, hq2⟩
            · simp only [lexAll, he1B, okBind, he2B, if_neg hkind, he3B, List.cons_append]
            · simp only [lexAll, he1S, okBind, he2S, if_neg hkind, he3S, List.cons_append]
          · right
            refine ⟨e, ?_, ?_⟩
            · simp only [lexAll, he1B, okBind, he2B, if_neg hkind, he3B, errBind]
            · simp only [lexAll, he1S, okBind, he2S, if_neg hkind, he3S, errBind]
      · right
        refine ⟨e, ?_, ?_⟩
        · simp only [lexAll, he1B, okBind, he2B, errBind]
        · simp only [lexAll, he1S, okBind, he2S, errBind]

/-- C9: for an input buffer that contains a NUL byte, tokenization treats the
first NUL as end of input.  Formally, for a NUL-free prefix `s` and arbitrary
tail `t`, tokenizing `s ++ '\x00' :: t` produces exactly the same outcome as
tokenizing `s` alone — no token is derived from any character after the first
NUL — and when it succeeds the returned sequence ends with the `TOK_EOF`
end-marker token whose span sits at the first NUL's position `s.length`. -/
theorem claim_C9_nul_truncates_input (s t : List Char) (filename : String)
    (hs : ∀ c ∈ s, c ≠ '\x00') :
    tokenizeL (s ++ '\x00' :: t) filename = tokenizeL s filename ∧
    ((∃ ts, tokenizeL (s ++ '\x00' :: t) filename =
        .ok (ts ++ [Token.simple TokenKind.TOK_EOF ⟨s.length, s.length⟩])) ∨
      (∃ e, tokenizeL (s ++ '\x00' :: t) filename = .error (.err e))) := by
  have hrel0 : relIt s t ⟨s ++ '\x00' :: t, filename, 1, 1, 0⟩ ⟨s, filename, 1, 1, 0⟩ :=
    ⟨rfl, rfl, rfl, rfl, rfl, rfl, Nat.zero_le _⟩
  have hfB : s.length - (⟨s, filename, 1, 1, 0⟩ : SourceIterator).pos + 2 ≤
      (s ++ '\x00' :: t).length + 2 := by
    simp [List.length_append]
  have hfS : s.length - (⟨s, filename, 1, 1, 0⟩ : SourceIterator).pos + 2 ≤
      s.length + 2 := by
    simp
  rcases lexAll_rel s t ((s ++ '\x00' :: t).length + 2) (s.length + 2) _ _ hrel0 hfB hfS
      with ⟨ts, q, heB, heS, hq1, hq2⟩ | ⟨e, heB, heS⟩
  · have hq : q = s.length := by
      rcases Nat.lt_or_ge q s.length with hlt | hge
      · exfalso
        have hmem : s.get ⟨q, hlt⟩ ∈ s := List.get_mem s q hlt
        have hz : s.get ⟨q, hlt⟩ = '\x00' := by
          have := hq2
          simp only [charAtD, List.getD_eq_getElem?_getD,
            List.getElem?_eq_getElem hlt] at this
          simpa using this
        exact hs _ hmem hz
      · omega
    subst hq
    refine ⟨?_, Or.inl ⟨ts, ?_⟩⟩
    · simp only [tokenizeL]
      rw [heB, heS]
    · simp only [tokenizeL]
      rw [heB]
  · refine ⟨?_, Or.inr ⟨e, ?_⟩⟩
    · simp only [tokenizeL]
      rw [heB, heS]
    · simp only [tokenizeL]
      rw [heB]

theorem claim_C9_nul_truncates_input_witness :
    (∀ c ∈ ['a', 'b'], c ≠ '\x00') ∧
    (tokenizeL (['a', 'b'] ++ '\x00' :: ['c', 'd']) "f" = tokenizeL ['a', 'b'] "f" ∧
      ((∃ ts, tokenizeL (['a', 'b'] ++ '\x00' :: ['c', 'd']) "f" =
          .ok (ts ++ [Token.simple TokenKind.TOK_EOF ⟨2, 2⟩])) ∨
        (∃ e, tokenizeL (['a', 'b'] ++ '\x00' :: ['c', 'd']) "f" = .error (.err e)))) :=
  ⟨by decide, claim_C9_nul_truncates_input ['a', 'b'] ['c', 'd'] "f" (by decide)⟩

end lexer
